import Mathlib

/-!
# Verification of the portkey federation gateway core

A shallow embedding, in Lean 4, of the core of the `portkey` federation
gateway (schema registry, query planner, query executor, gateway facade),
translated from the Rust sources (`src/schema_registry.rs`,
`src/query_planner.rs`, `src/query_executor.rs`, `src/federation_gateway.rs`,
`src/lib.rs`), together with theorems settling the specification's claims.

Modelling conventions:
* `serde_json::Value` becomes the inductive `Json`; `serde_json::Map` is a
  `BTreeMap` in Rust (sorted, unique keys), so JSON objects are association
  lists into which insertion (`Json.insObj`) keeps keys strictly sorted.
* Rust `HashMap`s become association lists with unique keys; their
  iteration order is arbitrary, so theorems about iteration quantify over
  the list order.
* `async` fan-out is modelled by an `outcome` function giving each
  service's response (`Except`-valued: transport/parse failure or JSON).
* Fallible Rust functions returning `Result<T, String>` become
  `Except String T`.
-/

namespace Portkey

/-- Lexicographic (byte-order) comparison of character lists; UTF-8 is
order-preserving, so codepoint order coincides with Rust's byte-wise
`Ord` on `String`, the order of `BTreeMap` keys. -/
def strLtAux : List Char → List Char → Bool
  | [], [] => false
  | [], _ :: _ => true
  | _ :: _, [] => false
  | a :: as, b :: bs =>
    if a.toNat < b.toNat then true
    else if b.toNat < a.toNat then false
    else strLtAux as bs

/-- Rust's `String` ordering (used by `BTreeMap`), as a kernel-computable
Boolean comparison. -/
def strLt (a b : String) : Bool := strLtAux a.data b.data

/-- JSON values.  Objects carry their fields as an association list; the
fields of every object produced by `serde_json` are sorted by key with no
duplicates (`serde_json::Map` is a `BTreeMap`). -/
inductive Json where
  | null : Json
  | bool (b : Bool) : Json
  | num (n : Int) : Json
  | str (s : String) : Json
  | arr (items : List Json) : Json
  | obj (fields : List (String × Json)) : Json
  deriving Repr

namespace Json

/-- Decidable equality for `Json` (written by hand: the nested `List`
occurrences defeat the automatic deriver). -/
def decEq : (a b : Json) → Decidable (a = b)
  | .null, .null => .isTrue rfl
  | .bool a, .bool b =>
    if h : a = b then .isTrue (by rw [h]) else .isFalse (by simp [h])
  | .num a, .num b =>
    if h : a = b then .isTrue (by rw [h]) else .isFalse (by simp [h])
  | .str a, .str b =>
    if h : a = b then .isTrue (by rw [h]) else .isFalse (by simp [h])
  | .arr [], .arr [] => .isTrue rfl
  | .arr [], .arr (_ :: _) => .isFalse (by simp)
  | .arr (_ :: _), .arr [] => .isFalse (by simp)
  | .arr (x :: xs), .arr (y :: ys) =>
    match decEq x y, decEq (.arr xs) (.arr ys) with
    | .isTrue h1, .isTrue h2 => .isTrue (by simp_all)
    | .isFalse h1, _ => .isFalse (by simp_all)
    | _, .isFalse h2 => .isFalse (by simp_all)
  | .obj [], .obj [] => .isTrue rfl
  | .obj [], .obj (_ :: _) => .isFalse (by simp)
  | .obj (_ :: _), .obj [] => .isFalse (by simp)
  | .obj ((k, v) :: xs), .obj ((k', v') :: ys) =>
    match decidable_of_iff (k = k') Iff.rfl, decEq v v',
        decEq (.obj xs) (.obj ys) with
    | .isTrue h0, .isTrue h1, .isTrue h2 => .isTrue (by simp_all)
    | .isFalse h0, _, _ => .isFalse (by simp_all)
    | _, .isFalse h1, _ => .isFalse (by simp_all)
    | _, _, .isFalse h2 => .isFalse (by simp_all)
  | .null, .bool _ => .isFalse (by simp)
  | .null, .num _ => .isFalse (by simp)
  | .null, .str _ => .isFalse (by simp)
  | .null, .arr _ => .isFalse (by simp)
  | .null, .obj _ => .isFalse (by simp)
  | .bool _, .null => .isFalse (by simp)
  | .bool _, .num _ => .isFalse (by simp)
  | .bool _, .str _ => .isFalse (by simp)
  | .bool _, .arr _ => .isFalse (by simp)
  | .bool _, .obj _ => .isFalse (by simp)
  | .num _, .null => .isFalse (by simp)
  | .num _, .bool _ => .isFalse (by simp)
  | .num _, .str _ => .isFalse (by simp)
  | .num _, .arr _ => .isFalse (by simp)
  | .num _, .obj _ => .isFalse (by simp)
  | .str _, .null => .isFalse (by simp)
  | .str _, .bool _ => .isFalse (by simp)
  | .str _, .num _ => .isFalse (by simp)
  | .str _, .arr _ => .isFalse (by simp)
  | .str _, .obj _ => .isFalse (by simp)
  | .arr _, .null => .isFalse (by simp)
  | .arr _, .bool _ => .isFalse (by simp)
  | .arr _, .num _ => .isFalse (by simp)
  | .arr _, .str _ => .isFalse (by simp)
  | .arr _, .obj _ => .isFalse (by simp)
  | .obj _, .null => .isFalse (by simp)
  | .obj _, .bool _ => .isFalse (by simp)
  | .obj _, .num _ => .isFalse (by simp)
  | .obj _, .str _ => .isFalse (by simp)
  | .obj _, .arr _ => .isFalse (by simp)

instance : DecidableEq Json := decEq

/-- Insertion into a sorted association list, replacing the value when the
key is already present: the behaviour of `BTreeMap::insert`, which backs
`serde_json::Map::insert`. -/
def insObj (fields : List (String × Json)) (k : String) (v : Json) :
    List (String × Json) :=
  match fields with
  | [] => [(k, v)]
  | (k', v') :: rest =>
    if strLt k k' then (k, v) :: (k', v') :: rest
    else if k = k' then (k, v) :: rest
    else (k', v') :: insObj rest k v

/-- `Value::get(key)`: `Some` only on objects containing the key. -/
def get? (j : Json) (k : String) : Option Json :=
  match j with
  | .obj fields => fields.lookup k
  | _ => none

/-- Setting a key on a JSON object (`value[key] = v` /
`as_object_mut().insert`); identity on non-objects (unreachable in the
embedded code, which only indexes values known to be objects). -/
def setKey (j : Json) (k : String) (v : Json) : Json :=
  match j with
  | .obj fields => .obj (insObj fields k v)
  | _ => j

end Json

/-- `ServiceConfig` (src/lib.rs): a subgraph's name, URL and schema text. -/
structure ServiceConfig where
  name : String
  url : String
  schema : String
  deriving Repr, DecidableEq

/-- `FederatedSchema` (src/lib.rs).  Both Rust `HashMap`s are modelled as
association lists with unique keys and arbitrary order. -/
structure FederatedSchema where
  services : List (String × ServiceConfig)
  type_to_service_map : List (String × List String)
  deriving Repr, DecidableEq

/-- `QueryPlan` (src/lib.rs). -/
structure QueryPlan where
  service_queries : List (String × String)
  service_variables : List (String × Json)
  deriving Repr, DecidableEq

/-- `GraphQLRequest` (src/lib.rs).  The Rust field `variables` is named
`variables'` here because `variables` is a reserved word in Lean. -/
structure GraphQLRequest where
  query : String
  variables' : Option Json
  operation_name : Option String
  auth_headers : Option (List (String × String))
  deriving Repr, DecidableEq

/-! ## Query executor (src/query_executor.rs, `HttpQueryExecutor`) -/

/-- An outbound HTTP POST request as built inside `execute_plan`'s
per-service future: `client.post(&service_url).header("Content-Type",
"application/json").json(&request_body)`. -/
structure HttpRequest where
  url : String
  headers : List (String × String)
  body : Json
  deriving Repr, DecidableEq

/-- The request `execute_plan` builds for one `(service_name, query)` entry
of `plan.service_queries` (src/query_executor.rs lines 39-60): `None` when
the service is absent from `schema.services` (the entry is skipped), else a
POST to `service.url` with body `{"query": query, "variables": {}}` and
the single header `Content-Type: application/json`. -/
def buildRequest (schema : FederatedSchema) (service_name query : String) :
    Option HttpRequest :=
  (schema.services.lookup service_name).map fun service =>
    { url := service.url
      headers := [("Content-Type", "application/json")]
      body := .obj [("query", .str query), ("variables", .obj [])] }

/-- All outbound requests of one `execute_plan` call, in iteration order of
`plan.service_queries`; entries whose service is missing are dropped by the
`if let Some(service) = schema.services.get(&service_name)` guard. -/
def serviceRequests (plan : QueryPlan) (schema : FederatedSchema) :
    List HttpRequest :=
  plan.service_queries.filterMap fun sq =>
    buildRequest schema sq.1 sq.2

/-- The result of one service's future: `Ok((service_name, json_response))`
or the `format!`ted error string from a failed send or a non-JSON body. -/
abbrev ServiceResult := Except String (String × Json)

/-- The fan-out results awaited by `join_all`, in iteration order.  The
transport is abstracted by `outcome`, mapping a service name to either the
parsed JSON response or the transport/parse error message; HTTP status is
never consulted (the Rust code never reads `response.status()`). -/
def serviceResults (plan : QueryPlan) (schema : FederatedSchema)
    (outcome : String → Except String Json) : List ServiceResult :=
  plan.service_queries.filterMap fun sq =>
    match schema.services.lookup sq.1 with
    | some _ => some ((outcome sq.1).map fun j => (sq.1, j))
    | none => none

/-- Tag one upstream error object with its originating service
(`error_obj.insert("service", service_name)`); non-objects pass through. -/
def addServiceTag (service_name : String) (error : Json) : Json :=
  match error with
  | .obj fields => .obj (Json.insObj fields "service" (.str service_name))
  | e => e

/-- Append freshly produced error values to `merged["errors"]`, creating
the array when absent (both the `Ok` branch's `extend`/assign and the
`Err` branch's `push`/`insert`). -/
def appendErrors (merged : Json) (errs : List Json) : Json :=
  match merged.get? "errors" with
  | some (.arr existing) => merged.setKey "errors" (.arr (existing ++ errs))
  | _ => merged.setKey "errors" (.arr errs)

/-- Merge one top-level data key into the accumulator: if
`merged_data["data"]` is an object, insert; otherwise assign
`json!({key: value})` (src/query_executor.rs lines 85-91). -/
def mergeDataKey (merged : Json) (key : String) (value : Json) : Json :=
  match merged.get? "data" with
  | some (.obj fields) => merged.setKey "data" (.obj (Json.insObj fields key value))
  | _ => merged.setKey "data" (.obj [(key, value)])

/-- The `data` block of the merge loop (src/query_executor.rs lines
83-93): when `response["data"]` is an object, shallow-merge each of its
keys into the accumulator; otherwise leave the accumulator unchanged. -/
def mergeData (merged response : Json) : Json :=
  match response.get? "data" with
  | some (.obj fields) =>
    fields.foldl (fun acc kv => mergeDataKey acc kv.1 kv.2) merged
  | _ => merged

/-- The `errors` block of the merge loop (src/query_executor.rs lines
96-120): when `response["errors"]` is a non-empty array, tag each error
object with the service name and append the array to `merged["errors"]`. -/
def mergeErrors (merged response : Json) (service_name : String) : Json :=
  match response.get? "errors" with
  | some (.arr error_list) =>
    if error_list.isEmpty then merged
    else appendErrors merged (error_list.map (addServiceTag service_name))
  | _ => merged

/-- The error value the merge loop appends for a failed service call
(src/query_executor.rs lines 122-127). -/
def executionErrorObj (e : String) : Json :=
  .obj [("message", .str ("Execution error: " ++ e))]

/-- Fold one fan-out result into the merged accumulator
(src/query_executor.rs lines 79-138).  On `Ok`: the `data` block then the
`errors` block.  On `Err`: append `{"message": "Execution error: <e>"}`. -/
def mergeStep (merged : Json) (result : ServiceResult) : Json :=
  match result with
  | .ok (service_name, response) =>
    mergeErrors (mergeData merged response) response service_name
  | .error e => appendErrors merged [executionErrorObj e]

/-- The merge loop over all fan-out results, starting from `json!({})`. -/
def mergeResults (results : List ServiceResult) : Json :=
  results.foldl mergeStep (.obj [])

/-- `HttpQueryExecutor::execute_plan` (src/query_executor.rs lines 30-142):
fan out over `plan.service_queries` (skipping services absent from
`schema.services`), await all results, merge, and return `Ok(merged)` —
the function body ends in `Ok(merged_data)` unconditionally. -/
def execute_plan (plan : QueryPlan) (schema : FederatedSchema)
    (outcome : String → Except String Json) : Except String Json :=
  .ok (mergeResults (serviceResults plan schema outcome))

/-! ## Query-language AST

The output of the external `graphql_parser` library, restricted to the
constructors and fields the planner reads (`query::Value`, `query::Field`
— of which only `name`, `arguments`, `selection_set` are used —
`query::Selection`, `VariableDefinition`, `OperationDefinition`,
`Definition`).  `query::Value::Object` is a `BTreeMap` in the library:
sorted keys, no duplicates. -/

inductive GqlValue where
  | var (name : String)
  | int (i : Int)
  | float (repr : String)
  | str (s : String)
  | boolean (b : Bool)
  | null
  | enum (name : String)
  | list (items : List GqlValue)
  | obj (fields : List (String × GqlValue))
  deriving Repr

/-- `query::Selection`: a field (with the three components the planner
reads), a named fragment spread, or an inline fragment. -/
inductive Selection where
  | field (name : String) (arguments : List (String × GqlValue))
      (selectionSet : List Selection)
  | fragmentSpread (fragmentName : String)
  | inlineFragment (typeCondition : Option String)
      (selectionSet : List Selection)
  deriving Repr

/-- The projection of `query::Field` that the planner uses. -/
structure QField where
  name : String
  arguments : List (String × GqlValue)
  selectionSet : List Selection
  deriving Repr

/-- `query::VariableDefinition`; `var_type` is kept as its `Display`
output, the only way the planner uses it. -/
structure VariableDefinition where
  name : String
  varType : String
  defaultValue : Option GqlValue
  deriving Repr

/-- `query::OperationDefinition` (operation names are never read by the
planner and are omitted). -/
inductive OperationDefinition where
  | selectionSet (items : List Selection)
  | query (variableDefinitions : List VariableDefinition)
      (items : List Selection)
  | mutation (variableDefinitions : List VariableDefinition)
      (items : List Selection)
  | subscription (variableDefinitions : List VariableDefinition)
      (items : List Selection)
  deriving Repr

/-- `query::Definition`: an operation, or a fragment definition (matched
away by the planner's `_ => continue`). -/
inductive Definition where
  | operation (op : OperationDefinition)
  | fragment
  deriving Repr

/-- A parsed query document. -/
structure Document where
  definitions : List Definition
  deriving Repr

/-! ## Query planner (src/query_planner.rs, `SimpleQueryPlanner`) -/

mutual
/-- `extract_variables_from_value` (src/query_planner.rs lines 46-63):
variable names referenced anywhere in a value (scalar, list element or
object value).  The Rust inserts into a `HashSet`; the embedding collects
a list whose membership is what matters. -/
def varsOfValue : GqlValue → List String
  | .var name => [name]
  | .list items => varsOfValueList items
  | .obj fields => varsOfValueObj fields
  | _ => []

def varsOfValueList : List GqlValue → List String
  | [] => []
  | v :: vs => varsOfValue v ++ varsOfValueList vs

def varsOfValueObj : List (String × GqlValue) → List String
  | [] => []
  | kv :: vs => varsOfValue kv.2 ++ varsOfValueObj vs
end

mutual
/-- `collect_variables_from_field` applied to one selection
(src/query_planner.rs lines 34-44): only `Selection::Field` is visited —
fragment spreads and inline fragments are skipped by the
`if let query::Selection::Field(nested_field)` guard. -/
def collectVarsSel : Selection → List String
  | .field _ args sels => varsOfValueObj args ++ collectVarsSels sels
  | _ => []

def collectVarsSels : List Selection → List String
  | [] => []
  | s :: ss => collectVarsSel s ++ collectVarsSels ss
end

/-- `find_variables_in_field` (src/query_planner.rs lines 28-32): the
variables of the field's own arguments plus those of nested plain-field
selections. -/
def find_variables_in_field (f : QField) : List String :=
  varsOfValueObj f.arguments ++ collectVarsSels f.selectionSet

/-- `extract_fields` (src/query_planner.rs lines 65-75): the plain fields
of a selection set, in order; fragment spreads and inline fragments are
filtered out. -/
def extract_fields (items : List Selection) : List QField :=
  items.filterMap fun s =>
    match s with
    | .field name args sels => some ⟨name, args, sels⟩
    | _ => none

/-- `find_service_for_field` (src/query_planner.rs lines 77-94): look up
`"{operation_type}.{field_name}"` and take the first owner. -/
def find_service_for_field (field_name operation_type : String)
    (schema : FederatedSchema) : Except String String :=
  let type_key := operation_type ++ "." ++ field_name
  match schema.type_to_service_map.lookup type_key with
  | some (s :: _) => .ok s
  | _ => .error ("No service found for field: " ++ field_name ++
      " in operation: " ++ operation_type)

/-- Decimal printing of a natural number (structural on a fuel bound). -/
def natToChars (fuel n : Nat) : List Char :=
  match fuel with
  | 0 => []
  | fuel' + 1 =>
    if n < 10 then [Char.ofNat (48 + n)]
    else natToChars fuel' (n / 10) ++ [Char.ofNat (48 + n % 10)]

/-- Modelled from the spec: the planner prints an integer argument with
`write!(out, "{:?}", i)` on the external parser's `Number` type, whose
formatting is outside `src/`; the spec says "Ints: as a decimal
integer". -/
def intToString (i : Int) : String :=
  match i with
  | .ofNat n => ⟨natToChars (n + 1) n⟩
  | .negSucc m => "-" ++ ⟨natToChars (m + 2) (m + 1)⟩

/-- String escaping in `append_value` (src/query_planner.rs lines
176-185): each `"` gets a preceding `\`; no other character (backslashes
included) is escaped. -/
def escapeQuotes (s : String) : String :=
  ⟨s.data.flatMap fun c => if c = '"' then ['\x5c', c] else [c]⟩

mutual
/-- `append_value` (src/query_planner.rs lines 170-229), as the string
appended. -/
def append_value : GqlValue → String
  | .var name => "$" ++ name
  | .str s => "\"" ++ escapeQuotes s ++ "\""
  | .int i => intToString i
  | .float repr => repr
  | .boolean b => if b then "true" else "false"
  | .null => "null"
  | .enum name => name
  | .list items => "[" ++ appendValueListSep items ++ "]"
  | .obj fields => "\x7b" ++ appendValueObjSep fields ++ "\x7d"

/-- The comma-separated list elements (the Rust `first` flag). -/
def appendValueListSep : List GqlValue → String
  | [] => ""
  | [v] => append_value v
  | v :: vs => append_value v ++ ", " ++ appendValueListSep vs

/-- The comma-separated `key: value` object members. -/
def appendValueObjSep : List (String × GqlValue) → String
  | [] => ""
  | [kv] => kv.1 ++ ": " ++ append_value kv.2
  | kv :: vs => kv.1 ++ ": " ++ append_value kv.2 ++ ", " ++ appendValueObjSep vs
end

/-- The parenthesised argument list shared by `create_field_query` (lines
142-158) and `append_selection_set` (lines 244-258): `name: value` pairs
joined by `", "`. -/
def argsJoin : List (String × GqlValue) → String
  | [] => ""
  | [nv] => nv.1 ++ ": " ++ append_value nv.2
  | nv :: rest => nv.1 ++ ": " ++ append_value nv.2 ++ ", " ++ argsJoin rest

mutual
/-- `append_selection_set` (src/query_planner.rs lines 231-292). -/
def append_selection_set : List Selection → Nat → String
  | [], _ => ""
  | s :: rest, indent =>
    appendSelection s indent ++ append_selection_set rest indent

def appendSelection : Selection → Nat → String
  | .field name args sels, indent =>
    let indentStr : String := ⟨List.replicate indent ' '⟩
    indentStr ++ name ++
      (if args.isEmpty then "" else "(" ++ argsJoin args ++ ")") ++
      (if sels.isEmpty then "\n"
       else " \x7b\n" ++ append_selection_set sels (indent + 2) ++
         indentStr ++ "\x7d\n")
  | .fragmentSpread fragmentName, indent =>
    (⟨List.replicate indent ' '⟩ : String) ++ "..." ++ fragmentName ++ "\n"
  | .inlineFragment typeCondition sels, indent =>
    let indentStr : String := ⟨List.replicate indent ' '⟩
    indentStr ++ "... " ++
      (match typeCondition with
       | some t => "on " ++ t ++ " "
       | none => "") ++
      "\x7b\n" ++ append_selection_set sels (indent + 2) ++
      indentStr ++ "\x7d\n"
end

/-- The projected variable declarations of `create_field_query` (lines
116-137): iterate `variable_defs`, keeping those whose name is in
`used_variables`, `", "`-separated by a first-flag. -/
def varDeclsAux : List VariableDefinition → List String → Bool → String
  | [], _, _ => ""
  | d :: rest, used, first =>
    if used.contains d.name then
      (if first then "" else ", ") ++ "$" ++ d.name ++ ": " ++ d.varType ++
        (match d.defaultValue with
         | some dv => " = " ++ append_value dv
         | none => "") ++
        varDeclsAux rest used false
    else varDeclsAux rest used first

/-- `create_field_query` (src/query_planner.rs lines 96-168): the
per-service single-root operation text for one routed field. -/
def create_field_query (f : QField) (operation_type : String)
    (variable_defs : List VariableDefinition)
    (used_variables : List String) : String :=
  (match operation_type with
   | "Query" => "query"
   | "Mutation" => "mutation"
   | "Subscription" => "subscription"
   | _ => "query") ++
  (if used_variables.isEmpty then ""
   else "(" ++ varDeclsAux variable_defs used_variables true ++ ")") ++
  " \x7b\n  " ++ f.name ++
  (if f.arguments.isEmpty then ""
   else "(" ++ argsJoin f.arguments ++ ")") ++
  (if f.selectionSet.isEmpty then ""
   else " \x7b\n" ++ append_selection_set f.selectionSet 4 ++ "  \x7d\n") ++
  "\x7d\n"

/-- `HashMap::insert` on an association list: replace the value if the
key exists, else append. -/
def insertAssoc {α : Type} (l : List (String × α)) (k : String) (v : α) :
    List (String × α) :=
  match l with
  | [] => [(k, v)]
  | (k', v') :: rest =>
    if k = k' then (k, v) :: rest else (k', v') :: insertAssoc rest k v

/-- The per-service variables map for one field (src/query_planner.rs
lines 326-341 / 375-397): each used variable present in the client's
variables object is copied into a fresh `serde_json::Map`. -/
def projectVars (names : List String) (obj : List (String × Json)) :
    List (String × Json) :=
  names.foldl
    (fun acc n =>
      match obj.lookup n with
      | some v => Json.insObj acc n v
      | none => acc)
    []

/-- The `service_variables` value stored for one routed field
(src/query_planner.rs lines 323-342 / 375-397): `{}` when no client
variables were given, when the field references none, or when the client
variables are not a JSON object; otherwise the projection of the
collected variables onto the client object. -/
def planFieldVars (vars : Option Json) (field_variables : List String) :
    Json :=
  match vars with
  | some var_values =>
    if field_variables.isEmpty then .obj []
    else
      match var_values with
      | .obj obj => .obj (projectVars field_variables obj)
      | _ => .obj []
  | none => .obj []

/-- The loop body run for every extracted field of one operation
(src/query_planner.rs lines 313-343 and 362-398; the two Rust copies are
identical up to `operation_type` and `var_defs`).  Threads the
`service_queries` / `service_variables` accumulators; `?`-propagates
`find_service_for_field` errors. -/
def planFields (operation_type : String)
    (var_defs : List VariableDefinition) (vars : Option Json)
    (schema : FederatedSchema) (fields : List QField)
    (acc : List (String × String) × List (String × Json)) :
    Except String (List (String × String) × List (String × Json)) :=
  match fields with
  | [] => .ok acc
  | f :: rest =>
    match find_service_for_field f.name operation_type schema with
    | .error e => .error e
    | .ok service_name =>
      let field_variables := find_variables_in_field f
      let field_query := create_field_query f operation_type var_defs
        field_variables
      let sq := insertAssoc acc.1 service_name field_query
      let sv := insertAssoc acc.2 service_name
        (planFieldVars vars field_variables)
      planFields operation_type var_defs vars schema rest (sq, sv)

/-- The loop over `doc.definitions` (src/query_planner.rs lines
311-402). -/
def planDefs (vars : Option Json) (schema : FederatedSchema) :
    List Definition →
    (List (String × String) × List (String × Json)) →
    Except String (List (String × String) × List (String × Json))
  | [], acc => .ok acc
  | d :: rest, acc =>
    match d with
    | .operation (.selectionSet items) =>
      match planFields "Query" [] vars schema (extract_fields items) acc with
      | .error e => .error e
      | .ok acc' => planDefs vars schema rest acc'
    | .operation (.query var_defs items) =>
      match planFields "Query" var_defs vars schema (extract_fields items)
          acc with
      | .error e => .error e
      | .ok acc' => planDefs vars schema rest acc'
    | .operation (.mutation var_defs items) =>
      match planFields "Mutation" var_defs vars schema
          (extract_fields items) acc with
      | .error e => .error e
      | .ok acc' => planDefs vars schema rest acc'
    | .operation (.subscription var_defs items) =>
      match planFields "Subscription" var_defs vars schema
          (extract_fields items) acc with
      | .error e => .error e
      | .ok acc' => planDefs vars schema rest acc'
    | .fragment => planDefs vars schema rest acc

/-- `SimpleQueryPlanner::plan_query` (src/query_planner.rs lines
297-418) on an already-parsed document (parsing belongs to the external
library; parse failures become `QueryParseError` upstream of this
model). -/
def plan_query (doc : Document) (schema : FederatedSchema)
    (vars : Option Json) : Except String QueryPlan :=
  match planDefs vars schema doc.definitions ([], []) with
  | .error e => .error e
  | .ok (sq, sv) =>
    if sq.isEmpty then .error "No valid operations found in query"
    else .ok ⟨sq, sv⟩

/-- A fan-out result that contributes only data to the merge: an `Ok`
response whose body is an object with `data` an object and no `errors`
member.  Returns the data fields. -/
def pureDataFields : ServiceResult → Option (List (String × Json))
  | .ok (_, .obj respFields) =>
    match respFields.lookup "data", respFields.lookup "errors" with
    | some (.obj fs), none => some fs
    | _, _ => none
  | _ => none

/-- All top-level data pairs contributed by a result list, in order. -/
def flattenData (rs : List ServiceResult) : List (String × Json) :=
  (rs.map fun r => (pureDataFields r).getD []).flatten

/-- A JSON value is an object. -/
def Json.isObj : Json → Bool
  | .obj _ => true
  | _ => false

/-- Membership in the merged value's `errors` array. -/
def errMem (m x : Json) : Prop :=
  ∃ l, m.get? "errors" = some (.arr l) ∧ x ∈ l

/-- Decidable equality for `Except` (needed to `decide` facts about
planner results). -/
def exceptDecEq {e a : Type} [DecidableEq e] [DecidableEq a] :
    (x y : Except e a) → Decidable (x = y)
  | .ok x, .ok y =>
    if h : x = y then .isTrue (by rw [h]) else .isFalse (by simp [h])
  | .error x, .error y =>
    if h : x = y then .isTrue (by rw [h]) else .isFalse (by simp [h])
  | .ok _, .error _ => .isFalse (by simp)
  | .error _, .ok _ => .isFalse (by simp)

instance {e a : Type} [DecidableEq e] [DecidableEq a] :
    DecidableEq (Except e a) := exceptDecEq

/-! ## Schema registry (src/schema_registry.rs, `InMemorySchemaRegistry`)

The registry's two `RwLock` cells become a plain state record; the claims
are settled against the sequential trace semantics of `register_service`
and `get_schema`.  The external `parse_schema` is a parameter: the
registry's coherence holds for every parser. -/

/-- `graphql_parser::schema` type definitions, restricted to what
`build_federated_schema` reads: the kind, the type name, and — for
object types — the field names with their argument names. -/
inductive TypeDef where
  | object (name : String) (fields : List (String × List String))
  | interface (name : String)
  | inputObject (name : String)
  | enum (name : String)
  | scalar (name : String)
  | union (name : String)
  deriving Repr, DecidableEq

/-- `type_to_service_map.entry(key).or_insert_with(Vec::new)
.push(service_name)` on the association-list model of the `HashMap`. -/
def pushEntry (m : List (String × List String)) (k v : String) :
    List (String × List String) :=
  match m with
  | [] => [(k, [v])]
  | (k', vs) :: rest =>
    if k = k' then (k', vs ++ [v]) :: rest
    else (k', vs) :: pushEntry rest k v

/-- The index keys one type definition emits, in emission order
(src/schema_registry.rs lines 41-101): the bare type name; for objects
additionally `Type.field` and `Type.field.arg` keys. -/
def typeDefEntries : TypeDef → List String
  | .object name fields =>
    name :: fields.flatMap fun f =>
      (name ++ "." ++ f.1) ::
        f.2.map fun a => name ++ "." ++ f.1 ++ "." ++ a
  | .interface name => [name]
  | .inputObject name => [name]
  | .enum name => [name]
  | .scalar name => [name]
  | .union name => [name]

/-- The inner loop over one service's definitions: push the service name
onto every emitted key's owner list. -/
def addServiceEntries (m : List (String × List String))
    (service_name : String) (defs : List TypeDef) :
    List (String × List String) :=
  defs.foldl
    (fun acc td =>
      (typeDefEntries td).foldl (fun acc' k => pushEntry acc' k service_name)
        acc)
    m

/-- The outer loop of `build_federated_schema` over all services; the
first schema that fails to parse aborts the build. -/
def buildTypeMap (parse : String → Except String (List TypeDef)) :
    List (String × ServiceConfig) → List (String × List String) →
    Except String (List (String × List String))
  | [], acc => .ok acc
  | (service_name, cfg) :: rest, acc =>
    match parse cfg.schema with
    | .error e => .error ("Failed to parse schema for service " ++
        service_name ++ ": " ++ e)
    | .ok defs => buildTypeMap parse rest (addServiceEntries acc service_name defs)

/-- `build_federated_schema` (src/schema_registry.rs lines 28-111). -/
def build_federated_schema (parse : String → Except String (List TypeDef))
    (services : List (String × ServiceConfig)) :
    Except String FederatedSchema :=
  match buildTypeMap parse services [] with
  | .error e => .error e
  | .ok m => .ok ⟨services, m⟩

/-- The registry's two cells (src/schema_registry.rs lines 15-18). -/
structure RegistryState where
  services : List (String × ServiceConfig)
  federated_schema : Option FederatedSchema

/-- `register_service` (src/schema_registry.rs lines 116-124): insert or
replace under `service.name`, then invalidate the cache. -/
def register_service (st : RegistryState) (service : ServiceConfig) :
    RegistryState :=
  { services := insertAssoc st.services service.name service
    federated_schema := none }

/-- `get_schema` (src/schema_registry.rs lines 126-140): serve the cache
when present; otherwise build from the current services and, on success,
install the result as the new cache (on failure the state is
unchanged). -/
def get_schema (parse : String → Except String (List TypeDef))
    (st : RegistryState) : Except String FederatedSchema × RegistryState :=
  match st.federated_schema with
  | some schema => (.ok schema, st)
  | none =>
    match build_federated_schema parse st.services with
    | .error e => (.error e, st)
    | .ok schema => (.ok schema, { st with federated_schema := some schema })

/-- One registry call in a sequential trace. -/
inductive RegistryEvent where
  | reg (cfg : ServiceConfig)
  | get
  deriving Repr, DecidableEq

/-- Run a sequence of registry calls, threading the state. -/
def runEvents (parse : String → Except String (List TypeDef))
    (st : RegistryState) : List RegistryEvent → RegistryState
  | [] => st
  | .reg cfg :: rest => runEvents parse (register_service st cfg) rest
  | .get :: rest => runEvents parse (get_schema parse st).2 rest

/-! ## A query-language parser

Modelled from the spec: the repository delegates parsing to the external
`graphql_parser` crate (spec §2, C1: "Query-language parser (external)"),
whose code is not under `src/`.  This parser implements the grammar the
spec's rewriting rules describe (§4.2 "Rewriting a per-service
operation": keyword, projected `$name: Type [= DefaultValue]`
declarations, fields with arguments, strings double-quoted with `"`
escaped by `\`, ints as decimal integers, booleans/null/enums bare,
variables as `$name`, lists `[v1, v2]`, input objects `{k1: v1}`, nested
selection sets, inline fragments `... on Type { }`, spreads `...name`),
with the query language's insignificant commas and whitespace.  Parsers
are total via a fuel argument; `parseDocument` supplies fuel exceeding
the input length. -/

def isNameStart (c : Char) : Bool :=
  (65 ≤ c.toNat && c.toNat ≤ 90) || (97 ≤ c.toNat && c.toNat ≤ 122) ||
    c.toNat == 95

def isDigitCh (c : Char) : Bool := 48 ≤ c.toNat && c.toNat ≤ 57

def isNameChar (c : Char) : Bool := isNameStart c || isDigitCh c

def isWSCh (c : Char) : Bool :=
  c == ' ' || c == '\n' || c == '\t' || c == ',' || c == '\r'

def skipWS : List Char → List Char
  | [] => []
  | c :: cs => if isWSCh c then skipWS cs else c :: cs

def takeName : List Char → List Char × List Char
  | [] => ([], [])
  | c :: cs =>
    if isNameChar c then
      let (n, r) := takeName cs
      (c :: n, r)
    else ([], c :: cs)

def parseRawName (s : List Char) : Except Unit (String × List Char) :=
  match s with
  | [] => .error ()
  | c :: cs =>
    if isNameStart c then
      let (n, r) := takeName cs
      .ok (⟨c :: n⟩, r)
    else .error ()

def takeDigits : List Char → List Char × List Char
  | [] => ([], [])
  | c :: cs =>
    if isDigitCh c then
      let (n, r) := takeDigits cs
      (c :: n, r)
    else ([], c :: cs)

def natFromDigits (l : List Char) : Nat :=
  l.foldl (fun a c => a * 10 + (c.toNat - 48)) 0

def isFloatCh (c : Char) : Bool :=
  isDigitCh c || c == '.' || c == 'e' || c == 'E' || c == '+' || c == '-'

def takeFloatChars : List Char → List Char × List Char
  | [] => ([], [])
  | c :: cs =>
    if isFloatCh c then
      let (n, r) := takeFloatChars cs
      (c :: n, r)
    else ([], c :: cs)

/-- Parse an int or float literal; a number with a fractional or
exponent part is kept as its source text (how the planner's model stores
floats). -/
def numTail (c : Char) : Bool := c = '.' || c = 'e' || c = 'E'

def parseNumber (s : List Char) : Except Unit (GqlValue × List Char) :=
  match s with
  | [] => .error ()
  | c :: rest =>
    if c = '-' then
      match rest with
      | [] => .error ()
      | c2 :: _ =>
        if isDigitCh c2 then
          let (ds, r) := takeDigits rest
          match r with
          | [] => .ok (.int (-(natFromDigits ds : Int)), [])
          | c' :: _ =>
            if numTail c' then
              let (fs, r') := takeFloatChars r
              .ok (.float ⟨'-' :: ds ++ fs⟩, r')
            else .ok (.int (-(natFromDigits ds : Int)), r)
        else .error ()
    else if isDigitCh c then
      let (ds, r) := takeDigits (c :: rest)
      match r with
      | [] => .ok (.int (natFromDigits ds), [])
      | c' :: _ =>
        if numTail c' then
          let (fs, r') := takeFloatChars r
          .ok (.float ⟨ds ++ fs⟩, r')
        else .ok (.int (natFromDigits ds), r)
    else .error ()

/-- Parse a double-quoted string body after the opening quote; `\"` and
`\\` are the recognised escapes, any other escape is an error. -/
def parseStringBody : List Char → Except Unit (List Char × List Char)
  | [] => .error ()
  | c :: rest =>
    if c = '"' then .ok ([], rest)
    else if c = '\x5c' then
      match rest with
      | [] => .error ()
      | c2 :: rest2 =>
        if c2 = '"' ∨ c2 = '\x5c' then
          match parseStringBody rest2 with
          | .ok (cs, r) => .ok (c2 :: cs, r)
          | .error e => .error e
        else .error ()
    else
      match parseStringBody rest with
      | .ok (cs, r) => .ok (c :: cs, r)
      | .error e => .error e

mutual
def parseValue : Nat → List Char → Except Unit (GqlValue × List Char)
  | 0, _ => .error ()
  | fuel + 1, s =>
    match skipWS s with
    | [] => .error ()
    | c :: rest =>
      if c = '$' then
        match parseRawName rest with
        | .ok (n, r) => .ok (.var n, r)
        | .error e => .error e
      else if c = '"' then
        match parseStringBody rest with
        | .ok (cs, r) => .ok (.str ⟨cs⟩, r)
        | .error e => .error e
      else if c = '[' then
        match parseValueList fuel rest with
        | .ok (vs, r) => .ok (.list vs, r)
        | .error e => .error e
      else if c = '\x7b' then
        match parseObjFields fuel rest with
        | .ok (fs, r) => .ok (.obj fs, r)
        | .error e => .error e
      else if c = '-' || isDigitCh c then parseNumber (c :: rest)
      else
        match parseRawName (c :: rest) with
        | .ok (n, r) =>
          if n = "true" then .ok (.boolean true, r)
          else if n = "false" then .ok (.boolean false, r)
          else if n = "null" then .ok (.null, r)
          else .ok (.enum n, r)
        | .error e => .error e

def parseValueList : Nat → List Char → Except Unit (List GqlValue × List Char)
  | 0, _ => .error ()
  | fuel + 1, s =>
    match skipWS s with
    | [] => .error ()
    | c :: rest =>
      if c = ']' then .ok ([], rest)
      else
        match parseValue fuel (c :: rest) with
        | .error e => .error e
        | .ok (v, r) =>
          match parseValueList fuel r with
          | .error e => .error e
          | .ok (vs, r') => .ok (v :: vs, r')

def parseObjFields : Nat → List Char →
    Except Unit (List (String × GqlValue) × List Char)
  | 0, _ => .error ()
  | fuel + 1, s =>
    match skipWS s with
    | [] => .error ()
    | c :: rest =>
      if c = '\x7d' then .ok ([], rest)
      else
        match parseRawName (c :: rest) with
        | .error e => .error e
        | .ok (k, r) =>
          match skipWS r with
          | ':' :: r2 =>
            match parseValue fuel r2 with
            | .error e => .error e
            | .ok (v, r3) =>
              match parseObjFields fuel r3 with
              | .error e => .error e
              | .ok (fs, r4) => .ok ((k, v) :: fs, r4)
          | _ => .error ()
end

/-- Parse `name: value` pairs up to the closing `)`. -/
def parseArgList : Nat → List Char →
    Except Unit (List (String × GqlValue) × List Char)
  | 0, _ => .error ()
  | fuel + 1, s =>
    match skipWS s with
    | [] => .error ()
    | c :: rest =>
      if c = ')' then .ok ([], rest)
      else
        match parseRawName (c :: rest) with
        | .error e => .error e
        | .ok (n, r) =>
          match skipWS r with
          | ':' :: r2 =>
            match parseValue fuel r2 with
            | .error e => .error e
            | .ok (v, r3) =>
              match parseArgList fuel r3 with
              | .error e => .error e
              | .ok (args, r4) => .ok ((n, v) :: args, r4)
          | _ => .error ()

def isTypeCh (c : Char) : Bool :=
  isNameChar c || c == '[' || c == ']' || c == '!'

def takeTypeChars : List Char → List Char × List Char
  | [] => ([], [])
  | c :: cs =>
    if isTypeCh c then
      let (n, r) := takeTypeChars cs
      (c :: n, r)
    else ([], c :: cs)

/-- Parse one `$name: Type [= DefaultValue]` declaration. -/
def parseVarDef (fuel : Nat) (s : List Char) :
    Except Unit (VariableDefinition × List Char) :=
  match skipWS s with
  | '$' :: r =>
    match parseRawName r with
    | .error e => .error e
    | .ok (n, r1) =>
      match skipWS r1 with
      | ':' :: r2 =>
        match skipWS r2 with
        | [] => .error ()
        | c :: r3 =>
          if isTypeCh c then
            let (t, r4) := takeTypeChars r3
            match skipWS r4 with
            | [] => .ok (⟨n, ⟨c :: t⟩, none⟩, r4)
            | c5 :: r5 =>
              if c5 = '=' then
                match parseValue fuel r5 with
                | .error e => .error e
                | .ok (v, r6) => .ok (⟨n, ⟨c :: t⟩, some v⟩, r6)
              else .ok (⟨n, ⟨c :: t⟩, none⟩, r4)
          else .error ()
      | _ => .error ()
  | _ => .error ()

/-- Parse the declarations after `(`; the query-language grammar requires
at least one (`( VariableDefinition+ )`), so `()` is a parse error. -/
def parseVarDefs : Nat → List Char →
    Except Unit (List VariableDefinition × List Char)
  | 0, _ => .error ()
  | fuel + 1, s =>
    match parseVarDef fuel s with
    | .error e => .error e
    | .ok (d, r) =>
      match skipWS r with
      | ')' :: rest => .ok ([d], rest)
      | s' =>
        match parseVarDefs fuel s' with
        | .error e => .error e
        | .ok (ds, r') => .ok (d :: ds, r')

/-- The optional argument-list step of a field: consume `( … )` when the
next significant character is `(`. -/
def parseOptArgs (fuel : Nat) (s : List Char) :
    Except Unit (List (String × GqlValue) × List Char) :=
  match skipWS s with
  | [] => .ok ([], [])
  | c :: rest => if c = '(' then parseArgList fuel rest else .ok ([], c :: rest)

def parseSelectionSet : Nat → List Char →
    Except Unit (List Selection × List Char)
  | 0, _ => .error ()
  | fuel + 1, s =>
    match skipWS s with
    | [] => .error ()
    | c :: rest =>
      if c = '\x7d' then .ok ([], rest)
      else if c = '.' then
        match rest with
        | c2 :: c3 :: r1 =>
          if c2 = '.' ∧ c3 = '.' then
            match skipWS r1 with
            | [] => .error ()
            | c4 :: r2 =>
              if c4 = '\x7b' then
                match parseSelectionSet fuel r2 with
                | .error e => .error e
                | .ok (sels, r3) =>
                  match parseSelectionSet fuel r3 with
                  | .error e => .error e
                  | .ok (more, r4) => .ok (.inlineFragment none sels :: more, r4)
              else
              match parseRawName (c4 :: r2) with
              | .error e => .error e
              | .ok (n, r2) =>
                if n = "on" then
                  match parseRawName (skipWS r2) with
                  | .error e => .error e
                  | .ok (t, r3) =>
                    match skipWS r3 with
                    | '\x7b' :: r4 =>
                      match parseSelectionSet fuel r4 with
                      | .error e => .error e
                      | .ok (sels, r5) =>
                        match parseSelectionSet fuel r5 with
                        | .error e => .error e
                        | .ok (more, r6) =>
                          .ok (.inlineFragment (some t) sels :: more, r6)
                    | _ => .error ()
                else
                  match parseSelectionSet fuel r2 with
                  | .error e => .error e
                  | .ok (more, r3) => .ok (.fragmentSpread n :: more, r3)
          else .error ()
        | _ => .error ()
      else
        match parseRawName (c :: rest) with
        | .error e => .error e
        | .ok (n, r) =>
          match parseOptArgs fuel r with
          | .error e => .error e
          | .ok (args, r2) =>
            match
              (match skipWS r2 with
               | [] => (Except.ok ([], []) :
                   Except Unit (List Selection × List Char))
               | c5 :: r3 =>
                 if c5 = '\x7b' then parseSelectionSet fuel r3
                 else .ok ([], c5 :: r3)) with
            | .error e => .error e
            | .ok (sels, r3) =>
              match parseSelectionSet fuel r3 with
              | .error e => .error e
              | .ok (more, r4) => .ok (.field n args sels :: more, r4)

/-- Build the operation for a parsed keyword. -/
def mkOperation (kw : String) (vds : List VariableDefinition)
    (sels : List Selection) : OperationDefinition :=
  if kw == "query" then .query vds sels
  else if kw == "mutation" then .mutation vds sels
  else .subscription vds sels

/-- Parse one operation: keyword, optional non-empty variable
declarations, selection set. -/
def parseOperation (fuel : Nat) (s : List Char) :
    Except Unit (OperationDefinition × List Char) :=
  match parseRawName (skipWS s) with
  | .error e => .error e
  | .ok (kw, r) =>
    if kw == "query" || kw == "mutation" || kw == "subscription" then
      match
        (match skipWS r with
         | '(' :: r2 => parseVarDefs fuel r2
         | other => .ok ([], other)) with
      | .error e => .error e
      | .ok (vds, r2) =>
        match skipWS r2 with
        | '\x7b' :: r3 =>
          match parseSelectionSet fuel r3 with
          | .error e => .error e
          | .ok (sels, r4) => .ok (mkOperation kw vds sels, r4)
        | _ => .error ()
    else .error ()

/-- Parse a whole (single-operation) document: one operation followed by
only insignificant characters. -/
def parseDocument (s : String) : Except Unit Document :=
  match parseOperation (s.data.length + 1) s.data with
  | .error e => .error e
  | .ok (op, rest) =>
    match skipWS rest with
    | [] => .ok ⟨[.operation op]⟩
    | _ => .error ()

/-! ### Well-formedness: the printable-and-reparseable fragment

The round trip cannot hold for every AST: the printer emits floats with
the external crate's Debug formatting, leaves backslashes in strings
unescaped, and prints enum/variable/field names verbatim.  `wf*` carves
out the fragment on which the rewrite rules of the spec are injective:
valid GraphQL names everywhere, no float values, no backslash inside
string values, enum names distinct from the keyword literals, and spread
names distinct from `on`. -/

/-- A valid GraphQL name: a name-start character followed by name
characters. -/
def isValidName (s : String) : Bool :=
  match s.data with
  | [] => false
  | c :: cs => isNameStart c && cs.all isNameChar

mutual
def wfValue : GqlValue → Bool
  | .var n => isValidName n
  | .int _ => true
  | .float _ => false
  | .str s => !(s.data.contains '\x5c')
  | .boolean _ => true
  | .null => true
  | .enum n =>
    isValidName n && n != "true" && n != "false" && n != "null"
  | .list items => wfValueList items
  | .obj fields => wfValueObj fields

def wfValueList : List GqlValue → Bool
  | [] => true
  | v :: vs => wfValue v && wfValueList vs

def wfValueObj : List (String × GqlValue) → Bool
  | [] => true
  | kv :: rest => isValidName kv.1 && wfValue kv.2 && wfValueObj rest
end

mutual
def wfSel : Selection → Bool
  | .field n args sels => isValidName n && wfValueObj args && wfSels sels
  | .fragmentSpread n => isValidName n && n != "on"
  | .inlineFragment cond sels =>
    (match cond with
     | none => true
     | some t => isValidName t) && wfSels sels

def wfSels : List Selection → Bool
  | [] => true
  | s :: ss => wfSel s && wfSels ss
end

/-- A printable type text: nonempty and made of type characters
(name characters, `[`, `]`, `!`). -/
def validTypeText (s : String) : Bool :=
  !s.data.isEmpty && s.data.all isTypeCh

/-- A reparseable variable declaration. -/
def wfVarDef (d : VariableDefinition) : Bool :=
  isValidName d.name && validTypeText d.varType &&
    (match d.defaultValue with
     | none => true
     | some v => wfValue v)

/-- A reparseable routed field. -/
def wfField (f : QField) : Bool :=
  isValidName f.name && wfValueObj f.arguments && wfSels f.selectionSet

/-- The operation keyword `create_field_query` prints for an operation
type (its first `match`). -/
def opKeyword : String → String
  | "Query" => "query"
  | "Mutation" => "mutation"
  | "Subscription" => "subscription"
  | _ => "query"

/-- All characters insignificant to the parser. -/
def allWS (l : List Char) : Bool := l.all isWSCh

/-- Characters that legitimately follow a printed value or name in the
generated text. -/
def followerCh (c : Char) : Bool :=
  c == ',' || c == ')' || c == ']' || c == '\x7d' || c == ' ' || c == '\n'

def followerOK : List Char → Bool
  | [] => true
  | c :: _ => followerCh c

/-- The remainder does not continue a name. -/
def headNotName : List Char → Bool
  | [] => true
  | c :: _ => !isNameChar c

/-- The remainder does not continue an integer literal (next digit,
fraction or exponent). -/
def headNumStop : List Char → Bool
  | [] => true
  | c :: _ => !isDigitCh c && !numTail c

/-- The remainder does not continue a type text. -/
def headNotType : List Char → Bool
  | [] => true
  | c :: _ => !isTypeCh c

/-- The text `varDeclsAux` prints for one kept declaration, without the
first-flag separator. -/
def declText (d : VariableDefinition) : String :=
  "$" ++ d.name ++ ": " ++ d.varType ++
    (match d.defaultValue with
     | some dv => " = " ++ append_value dv
     | none => "")

/-- The declarations `varDeclsAux` keeps: those whose name is in
`used`, in order. -/
def keepDecls (vds : List VariableDefinition) (used : List String) :
    List VariableDefinition :=
  match vds with
  | [] => []
  | d :: rest =>
    if used.contains d.name then d :: keepDecls rest used
    else keepDecls rest used

/-! ### Concrete fixtures used by counterexamples and witnesses -/

/-- A routed field exercising every printable argument kind and every
selection form, for the round-trip witness. -/
def c9Field : QField :=
  ⟨"user",
    [("id", .var "u"), ("msg", .str "he\"y"), ("lim", .int (-3)),
     ("opts", .obj [("flag", .boolean true), ("mode", .enum "FAST"),
       ("arr", .list [.int 7, .null])])],
    [.field "name" [] [],
     .inlineFragment (some "Admin")
       [.field "perm" [("level", .var "lv")] []],
     .inlineFragment none [.field "x" [] []],
     .fragmentSpread "frag"]⟩

/-- Client declarations for the round-trip witness; `unused` is dropped
by the projection. -/
def c9Defs : List VariableDefinition :=
  [⟨"u", "ID!", some (.str "d")⟩, ⟨"unused", "Int", none⟩,
   ⟨"lv", "Int!", none⟩]

/-- Two top-level fields `a` and `b` both routed to service `s1`. -/
def docAB : Document :=
  ⟨[.operation (.selectionSet [.field "a" [] [], .field "b" [] []])]⟩

/-- A snapshot routing `Query.a` and `Query.b` to the same service. -/
def sameServiceSchema : FederatedSchema :=
  ⟨[], [("Query.a", ["s1"]), ("Query.b", ["s1"])]⟩

/-- A snapshot routing `Query.a` to `s1` and `Query.b` to `s2`. -/
def twoRouteSchema : FederatedSchema :=
  ⟨[], [("Query.a", ["s1"]), ("Query.b", ["s2"])]⟩

/-- Spec scenario S3: two fields with one variable argument each. -/
def varFieldsItems : List Selection :=
  [.field "user" [("id", .var "u")] [],
   .field "prod" [("id", .var "p")] []]

/-- Routing for `varFieldsItems`: `user` to `s1`, `prod` to `s2`. -/
def varFieldsSchema : FederatedSchema :=
  ⟨[], [("Query.user", ["s1"]), ("Query.prod", ["s2"])]⟩

/-- A field whose only variable reference sits inside an inline
fragment's nested selection. -/
def inlineFragDoc : Document :=
  ⟨[.operation (.selectionSet
    [.field "user" []
      [.inlineFragment (some "Admin")
        [.field "perm" [("level", .var "v")] []]]])]⟩

/-- Routing for `inlineFragDoc`. -/
def inlineFragSchema : FederatedSchema :=
  ⟨[], [("Query.user", ["s1"])]⟩

/-- A single top-level field with one variable argument, in an unnamed
operation. -/
def singleVarFieldItems : List Selection :=
  [.field "user" [("id", .var "u")] []]

/-- Routing for `singleVarFieldItems`. -/
def userRouteSchema : FederatedSchema :=
  ⟨[], [("Query.user", ["s1"])]⟩

/-- A registered service configuration. -/
def userCfg : ServiceConfig := ⟨"users", "http://u", "type Query"⟩

/-- A toy schema parser for registry witnesses: every schema text parses
to a single scalar named `T`. -/
def toyParse : String → Except String (List TypeDef) :=
  fun _ => .ok [.scalar "T"]


/-- `twoServicePlan` with its `service_queries` in the opposite iteration
order — the other of the two orders a Rust `HashMap` may present. -/
def twoServicePlanSwapped : QueryPlan :=
  { service_queries := [("users", "query users"), ("products", "query products")]
    service_variables := [("products", .obj []), ("users", .obj [])] }

/-- Upstream outcome where each service answers `200` with a GraphQL-level
error and no data. -/
def errorsEverywhere : String → Except String Json := fun _ =>
  .ok (.obj [("errors", .arr [.obj []])])

/-- Upstream outcome where each service answers with disjoint data. -/
def disjointDataOutcome : String → Except String Json := fun n =>
  .ok (.obj [("data", .obj [(n, .str "ok")])])

/-- A two-service snapshot: `products` and `users`. -/
def twoServiceSchema : FederatedSchema :=
  { services := [("products", ⟨"products", "http://p", ""⟩), ("users", ⟨"users", "http://u", ""⟩)]
    type_to_service_map :=
      [("Query.products", ["products"]), ("Query.users", ["users"])] }

/-- A plan fanning out to both services of `twoServiceSchema`. -/
def twoServicePlan : QueryPlan :=
  { service_queries := [("products", "query products"), ("users", "query users")]
    service_variables := [("products", .obj []), ("users", .obj [])] }

/-- Upstream outcomes: `users` answers with data, `products` fails at the
transport layer. -/
def usersOkProductsDown : String → Except String Json := fun n =>
  if n = "users" then
    .ok (.obj [("data", .obj [("users", .arr [.obj [("id", .str "1")]])])])
  else .error "connection refused"

/-- A one-service snapshot holding only `users`. -/
def usersOnlySchema : FederatedSchema :=
  { services := [("users", ⟨"users", "http://u", ""⟩)]
    type_to_service_map := [("Query.user", ["users"])] }

/-- A plan whose query for `users` references the variable `$u`, with the
projected variables the planner attached for it. -/
def projectedVarPlan : QueryPlan :=
  { service_queries := [("users", "query($u: ID!) q")]
    service_variables := [("users", .obj [("u", .str "1")])] }

/-- A client request carrying an auth header to forward. -/
def authRequest : GraphQLRequest :=
  { query := "query users", variables' := none, operation_name := none
    auth_headers := some [("Authorization", "Bearer t")] }

/-- A plan naming a service (`ghost`) absent from `usersOnlySchema`. -/
def ghostPlan : QueryPlan :=
  { service_queries := [("ghost", "query g"), ("users", "query u")]
    service_variables := [] }

/-- Upstream outcome where every service answers with `users` data. -/
def usersDataOutcome : String → Except String Json := fun _ =>
  .ok (.obj [("data", .obj [("users", .arr [])])])

/-! ### Basic lemmas about the sorted-object operations -/

theorem Json.lookup_insObj_self (fields : List (String × Json)) (k : String)
    (v : Json) : (Json.insObj fields k v).lookup k = some v := by
  induction fields with
  | nil => simp [Json.insObj, List.lookup]
  | cons hd tl ih =>
    obtain ⟨k', v'⟩ := hd
    by_cases h1 : strLt k k' = true
    · simp [Json.insObj, h1, List.lookup]
    · by_cases h2 : k = k'
      · subst h2
        simp [Json.insObj, h1, List.lookup]
      · have hbeq : (k == k') = false := by simp [h2]
        simp [Json.insObj, h1, h2, List.lookup, hbeq, ih]

theorem Json.lookup_insObj_ne (fields : List (String × Json)) (k : String)
    (v : Json) (k' : String) (h : k' ≠ k) :
    (Json.insObj fields k v).lookup k' = fields.lookup k' := by
  have hbeq : (k' == k) = false := by simp [h]
  induction fields with
  | nil => simp [Json.insObj, List.lookup, hbeq]
  | cons hd tl ih =>
    obtain ⟨k₀, v₀⟩ := hd
    by_cases h1 : strLt k k₀ = true
    · simp [Json.insObj, h1, List.lookup, hbeq]
    · by_cases h2 : k = k₀
      · subst h2
        simp [Json.insObj, h1, List.lookup, hbeq]
      · simp [Json.insObj, h1, h2, List.lookup, ih]

/-! ### `strLt` is a strict total order -/

theorem strLtAux_irrefl (l : List Char) : strLtAux l l = false := by
  induction l with
  | nil => rfl
  | cons c cs ih => simp [strLtAux, ih]

theorem strLt_irrefl (a : String) : strLt a a = false :=
  strLtAux_irrefl a.data

theorem strLt_ne {a b : String} (h : strLt a b = true) : a ≠ b := by
  intro he
  subst he
  rw [strLt_irrefl] at h
  exact Bool.false_ne_true h

theorem strLtAux_asymm (x y : List Char) (h : strLtAux x y = true) :
    strLtAux y x = false := by
  induction x generalizing y with
  | nil =>
    cases y with
    | nil => simp [strLtAux] at h
    | cons b bs => simp [strLtAux]
  | cons a as ih =>
    cases y with
    | nil => simp [strLtAux] at h
    | cons b bs =>
      by_cases h1 : a.toNat < b.toNat
      · have h2 : ¬b.toNat < a.toNat := by omega
        simp [strLtAux, h1, h2]
      · by_cases h2 : b.toNat < a.toNat
        · simp [strLtAux, h1, h2] at h
        · simp [strLtAux, h1, h2] at h ⊢
          exact ih bs h

theorem strLt_asymm {a b : String} (h : strLt a b = true) :
    strLt b a = false :=
  strLtAux_asymm a.data b.data h

theorem strLtAux_conn (x y : List Char) (h1 : strLtAux x y = false)
    (h2 : strLtAux y x = false) : x = y := by
  induction x generalizing y with
  | nil =>
    cases y with
    | nil => rfl
    | cons b bs => simp [strLtAux] at h1
  | cons a as ih =>
    cases y with
    | nil => simp [strLtAux] at h2
    | cons b bs =>
      by_cases hab : a.toNat < b.toNat
      · simp [strLtAux, hab] at h1
      · by_cases hba : b.toNat < a.toNat
        · simp [strLtAux, hba] at h2
        · have heq : a = b := by
            have : a.toNat = b.toNat := by omega
            have := congrArg Char.ofNat this
            rwa [Char.ofNat_toNat, Char.ofNat_toNat] at this
          subst heq
          simp [strLtAux, hab] at h1 h2
          rw [ih bs h1 h2]

theorem strLt_conn {a b : String} (h1 : strLt a b = false)
    (h2 : strLt b a = false) : a = b :=
  String.ext (strLtAux_conn a.data b.data h1 h2)

theorem strLtAux_trans (x y z : List Char) (h1 : strLtAux x y = true)
    (h2 : strLtAux y z = true) : strLtAux x z = true := by
  induction x generalizing y z with
  | nil =>
    cases z with
    | nil =>
      cases y with
      | nil => simp [strLtAux] at h1
      | cons b bs => simp [strLtAux] at h2
    | cons c cs => simp [strLtAux]
  | cons a as ih =>
    cases y with
    | nil => simp [strLtAux] at h1
    | cons b bs =>
      cases z with
      | nil => simp [strLtAux] at h2
      | cons c cs =>
        by_cases hab : a.toNat < b.toNat <;>
          by_cases hbc : b.toNat < c.toNat
        · simp [strLtAux, (show a.toNat < c.toNat by omega)]
        · by_cases hcb : c.toNat < b.toNat
          · simp [strLtAux, hbc, hcb] at h2
          · have : b.toNat = c.toNat := by omega
            simp [strLtAux, (show a.toNat < c.toNat by omega)]
        · by_cases hba : b.toNat < a.toNat
          · simp [strLtAux, hab, hba] at h1
          · have : a.toNat = b.toNat := by omega
            simp [strLtAux, (show a.toNat < c.toNat by omega)]
        · by_cases hba : b.toNat < a.toNat
          · simp [strLtAux, hab, hba] at h1
          · by_cases hcb : c.toNat < b.toNat
            · simp [strLtAux, hbc, hcb] at h2
            · have hac : ¬a.toNat < c.toNat := by omega
              have hca : ¬c.toNat < a.toNat := by omega
              simp [strLtAux, hab, hba] at h1
              simp [strLtAux, hbc, hcb] at h2
              simp [strLtAux, hac, hca]
              exact ih bs cs h1 h2

theorem strLt_trans {a b c : String} (h1 : strLt a b = true)
    (h2 : strLt b c = true) : strLt a c = true :=
  strLtAux_trans a.data b.data c.data h1 h2

theorem strLt_trichotomy (a b : String) :
    (strLt a b = true ∧ a ≠ b) ∨ a = b ∨
      (strLt a b = false ∧ a ≠ b ∧ strLt b a = true) := by
  rcases Bool.eq_false_or_eq_true (strLt a b) with h | h
  · exact Or.inl ⟨h, strLt_ne h⟩
  · rcases Bool.eq_false_or_eq_true (strLt b a) with h' | h'
    · exact Or.inr (Or.inr ⟨h, Ne.symm (strLt_ne h'), h'⟩)
    · exact Or.inr (Or.inl (strLt_conn h h'))

/-! ### Commutation of sorted insertion -/

theorem Json.insObj_insObj_self (fields : List (String × Json))
    (k : String) (a b : Json) :
    Json.insObj (Json.insObj fields k a) k b = Json.insObj fields k b := by
  induction fields with
  | nil => simp [Json.insObj, strLt_irrefl]
  | cons hd tl ih =>
    obtain ⟨k0, v0⟩ := hd
    by_cases h1 : strLt k k0 = true
    · simp [Json.insObj, h1, strLt_irrefl]
    · by_cases h2 : k = k0
      · subst h2
        simp [Json.insObj, h1, strLt_irrefl]
      · simp [Json.insObj, h1, h2, ih]

theorem Json.insObj_comm (fields : List (String × Json)) (k k' : String)
    (a b : Json) (hne : k ≠ k') :
    Json.insObj (Json.insObj fields k a) k' b =
      Json.insObj (Json.insObj fields k' b) k a := by
  induction fields with
  | nil =>
    by_cases h1 : strLt k' k = true
    · have h2 : strLt k k' = false := strLt_asymm h1
      simp [Json.insObj, h1, h2, hne, Ne.symm hne]
    · have h2 : strLt k k' = true := by
        rcases Bool.eq_false_or_eq_true (strLt k k') with h | h
        · exact h
        · exact absurd (strLt_conn h (by simpa using h1)) hne
      simp [Json.insObj, h1, h2, hne, Ne.symm hne]
  | cons hd tl ih =>
    obtain ⟨k0, v0⟩ := hd
    rcases strLt_trichotomy k k0 with hk | hk | hk
    all_goals rcases strLt_trichotomy k' k0 with hk' | hk' | hk'
    · -- both k and k' sort before k0
      by_cases hkk : strLt k' k = true
      · have hrev : strLt k k' = false := strLt_asymm hkk
        simp [Json.insObj, hk.1, hk', hkk, hrev, hne, Ne.symm hne]
      · have hfwd : strLt k k' = true := by
          rcases Bool.eq_false_or_eq_true (strLt k k') with h | h
          · exact h
          · exact absurd (strLt_conn h (by simpa using hkk)) hne
        simp [Json.insObj, hk.1, hk', hkk, hfwd, hne, Ne.symm hne]
    · -- k before k0, k' = k0
      subst hk'
      have hrev : strLt k' k = false := strLt_asymm hk.1
      have hne' : k' ≠ k := Ne.symm hne
      simp [Json.insObj, hk.1, hrev, hne', strLt_irrefl]
    · -- k before k0, k' after k0
      have hrev : strLt k' k = false := by
        rcases Bool.eq_false_or_eq_true (strLt k' k) with h | h
        · exact absurd (strLt_trans h hk.1) (by simp [hk'.1])
        · exact h
      have hne' : k' ≠ k := Ne.symm hne
      simp [Json.insObj, hk.1, hk'.1, hk'.2, hrev, hne']
    · -- k = k0, k' before k0
      subst hk
      have hrev : strLt k k' = false := strLt_asymm hk'.1
      simp [Json.insObj, hk', hrev, hne, strLt_irrefl]
    · -- k = k0 = k'; contradiction
      exact absurd (hk.trans hk'.symm) hne
    · -- k = k0, k' after k0
      subst hk
      have hne' : k' ≠ k := Ne.symm hne
      simp [Json.insObj, hk'.1, hk'.2, strLt_irrefl, hne']
    · -- k after k0, k' before k0
      have hrev : strLt k k' = false := by
        rcases Bool.eq_false_or_eq_true (strLt k k') with h | h
        · exact absurd (strLt_trans h hk'.1) (by simp [hk.1])
        · exact h
      simp [Json.insObj, hk.1, hk.2, hk', hrev, hne]
    · -- k after k0, k' = k0
      subst hk'
      have hrev : strLt k k' = false := hk.1
      simp [Json.insObj, hk.1, hk.2, hne, strLt_irrefl]
    · -- both after k0: recurse
      simp [Json.insObj, hk.1, hk.2, hk'.1, hk'.2, ih]

theorem Json.isObj_setKey (j : Json) (k : String) (v : Json)
    (h : j.isObj = true) : (j.setKey k v).isObj = true := by
  cases j <;> simp_all [Json.isObj, Json.setKey]

theorem Json.get?_setKey_self (j : Json) (k : String) (v : Json)
    (h : j.isObj = true) : (j.setKey k v).get? k = some v := by
  cases j <;> simp_all [Json.isObj, Json.setKey, Json.get?,
    Json.lookup_insObj_self]

theorem Json.get?_setKey_ne (j : Json) (k : String) (v : Json) (k' : String)
    (h : k' ≠ k) : (j.setKey k v).get? k' = j.get? k' := by
  cases j <;> simp_all [Json.setKey, Json.get?, Json.lookup_insObj_ne]

/-! ### The merged accumulator stays an object, and its `errors` array
only grows -/

theorem isObj_mergeDataKey (m : Json) (k : String) (v : Json)
    (h : m.isObj = true) : (mergeDataKey m k v).isObj = true := by
  unfold mergeDataKey
  cases hd : m.get? "data" with
  | none => simpa using Json.isObj_setKey _ _ _ h
  | some d => cases d <;> simpa using Json.isObj_setKey _ _ _ h

theorem isObj_appendErrors (m : Json) (errs : List Json)
    (h : m.isObj = true) : (appendErrors m errs).isObj = true := by
  unfold appendErrors
  cases he : m.get? "errors" with
  | none => simpa using Json.isObj_setKey _ _ _ h
  | some d => cases d <;> simpa using Json.isObj_setKey _ _ _ h

theorem isObj_foldl_mergeDataKey (fields : List (String × Json)) (m : Json)
    (h : m.isObj = true) :
    (fields.foldl (fun acc kv => mergeDataKey acc kv.1 kv.2) m).isObj = true := by
  induction fields generalizing m with
  | nil => simpa using h
  | cons hd tl ih => exact ih _ (isObj_mergeDataKey _ _ _ h)

theorem isObj_mergeData (m response : Json) (h : m.isObj = true) :
    (mergeData m response).isObj = true := by
  unfold mergeData
  cases hd : response.get? "data" with
  | none => simpa using h
  | some d => cases d <;> simp_all [isObj_foldl_mergeDataKey]

theorem isObj_mergeErrors (m response : Json) (n : String)
    (h : m.isObj = true) : (mergeErrors m response n).isObj = true := by
  unfold mergeErrors
  cases he : response.get? "errors" with
  | none => simpa using h
  | some d =>
    cases d <;> try simpa using h
    rename_i l
    by_cases hl : l.isEmpty <;> simp [hl, h, isObj_appendErrors]

theorem isObj_mergeStep (m : Json) (r : ServiceResult)
    (h : m.isObj = true) : (mergeStep m r).isObj = true := by
  unfold mergeStep
  cases r with
  | error e => exact isObj_appendErrors _ _ h
  | ok p => exact isObj_mergeErrors _ _ _ (isObj_mergeData _ _ h)

theorem errMem_mergeDataKey (m : Json) (k : String) (v : Json) (x : Json)
    (h : errMem m x) : errMem (mergeDataKey m k v) x := by
  obtain ⟨l, hl, hx⟩ := h
  have hne : ("errors" : String) ≠ "data" := by decide
  unfold mergeDataKey
  cases hd : m.get? "data" with
  | none => exact ⟨l, by rw [Json.get?_setKey_ne _ _ _ _ hne, hl], hx⟩
  | some d =>
    cases d <;> exact ⟨l, by rw [Json.get?_setKey_ne _ _ _ _ hne, hl], hx⟩

theorem errMem_appendErrors_old (m : Json) (errs : List Json) (x : Json)
    (h : errMem m x) : errMem (appendErrors m errs) x := by
  obtain ⟨l, hl, hx⟩ := h
  have hobj : m.isObj = true := by
    cases m <;> simp_all [Json.get?, Json.isObj]
  unfold appendErrors
  rw [hl]
  exact ⟨l ++ errs, Json.get?_setKey_self _ _ _ hobj, by simp [hx]⟩

theorem errMem_appendErrors_new (m : Json) (errs : List Json) (x : Json)
    (hobj : m.isObj = true) (hx : x ∈ errs) : errMem (appendErrors m errs) x := by
  unfold appendErrors
  cases he : m.get? "errors" with
  | none => exact ⟨errs, Json.get?_setKey_self _ _ _ hobj, hx⟩
  | some d =>
    cases d <;>
      first
      | exact ⟨errs, Json.get?_setKey_self _ _ _ hobj, hx⟩
      | exact ⟨_ ++ errs, Json.get?_setKey_self _ _ _ hobj, by simp [hx]⟩

theorem errMem_foldl_mergeDataKey (fields : List (String × Json))
    (m x : Json) (h : errMem m x) :
    errMem (fields.foldl (fun acc kv => mergeDataKey acc kv.1 kv.2) m) x := by
  induction fields generalizing m with
  | nil => simpa using h
  | cons hd tl ih => exact ih _ (errMem_mergeDataKey _ _ _ _ h)

theorem errMem_mergeData (m response x : Json) (h : errMem m x) :
    errMem (mergeData m response) x := by
  unfold mergeData
  cases hd : response.get? "data" with
  | none => simpa using h
  | some d => cases d <;> simp_all [errMem_foldl_mergeDataKey]

theorem errMem_mergeErrors (m response : Json) (n : String) (x : Json)
    (h : errMem m x) : errMem (mergeErrors m response n) x := by
  unfold mergeErrors
  cases he : response.get? "errors" with
  | none => simpa using h
  | some d =>
    cases d <;> try simpa using h
    rename_i l
    by_cases hl : l.isEmpty <;> simp [hl, h, errMem_appendErrors_old]

theorem errMem_mergeStep_mono (m : Json) (r : ServiceResult) (x : Json)
    (h : errMem m x) : errMem (mergeStep m r) x := by
  unfold mergeStep
  cases r with
  | error e => exact errMem_appendErrors_old _ _ _ h
  | ok p => exact errMem_mergeErrors _ _ _ _ (errMem_mergeData _ _ _ h)

theorem errMem_foldl_mono (results : List ServiceResult) (m x : Json)
    (h : errMem m x) : errMem (results.foldl mergeStep m) x := by
  induction results generalizing m with
  | nil => simpa using h
  | cons hd tl ih => exact ih _ (errMem_mergeStep_mono _ _ _ h)

theorem isObj_foldl_mergeStep (results : List ServiceResult) (m : Json)
    (h : m.isObj = true) : (results.foldl mergeStep m).isObj = true := by
  induction results generalizing m with
  | nil => simpa using h
  | cons hd tl ih => exact ih _ (isObj_mergeStep _ _ h)

theorem errMem_foldl_of_error (results : List ServiceResult) (m : Json)
    (e : String) (hobj : m.isObj = true) (hmem : Except.error e ∈ results) :
    errMem (results.foldl mergeStep m) (executionErrorObj e) := by
  induction results generalizing m with
  | nil => simp at hmem
  | cons hd tl ih =>
    rcases List.mem_cons.mp hmem with heq | htl
    · subst heq
      have hstep : errMem (mergeStep m (Except.error e)) (executionErrorObj e) := by
        unfold mergeStep
        exact errMem_appendErrors_new _ _ _ hobj (by simp)
      exact errMem_foldl_mono tl _ _ hstep
    · exact ih _ (isObj_mergeStep _ _ hobj) htl

theorem errMem_mergeResults_of_error (results : List ServiceResult)
    (e : String) (hmem : Except.error e ∈ results) :
    errMem (mergeResults results) (executionErrorObj e) :=
  errMem_foldl_of_error results _ e (by simp [Json.isObj]) hmem

theorem error_mem_serviceResults (plan : QueryPlan)
    (schema : FederatedSchema) (outcome : String → Except String Json)
    (s q : String) (cfg : ServiceConfig) (e : String)
    (hq : (s, q) ∈ plan.service_queries)
    (hsvc : schema.services.lookup s = some cfg)
    (hout : outcome s = .error e) :
    Except.error e ∈ serviceResults plan schema outcome := by
  unfold serviceResults
  exact List.mem_filterMap.mpr ⟨(s, q), hq, by simp [hsvc, hout, Except.map]⟩

/-! ## Claim C1: fail-fast execution -/

/-- **C1, counterexample.**  The claim says a transport-layer failure makes
`execute_plan` return an error and that no partially merged response is
ever returned.  With `products` down and `users` healthy, `execute_plan`
returns `Ok` carrying both the `users` data (a partial merge) and an
`errors` entry for the failure. -/
theorem execute_plan_failfast_counterexample :
    execute_plan twoServicePlan twoServiceSchema usersOkProductsDown =
      .ok (.obj [("data", .obj [("users", .arr [.obj [("id", .str "1")]])]),
                 ("errors", .arr [executionErrorObj "connection refused"])]) := by
  rfl

/-- **C1, amended.**  `execute_plan` is not fail-fast: it always returns
`Ok`, and a transport-layer failure of a planned, registered service is
recorded as an `{"message": "Execution error: …"}` entry in the merged
response's `errors` array, returned alongside whatever other data merged;
the HTTP status of upstream responses is never inspected. -/
theorem execute_plan_collects_failures (plan : QueryPlan)
    (schema : FederatedSchema) (outcome : String → Except String Json)
    (s q : String) (cfg : ServiceConfig) (e : String)
    (hq : (s, q) ∈ plan.service_queries)
    (hsvc : schema.services.lookup s = some cfg)
    (hout : outcome s = .error e) :
    ∃ merged, execute_plan plan schema outcome = .ok merged ∧
      errMem merged (executionErrorObj e) :=
  ⟨mergeResults (serviceResults plan schema outcome), rfl,
    errMem_mergeResults_of_error _ _
      (error_mem_serviceResults plan schema outcome s q cfg e hq hsvc hout)⟩

/-- Witness for `execute_plan_collects_failures` at the concrete two-service
fixture with `products` failing. -/
theorem execute_plan_collects_failures_witness :
    ∃ merged,
      execute_plan twoServicePlan twoServiceSchema usersOkProductsDown =
        .ok merged ∧ errMem merged (executionErrorObj "connection refused") :=
  execute_plan_collects_failures twoServicePlan twoServiceSchema
    usersOkProductsDown "products" "query products" ⟨"products", "http://p", ""⟩
    "connection refused" (List.mem_cons_self _ _) rfl rfl

/-! ## Claim C2: outbound request body -/

/-- **C2, counterexample.**  The claim says the outbound body's
`"variables"` is the projected `plan.service_variables[s]`.  For a plan
whose projection for `users` is `{"u": "1"}`, the request built for
`users` carries `"variables": {}` instead. -/
theorem buildRequest_variables_counterexample :
    projectedVarPlan.service_variables.lookup "users" =
        some (.obj [("u", .str "1")]) ∧
    buildRequest usersOnlySchema "users" "query($u: ID!) q" =
      some { url := "http://u"
             headers := [("Content-Type", "application/json")]
             body := .obj [("query", .str "query($u: ID!) q"),
                           ("variables", .obj [])] } ∧
    (Json.obj []) ≠ (Json.obj [("u", .str "1")]) :=
  ⟨rfl, rfl, by simp⟩

/-- **C2, amended.**  The outbound POST for a registered service `s` goes
to `service.url` with header `Content-Type: application/json` and JSON
body `{"query": operation_text, "variables": {}}` — the `variables`
member is always the empty object; `plan.service_variables` is never
consulted by the executor. -/
theorem buildRequest_eq (schema : FederatedSchema) (s q : String)
    (cfg : ServiceConfig) (h : schema.services.lookup s = some cfg) :
    buildRequest schema s q =
      some { url := cfg.url
             headers := [("Content-Type", "application/json")]
             body := .obj [("query", .str q), ("variables", .obj [])] } := by
  simp [buildRequest, h]

/-- Witness for `buildRequest_eq` at the one-service fixture. -/
theorem buildRequest_eq_witness :
    buildRequest usersOnlySchema "users" "query($u: ID!) q" =
      some { url := "http://u"
             headers := [("Content-Type", "application/json")]
             body := .obj [("query", .str "query($u: ID!) q"),
                           ("variables", .obj [])] } :=
  buildRequest_eq usersOnlySchema "users" "query($u: ID!) q"
    ⟨"users", "http://u", ""⟩ rfl

/-! ## Claim C5: auth header forwarding -/

/-- **C5, counterexample.**  The claim says every `(name, value)` pair of
`auth_headers` is set verbatim on each outbound request.  For a request
carrying `Authorization: Bearer t`, the single outbound request built for
the plan carries only `Content-Type: application/json` — the auth header
is nowhere: `QueryExecutor::execute_plan` takes no header argument at all
and `process_request` drops `req.auth_headers` on the floor. -/
theorem auth_headers_counterexample :
    authRequest.auth_headers = some [("Authorization", "Bearer t")] ∧
    serviceRequests projectedVarPlan usersOnlySchema =
      [{ url := "http://u"
         headers := [("Content-Type", "application/json")]
         body := .obj [("query", .str "query($u: ID!) q"),
                       ("variables", .obj [])] }] ∧
    ∀ r ∈ serviceRequests projectedVarPlan usersOnlySchema,
      ("Authorization", "Bearer t") ∉ r.headers := by
  refine ⟨rfl, rfl, ?_⟩
  intro r hr
  rcases List.mem_singleton.mp hr with h
  subst h
  decide

/-- **C5, amended.**  Auth headers are never forwarded: every outbound
request of every `execute_plan` fan-out carries exactly the single header
`Content-Type: application/json`, whatever the client request's
`auth_headers` held. -/
theorem serviceRequests_headers (plan : QueryPlan)
    (schema : FederatedSchema) (r : HttpRequest)
    (h : r ∈ serviceRequests plan schema) :
    r.headers = [("Content-Type", "application/json")] := by
  unfold serviceRequests at h
  obtain ⟨sq, _, hb⟩ := List.mem_filterMap.mp h
  unfold buildRequest at hb
  obtain ⟨cfg, _, hr⟩ := Option.map_eq_some'.mp hb
  rw [← hr]

/-- Witness for `serviceRequests_headers` at the one-service fixture. -/
theorem serviceRequests_headers_witness :
    ({ url := "http://u"
       headers := [("Content-Type", "application/json")]
       body := .obj [("query", .str "query($u: ID!) q"),
                     ("variables", .obj [])] } : HttpRequest).headers =
      [("Content-Type", "application/json")] :=
  serviceRequests_headers projectedVarPlan usersOnlySchema _
    (List.mem_cons_self _ _)

/-! ## Claim C7: missing services -/

/-- **C7, counterexample.**  The claim says a plan naming a service absent
from the snapshot makes `execute_plan` fail with a `ServiceNotFound`
error.  With `ghost` absent, `execute_plan` silently skips the entry and
returns the merged result of the remaining service. -/
theorem missing_service_counterexample :
    usersOnlySchema.services.lookup "ghost" = none ∧
    ("ghost", "query g") ∈ ghostPlan.service_queries ∧
    execute_plan ghostPlan usersOnlySchema usersDataOutcome =
      .ok (.obj [("data", .obj [("users", .arr [])])]) :=
  ⟨rfl, List.mem_cons_self _ _, rfl⟩

/-- **C7, amended.**  `execute_plan` silently skips a plan entry whose
service name is absent from `schema.services`: the result is exactly that
of executing the plan without the entry (and, by
`execute_plan_collects_failures`, never a `ServiceNotFound` error — the
code has no such variant). -/
theorem execute_plan_skips_missing (s q : String)
    (rest : List (String × String)) (svars svars' : List (String × Json))
    (schema : FederatedSchema) (outcome : String → Except String Json)
    (h : schema.services.lookup s = none) :
    execute_plan ⟨(s, q) :: rest, svars⟩ schema outcome =
      execute_plan ⟨rest, svars'⟩ schema outcome := by
  simp [execute_plan, serviceResults, h]

/-- Witness for `execute_plan_skips_missing` at the `ghost` fixture. -/
theorem execute_plan_skips_missing_witness :
    execute_plan ghostPlan usersOnlySchema usersDataOutcome =
      execute_plan ⟨[("users", "query u")], []⟩ usersOnlySchema
        usersDataOutcome :=
  execute_plan_skips_missing "ghost" "query g" [("users", "query u")] []
    [] usersOnlySchema usersDataOutcome rfl

/-! ## Claim C6: merge determinism -/

theorem mergeDataKey_comm (m : Json) (k k' : String) (v v' : Json)
    (hne : k ≠ k') :
    mergeDataKey (mergeDataKey m k v) k' v' =
      mergeDataKey (mergeDataKey m k' v') k v := by
  cases m
  case obj fs =>
    rcases hd : List.lookup "data" fs with _ | j
    · simp only [mergeDataKey, Json.get?, hd, Json.setKey,
        Json.lookup_insObj_self, Json.insObj_insObj_self]
      exact congrArg (fun X => Json.obj (Json.insObj fs "data" (Json.obj X)))
        (Json.insObj_comm [] k k' v v' hne)
    · cases j
      case obj ds =>
        simp [mergeDataKey, Json.get?, hd, Json.setKey,
          Json.lookup_insObj_self, Json.insObj_insObj_self,
          Json.insObj_comm ds k k' v v' hne]
      all_goals
        simp only [mergeDataKey, Json.get?, hd, Json.setKey,
          Json.lookup_insObj_self, Json.insObj_insObj_self]
      all_goals
        exact congrArg (fun X => Json.obj (Json.insObj fs "data" (Json.obj X)))
          (Json.insObj_comm [] k k' v v' hne)
  all_goals simp [mergeDataKey, Json.get?, Json.setKey]

theorem mergeStep_pure (r : ServiceResult) (fs : List (String × Json))
    (m : Json) (h : pureDataFields r = some fs) :
    mergeStep m r =
      fs.foldl (fun acc kv => mergeDataKey acc kv.1 kv.2) m := by
  cases r with
  | error e => simp [pureDataFields] at h
  | ok p =>
    obtain ⟨n, resp⟩ := p
    cases resp <;> try simp [pureDataFields] at h
    rename_i rf
    rcases hd : List.lookup "data" rf with _ | d
    · rw [hd] at h
      simp at h
    · rw [hd] at h
      rcases he : List.lookup "errors" rf with _ | er
      · rw [he] at h
        cases d <;> simp at h
        rename_i ds
        subst h
        simp [mergeStep, mergeData, mergeErrors, Json.get?, hd, he]
      · rw [he] at h
        cases d <;> simp at h

theorem foldl_mergeStep_pure (rs : List ServiceResult) (m : Json)
    (h : ∀ r ∈ rs, (pureDataFields r).isSome) :
    rs.foldl mergeStep m =
      (flattenData rs).foldl (fun acc kv => mergeDataKey acc kv.1 kv.2) m := by
  induction rs generalizing m with
  | nil => simp [flattenData]
  | cons hd tl ih =>
    obtain ⟨fs, hfs⟩ := Option.isSome_iff_exists.mp (h hd (by simp))
    have h2 : flattenData (hd :: tl) = fs ++ flattenData tl := by
      simp [flattenData, hfs]
    rw [List.foldl_cons, mergeStep_pure hd fs m hfs, h2, List.foldl_append]
    exact ih _ fun r hr => h r (by simp [hr])

theorem foldl_mergeDataKey_perm (l1 l2 : List (String × Json)) (m : Json)
    (hperm : l1.Perm l2) (hnodup : (l1.map Prod.fst).Nodup) :
    l1.foldl (fun acc kv => mergeDataKey acc kv.1 kv.2) m =
      l2.foldl (fun acc kv => mergeDataKey acc kv.1 kv.2) m := by
  apply hperm.foldl_eq'
  intro x hx y hy z
  by_cases hxy : x = y
  · subst hxy; rfl
  · exact mergeDataKey_comm z x.1 y.1 x.2 y.2
      fun he => hxy (List.inj_on_of_nodup_map hnodup hx hy he)

/-- **C6, counterexample.**  The claim says iteration over
`service_queries` is lexicographically stable, making merged output
byte-identical across runs.  `service_queries` is a Rust `HashMap`: its
iteration order varies run to run.  With identical upstream responses
(each service reporting one GraphQL error), the two possible iteration
orders produce different merged JSON — the `errors` arrays differ. -/
theorem merge_determinism_counterexample :
    twoServicePlanSwapped.service_queries.Perm
        twoServicePlan.service_queries ∧
    execute_plan twoServicePlan twoServiceSchema errorsEverywhere ≠
      execute_plan twoServicePlanSwapped twoServiceSchema errorsEverywhere := by
  constructor
  · exact List.Perm.swap _ _ _
  · intro h
    have h1 : execute_plan twoServicePlan twoServiceSchema errorsEverywhere =
        .ok (.obj [("errors", .arr [.obj [("service", .str "products")],
          .obj [("service", .str "users")]])]) := rfl
    have h2 : execute_plan twoServicePlanSwapped twoServiceSchema
          errorsEverywhere =
        .ok (.obj [("errors", .arr [.obj [("service", .str "users")],
          .obj [("service", .str "products")]])]) := rfl
    rw [h1, h2] at h
    simp at h

/-- **C6, amended.**  The merge output is a function of the iteration
order of `service_queries`, which is `HashMap` order — not lexicographic
and not stable across runs; the `errors` array concatenates in that
order.  Determinism holds on the data path: when every upstream response
carries only a `data` object and the contributed top-level keys are
pairwise distinct, the merged JSON is the same for every iteration
order. -/
theorem execute_plan_order_independent (p1 p2 : QueryPlan)
    (schema : FederatedSchema) (outcome : String → Except String Json)
    (hperm : p1.service_queries.Perm p2.service_queries)
    (hpure : ∀ r ∈ serviceResults p1 schema outcome,
      (pureDataFields r).isSome)
    (hnodup : ((flattenData (serviceResults p1 schema outcome)).map
      Prod.fst).Nodup) :
    execute_plan p1 schema outcome = execute_plan p2 schema outcome := by
  have hres : (serviceResults p1 schema outcome).Perm
      (serviceResults p2 schema outcome) := hperm.filterMap _
  have hpure2 : ∀ r ∈ serviceResults p2 schema outcome,
      (pureDataFields r).isSome :=
    fun r hr => hpure r (hres.mem_iff.mpr hr)
  have hflat : (flattenData (serviceResults p1 schema outcome)).Perm
      (flattenData (serviceResults p2 schema outcome)) :=
    ((hres.map _).flatten :)
  unfold execute_plan mergeResults
  rw [foldl_mergeStep_pure _ _ hpure, foldl_mergeStep_pure _ _ hpure2]
  exact congrArg Except.ok (foldl_mergeDataKey_perm _ _ _ hflat hnodup)

/-- Witness for `execute_plan_order_independent`: the two iteration
orders of the two-service plan, with disjoint pure-data responses. -/
theorem execute_plan_order_independent_witness :
    execute_plan twoServicePlan twoServiceSchema disjointDataOutcome =
      execute_plan twoServicePlanSwapped twoServiceSchema
        disjointDataOutcome :=
  execute_plan_order_independent twoServicePlan twoServicePlanSwapped
    twoServiceSchema disjointDataOutcome (List.Perm.swap _ _ _)
    (by decide) (by decide)

/-! ## Planner lemmas -/

theorem lookup_insertAssoc_self {α : Type} (l : List (String × α))
    (k : String) (v : α) : (insertAssoc l k v).lookup k = some v := by
  induction l with
  | nil => simp [insertAssoc, List.lookup]
  | cons hd tl ih =>
    obtain ⟨k', v'⟩ := hd
    by_cases h : k = k'
    · subst h
      simp [insertAssoc, List.lookup]
    · have hbeq : (k == k') = false := by simp [h]
      simp [insertAssoc, h, List.lookup, hbeq, ih]

theorem lookup_insertAssoc_ne {α : Type} (l : List (String × α))
    (k : String) (v : α) (k' : String) (h : k' ≠ k) :
    (insertAssoc l k v).lookup k' = l.lookup k' := by
  have hbeq : (k' == k) = false := by simp [h]
  induction l with
  | nil => simp [insertAssoc, List.lookup, hbeq]
  | cons hd tl ih =>
    obtain ⟨k0, v0⟩ := hd
    by_cases h0 : k = k0
    · subst h0
      simp [insertAssoc, List.lookup, hbeq]
    · simp [insertAssoc, h0, List.lookup, ih]

theorem mem_insertAssoc {α : Type} (l : List (String × α)) (k : String)
    (v : α) (x : String × α) (h : x ∈ insertAssoc l k v) :
    x ∈ l ∨ x = (k, v) := by
  induction l with
  | nil =>
    simp [insertAssoc] at h
    exact Or.inr h
  | cons hd tl ih =>
    obtain ⟨k0, v0⟩ := hd
    by_cases h0 : k = k0
    · subst h0
      simp [insertAssoc] at h
      rcases h with h | h
      · exact Or.inr (by simp [h])
      · exact Or.inl (by simp [h])
    · simp [insertAssoc, h0] at h
      rcases h with h | h
      · exact Or.inl (by simp [h])
      · rcases ih h with h1 | h1
        · exact Or.inl (by simp [h1])
        · exact Or.inr h1

/-- With a JSON-object variables input, the stored per-service variables
are exactly the projection of the collected variables. -/
theorem planFieldVars_obj (obj : List (String × Json))
    (field_variables : List String) :
    planFieldVars (some (.obj obj)) field_variables =
      .obj (projectVars field_variables obj) := by
  by_cases he : field_variables.isEmpty
  · have hnil : field_variables = [] := by
      simpa [List.isEmpty_iff] using he
    simp [planFieldVars, he, hnil, projectVars]
  · simp [planFieldVars, he]

/-- Main planner-loop lemma: when every field routes successfully, the
loop succeeds; untouched services keep their accumulator entries; and
when the routed services are pairwise distinct, each field's own
operation text and variable projection are recorded under its service. -/
theorem planFields_ok_of_routes (ot : String)
    (vds : List VariableDefinition) (vars : Option Json)
    (schema : FederatedSchema) (routes : QField → String) :
    ∀ (fields : List QField)
      (acc : List (String × String) × List (String × Json)),
      (∀ f ∈ fields, find_service_for_field f.name ot schema =
        .ok (routes f)) →
      ∃ acc', planFields ot vds vars schema fields acc = .ok acc' ∧
        (∀ s, s ∉ fields.map routes →
          acc'.1.lookup s = acc.1.lookup s ∧
          acc'.2.lookup s = acc.2.lookup s) ∧
        ((fields.map routes).Nodup → ∀ f ∈ fields,
          acc'.1.lookup (routes f) =
            some (create_field_query f ot vds
              (find_variables_in_field f)) ∧
          acc'.2.lookup (routes f) =
            some (planFieldVars vars (find_variables_in_field f))) := by
  intro fields
  induction fields with
  | nil =>
    intro acc _
    exact ⟨acc, rfl, fun s _ => ⟨rfl, rfl⟩, fun _ f hf => absurd hf (by simp)⟩
  | cons f rest ih =>
    intro acc hroute
    have hf := hroute f (by simp)
    obtain ⟨acc', hpf, hpres, hnod⟩ :=
      ih (insertAssoc acc.1 (routes f)
            (create_field_query f ot vds (find_variables_in_field f)),
          insertAssoc acc.2 (routes f)
            (planFieldVars vars (find_variables_in_field f)))
        (fun g hg => hroute g (by simp [hg]))
    refine ⟨acc', ?_, ?_, ?_⟩
    · simp only [planFields, hf]
      exact hpf
    · intro s hs
      have hs1 : s ∉ rest.map routes := fun h => hs (by simp [h])
      have hs2 : s ≠ routes f := fun h => hs (by simp [h])
      obtain ⟨ha, hb⟩ := hpres s hs1
      exact ⟨by rw [ha, lookup_insertAssoc_ne _ _ _ _ hs2],
        by rw [hb, lookup_insertAssoc_ne _ _ _ _ hs2]⟩
    · intro hnodup g hg
      have hnodup' : (rest.map routes).Nodup := by
        simpa using hnodup.of_cons
      have hfnotin : routes f ∉ rest.map routes := by
        have := hnodup
        simp only [List.map_cons, List.nodup_cons] at this
        exact this.1
      rcases List.mem_cons.mp hg with hgf | hgr
      · subst hgf
        obtain ⟨ha, hb⟩ := hpres (routes g) hfnotin
        exact ⟨by rw [ha]; exact lookup_insertAssoc_self _ _ _,
          by rw [hb]; exact lookup_insertAssoc_self _ _ _⟩
      · exact hnod hnodup' g hgr

/-- Every entry of the planner-loop output is an inherited accumulator
entry or the per-field operation text of one of the processed fields. -/
theorem planFields_mem (ot : String) (vds : List VariableDefinition)
    (vars : Option Json) (schema : FederatedSchema) :
    ∀ (fields : List QField) acc acc',
      planFields ot vds vars schema fields acc = .ok acc' →
      ∀ x ∈ acc'.1, x ∈ acc.1 ∨ ∃ f ∈ fields,
        x.2 = create_field_query f ot vds (find_variables_in_field f) := by
  intro fields
  induction fields with
  | nil =>
    intro acc acc' h x hx
    simp [planFields] at h
    subst h
    exact Or.inl hx
  | cons f rest ih =>
    intro acc acc' h x hx
    rcases hs : find_service_for_field f.name ot schema with e | service_name
    · simp [planFields, hs] at h
    · simp only [planFields, hs] at h
      rcases ih _ _ h x hx with h1 | ⟨g, hg, hq⟩
      · rcases mem_insertAssoc _ _ _ _ h1 with h2 | h2
        · exact Or.inl h2
        · exact Or.inr ⟨f, by simp, by simp [h2]⟩
      · exact Or.inr ⟨g, by simp [hg], hq⟩

/-- `plan_query` on a one-operation unnamed document, unpacked. -/
theorem plan_query_selectionSet (items : List Selection)
    (schema : FederatedSchema) (vars : Option Json) (plan : QueryPlan)
    (h : plan_query ⟨[.operation (.selectionSet items)]⟩ schema vars =
      .ok plan) :
    ∃ acc', planFields "Query" [] vars schema (extract_fields items)
        ([], []) = .ok acc' ∧
      plan.service_queries = acc'.1 ∧ plan.service_variables = acc'.2 := by
  rcases hpf : planFields "Query" [] vars schema (extract_fields items)
      ([], []) with e | acc'
  · simp [plan_query, planDefs, hpf] at h
  · refine ⟨acc', rfl, ?_⟩
    by_cases hemp : acc'.1.isEmpty
    · simp [plan_query, planDefs, hpf, hemp] at h
    · simp [plan_query, planDefs, hpf, hemp] at h
      rw [← h]
      exact ⟨rfl, rfl⟩

/-! ## Claim C3: same-service collapse -/

/-- **C3, counterexample.**  The claim says two top-level fields routed
to the same service collapse into one operation holding both root
fields.  With `a` and `b` both owned by `s1`, the plan's only entry is
the single-root operation of `b` alone — `service_queries.insert`
overwrote `a`'s operation (the emitted text does not even contain the
character `a`), so the multiset of routed top-level field names `{a, b}`
is not preserved. -/
theorem same_service_overwrite_counterexample :
    extract_fields [Selection.field "a" [] [], Selection.field "b" [] []] =
      [⟨"a", [], []⟩, ⟨"b", [], []⟩] ∧
    plan_query docAB sameServiceSchema none =
      .ok ⟨[("s1", "query \x7b\n  b\x7d\n")], [("s1", Json.obj [])]⟩ ∧
    "query \x7b\n  b\x7d\n" =
      create_field_query ⟨"b", [], []⟩ "Query" [] [] ∧
    'a' ∉ ("query \x7b\n  b\x7d\n").data :=
  ⟨rfl, rfl, rfl, by decide⟩

/-- **C3, amended.**  `plan_query` does not collapse same-service
fields: each `service_queries.insert` overwrites, so a service's entry is
the single-root operation of the *last* top-level field routed to it.
Only when the top-level fields of a single-operation query route to
pairwise-distinct services does every field keep its own operation:
the plan then has, under each field's service, exactly that field's
single-root text, so no field is lost. -/
theorem plan_query_distinct_partition (items : List Selection)
    (schema : FederatedSchema) (vars : Option Json)
    (routes : QField → String)
    (hroute : ∀ f ∈ extract_fields items,
      find_service_for_field f.name "Query" schema = .ok (routes f))
    (hnodup : ((extract_fields items).map routes).Nodup)
    (hne : extract_fields items ≠ []) :
    ∃ plan, plan_query ⟨[.operation (.selectionSet items)]⟩ schema vars =
        .ok plan ∧
      ∀ f ∈ extract_fields items,
        plan.service_queries.lookup (routes f) =
          some (create_field_query f "Query" []
            (find_variables_in_field f)) := by
  obtain ⟨acc', hpf, _, hnod⟩ :=
    planFields_ok_of_routes "Query" [] vars schema routes
      (extract_fields items) ([], []) hroute
  have hlook := hnod hnodup
  have hemp : acc'.1.isEmpty = false := by
    cases hfields : extract_fields items with
    | nil => exact absurd hfields hne
    | cons f0 rest =>
      have h0 := (hlook f0 (by rw [hfields]; simp)).1
      cases hitems : acc'.1 with
      | nil =>
        rw [hitems] at h0
        simp [List.lookup] at h0
      | cons a l => simp [hitems]
  refine ⟨⟨acc'.1, acc'.2⟩, ?_, fun f hf => (hlook f hf).1⟩
  simp [plan_query, planDefs, hpf, hemp]

/-- Witness for `plan_query_distinct_partition`: fields `a` and `b`
routed to distinct services `s1`, `s2`. -/
theorem plan_query_distinct_partition_witness :
    ∃ plan, plan_query
        ⟨[.operation (.selectionSet
          [.field "a" [] [], .field "b" [] []])]⟩ twoRouteSchema none =
        .ok plan ∧
      ∀ f ∈ extract_fields [Selection.field "a" [] [],
          Selection.field "b" [] []],
        plan.service_queries.lookup
            (if f.name = "a" then "s1" else "s2") =
          some (create_field_query f "Query" []
            (find_variables_in_field f)) :=
  plan_query_distinct_partition
    [Selection.field "a" [] [], Selection.field "b" [] []]
    twoRouteSchema none (fun f => if f.name = "a" then "s1" else "s2")
    (by decide) (by decide) (by exact List.cons_ne_nil _ _)

/-! ## Claim C4: variable projection -/

/-- **C4, counterexample.**  The claim says `service_variables[s]` holds
exactly the variables referenced anywhere inside the routed field,
including selections reached through fragments.  For a field whose only
variable `$v` occurs inside an inline fragment, the generated operation
text references `$v` but the projected variables are `{}`: the collector
(`collect_variables_from_field`) only recurses into plain
`Selection::Field` items and skips fragment selections. -/
theorem variable_projection_counterexample :
    plan_query inlineFragDoc inlineFragSchema
        (some (.obj [("v", .num 1)])) =
      .ok ⟨[("s1",
        "query \x7b\n  user \x7b\n    ... on Admin \x7b\n      perm(level: $v)\n    \x7d\n  \x7d\n\x7d\n")],
        [("s1", Json.obj [])]⟩ ∧
    "query \x7b\n  user \x7b\n    ... on Admin \x7b\n      perm(level: $v)\n    \x7d\n  \x7d\n\x7d\n" =
      "query \x7b\n  user \x7b\n    ... on Admin \x7b\n      perm(level: " ++
        "$v" ++ ")\n    \x7d\n  \x7d\n\x7d\n" ∧
    (Json.obj [("v", Json.num 1)]).get? "v" = some (Json.num 1) ∧
    (Json.obj []).get? "v" = none :=
  ⟨rfl, rfl, rfl, rfl⟩

/-- **C4, amended.**  For a single-operation query whose top-level fields
route to pairwise-distinct services and whose variables input is a JSON
object, `service_variables[s]` is exactly the projection onto that object
of the variables the code collects — those occurring in argument values
of the routed field and of its *plain-field* nested selections only;
selections inside fragment spreads and inline fragments are not visited,
and referenced variables absent from the client object are silently
dropped. -/
theorem plan_query_variable_projection (items : List Selection)
    (schema : FederatedSchema) (obj : List (String × Json))
    (routes : QField → String)
    (hroute : ∀ f ∈ extract_fields items,
      find_service_for_field f.name "Query" schema = .ok (routes f))
    (hnodup : ((extract_fields items).map routes).Nodup) :
    ∀ plan, plan_query ⟨[.operation (.selectionSet items)]⟩ schema
        (some (.obj obj)) = .ok plan →
      ∀ f ∈ extract_fields items,
        plan.service_variables.lookup (routes f) =
          some (.obj (projectVars (find_variables_in_field f) obj)) := by
  intro plan hplan f hf
  obtain ⟨accB, hpfB, _, hsv⟩ :=
    plan_query_selectionSet items schema _ plan hplan
  obtain ⟨accA, hpfA, _, hnod⟩ :=
    planFields_ok_of_routes "Query" [] (some (.obj obj)) schema routes
      (extract_fields items) ([], []) hroute
  rw [hpfA] at hpfB
  injection hpfB with hAB
  subst hAB
  rw [hsv, (hnod hnodup f hf).2, planFieldVars_obj]

/-- Witness for `plan_query_variable_projection`: spec scenario S3 —
`user(id: $u)` to `s1`, `prod(id: $p)` to `s2`, variables
`{"u": "1", "p": "9"}`; `s1` receives exactly `{"u": "1"}`. -/
theorem plan_query_variable_projection_witness :
    (QueryPlan.mk
        [("s1", "query() \x7b\n  user(id: $u)\x7d\n"),
         ("s2", "query() \x7b\n  prod(id: $p)\x7d\n")]
        [("s1", .obj [("u", .str "1")]),
         ("s2", .obj [("p", .str "9")])]).service_variables.lookup "s1" =
      some (.obj (projectVars
        (find_variables_in_field ⟨"user", [("id", .var "u")], []⟩)
        [("u", .str "1"), ("p", .str "9")])) :=
  plan_query_variable_projection varFieldsItems varFieldsSchema
    [("u", .str "1"), ("p", .str "9")]
    (fun f => if f.name = "user" then "s1" else "s2")
    (by decide) (by decide) _ rfl
    ⟨"user", [("id", .var "u")], []⟩ (List.mem_cons_self _ _)

/-! ## Claim C10: unnamed operations and the `query()` prefix -/

theorem create_field_query_prefix (f : QField) (used : List String)
    (h : used ≠ []) :
    "query()".data <+: (create_field_query f "Query" [] used).data := by
  have hne : used.isEmpty = false := by
    cases used with
    | nil => exact absurd rfl h
    | cons a l => rfl
  refine ⟨(" \x7b\n  " ++ f.name ++
    (if f.arguments.isEmpty then ""
     else "(" ++ argsJoin f.arguments ++ ")") ++
    (if f.selectionSet.isEmpty then ""
     else " \x7b\n" ++ append_selection_set f.selectionSet 4 ++
       "  \x7d\n") ++
    "\x7d\n").data, ?_⟩
  simp [create_field_query, hne, varDeclsAux]

/-- **C10.**  For an unnamed top-level selection set, `plan_query` calls
`create_field_query` with an empty variable-definitions slice; every
per-service operation it emits is the single-root text of one of the
top-level fields, and whenever that field references at least one
variable the emitted text begins with the literal prefix `query()` — an
operation keyword followed by an empty declaration list, declaring none
of the variables it uses. -/
theorem unnamed_operation_empty_parens (items : List Selection)
    (schema : FederatedSchema) (vars : Option Json) (plan : QueryPlan)
    (s q : String)
    (hplan : plan_query ⟨[.operation (.selectionSet items)]⟩ schema vars =
      .ok plan)
    (hmem : (s, q) ∈ plan.service_queries) :
    ∃ f ∈ extract_fields items,
      q = create_field_query f "Query" [] (find_variables_in_field f) ∧
      (find_variables_in_field f ≠ [] → "query()".data <+: q.data) := by
  obtain ⟨acc', hpf, hsq, _⟩ :=
    plan_query_selectionSet items schema vars plan hplan
  rw [hsq] at hmem
  rcases planFields_mem "Query" [] vars schema (extract_fields items)
      ([], []) acc' hpf (s, q) hmem with h | ⟨f, hf, hq⟩
  · simp at h
  · refine ⟨f, hf, hq, fun hnz => ?_⟩
    have hp := create_field_query_prefix f (find_variables_in_field f) hnz
    rw [← hq] at hp
    exact hp

/-- Witness for `unnamed_operation_empty_parens` at a one-field unnamed
operation using `$u`: the emitted text is `query() \x7b … \x7d`. -/
theorem unnamed_operation_empty_parens_witness :
    ∃ f ∈ extract_fields singleVarFieldItems,
      "query() \x7b\n  user(id: $u)\x7d\n" =
        create_field_query f "Query" [] (find_variables_in_field f) ∧
      (find_variables_in_field f ≠ [] →
        "query()".data <+:
          ("query() \x7b\n  user(id: $u)\x7d\n").data) :=
  unnamed_operation_empty_parens singleVarFieldItems userRouteSchema none
    ⟨[("s1", "query() \x7b\n  user(id: $u)\x7d\n")],
     [("s1", Json.obj [])]⟩
    "s1" "query() \x7b\n  user(id: $u)\x7d\n" rfl
    (List.mem_cons_self _ _)


/-! ## Claim C8: registry cache coherence -/

theorem pushEntry_keys (m : List (String × List String)) (a v k : String)
    (h : k ∈ (pushEntry m a v).map Prod.fst) :
    k = a ∨ k ∈ m.map Prod.fst := by
  induction m with
  | nil =>
    rw [show pushEntry [] a v = [(a, [v])] from rfl, List.map_cons] at h
    rcases List.mem_cons.mp h with h | h
    · exact Or.inl h
    · simp at h
  | cons hd tl ih =>
    obtain ⟨k', vs⟩ := hd
    by_cases he : a = k'
    · subst he
      rw [show pushEntry ((a, vs) :: tl) a v = (a, vs ++ [v]) :: tl from by
          simp [pushEntry], List.map_cons] at h
      rcases List.mem_cons.mp h with h | h
      · exact Or.inl h
      · exact Or.inr (by rw [List.map_cons]; exact List.mem_cons_of_mem _ h)
    · rw [show pushEntry ((k', vs) :: tl) a v =
            (k', vs) :: pushEntry tl a v from by simp [pushEntry, he],
        List.map_cons] at h
      rcases List.mem_cons.mp h with h | h
      · exact Or.inr (by rw [List.map_cons, h]; exact List.mem_cons_self _ _)
      · rcases ih h with h1 | h1
        · exact Or.inl h1
        · exact Or.inr (by rw [List.map_cons]; exact List.mem_cons_of_mem _ h1)

theorem keys_foldl_pushEntry (l : List String) :
    ∀ (m : List (String × List String)) (v k : String),
      k ∈ ((l.foldl (fun acc k' => pushEntry acc k' v) m).map Prod.fst) →
      k ∈ m.map Prod.fst ∨ k ∈ l := by
  induction l with
  | nil => intro m v k h; exact Or.inl h
  | cons a rest ih =>
    intro m v k h
    rcases ih (pushEntry m a v) v k h with h1 | h1
    · rcases pushEntry_keys m a v k h1 with h2 | h2
      · exact Or.inr (by simp [h2])
      · exact Or.inl h2
    · exact Or.inr (by simp [h1])

theorem keys_addServiceEntries (defs : List TypeDef) :
    ∀ (m : List (String × List String)) (n k : String),
      k ∈ (addServiceEntries m n defs).map Prod.fst →
      k ∈ m.map Prod.fst ∨ k ∈ defs.flatMap typeDefEntries := by
  induction defs with
  | nil => intro m n k h; exact Or.inl h
  | cons td rest ih =>
    intro m n k h
    have h' : k ∈ (addServiceEntries
        ((typeDefEntries td).foldl (fun acc' k' => pushEntry acc' k' n) m)
        n rest).map Prod.fst := h
    rcases ih _ n k h' with h1 | h1
    · rcases keys_foldl_pushEntry (typeDefEntries td) m n k h1 with h2 | h2
      · exact Or.inl h2
      · exact Or.inr (List.mem_flatMap.mpr ⟨td, by simp, h2⟩)
    · rcases List.mem_flatMap.mp h1 with ⟨td', htd', hk⟩
      exact Or.inr (List.mem_flatMap.mpr ⟨td', by simp [htd'], hk⟩)

theorem buildTypeMap_keys (parse : String → Except String (List TypeDef)) :
    ∀ (services : List (String × ServiceConfig))
      (acc m : List (String × List String)),
      buildTypeMap parse services acc = .ok m →
      ∀ k ∈ m.map Prod.fst, k ∈ acc.map Prod.fst ∨
        ∃ p ∈ services, ∃ defs, parse p.2.schema = .ok defs ∧
          k ∈ defs.flatMap typeDefEntries := by
  intro services
  induction services with
  | nil =>
    intro acc m h k hk
    simp [buildTypeMap] at h
    subst h
    exact Or.inl hk
  | cons hd rest ih =>
    obtain ⟨n, cfg⟩ := hd
    intro acc m h k hk
    rcases hp : parse cfg.schema with e | defs
    · simp [buildTypeMap, hp] at h
    · simp only [buildTypeMap, hp] at h
      rcases ih _ _ h k hk with h1 | ⟨p, hp1, defs', hp2, hk2⟩
      · rcases keys_addServiceEntries defs acc n k h1 with h2 | h2
        · exact Or.inl h2
        · exact Or.inr ⟨(n, cfg), by simp, defs, hp, h2⟩
      · exact Or.inr ⟨p, by simp [hp1], defs', hp2, hk2⟩

theorem build_federated_schema_ok
    (parse : String → Except String (List TypeDef))
    (services : List (String × ServiceConfig)) (snap : FederatedSchema)
    (h : build_federated_schema parse services = .ok snap) :
    snap.services = services ∧
    buildTypeMap parse services [] = .ok snap.type_to_service_map := by
  rcases hb : buildTypeMap parse services [] with e | m
  · simp [build_federated_schema, hb] at h
  · simp [build_federated_schema, hb] at h
    rw [← h]
    exact ⟨rfl, rfl⟩

theorem get_schema_services (parse : String → Except String (List TypeDef))
    (st : RegistryState) : (get_schema parse st).2.services = st.services := by
  rcases hc : st.federated_schema with _ | s
  · rcases hb : build_federated_schema parse st.services with e | schema <;>
      simp [get_schema, hc, hb]
  · simp [get_schema, hc]

theorem runEvents_lookup (parse : String → Except String (List TypeDef))
    (evs : List RegistryEvent) :
    ∀ (st : RegistryState) (name : String) (cfg : ServiceConfig),
      st.services.lookup name = some cfg →
      (∀ c, RegistryEvent.reg c ∈ evs → c.name ≠ name) →
      (runEvents parse st evs).services.lookup name = some cfg := by
  induction evs with
  | nil => intro st name cfg h _; exact h
  | cons ev rest ih =>
    intro st name cfg h hno
    cases ev with
    | reg c =>
      have hc : c.name ≠ name := hno c (by simp)
      refine ih _ name cfg ?_ fun c' hc' => hno c' (by simp [hc'])
      show (insertAssoc st.services c.name c).lookup name = some cfg
      rw [lookup_insertAssoc_ne _ _ _ _ (Ne.symm hc)]
      exact h
    | get =>
      refine ih _ name cfg ?_ fun c' hc' => hno c' (by simp [hc'])
      rw [show (get_schema parse st).2.services = st.services from
        get_schema_services parse st]
      exact h

theorem runEvents_inv (parse : String → Except String (List TypeDef))
    (evs : List RegistryEvent) :
    ∀ (st : RegistryState),
      (∀ s, st.federated_schema = some s →
        build_federated_schema parse st.services = .ok s) →
      ∀ s, (runEvents parse st evs).federated_schema = some s →
        build_federated_schema parse (runEvents parse st evs).services =
          .ok s := by
  induction evs with
  | nil => intro st h; exact h
  | cons ev rest ih =>
    intro st h
    cases ev with
    | reg c =>
      exact ih _ fun s hs => by simp [register_service] at hs
    | get =>
      refine ih _ fun s hs => ?_
      rcases hc : st.federated_schema with _ | s0
      · rcases hb : build_federated_schema parse st.services with e | schema
        · simp [get_schema, hc, hb] at hs
        · simp [get_schema, hc, hb] at hs
          subst hs
          rw [get_schema_services]
          exact hb
      · simp [get_schema, hc] at hs
        subst hs
        rw [get_schema_services]
        exact h s0 hc

/-- **C8.**  In the sequential trace semantics: after
`register_service(S)`, as long as no later call re-registers a service
named `S.name`, every `get_schema()` that succeeds returns a snapshot
whose `services` map holds `S` under `S.name`, and every key of the
snapshot's `type_to_service_map` is contributed by the schema of some
service present in that snapshot — so no key contributed only by a
replaced prior entry survives (the cache is invalidated on registration
and the map is rebuilt from the current services). -/
theorem register_service_cache_coherence
    (parse : String → Except String (List TypeDef)) (st : RegistryState)
    (cfg : ServiceConfig) (evs : List RegistryEvent)
    (snap : FederatedSchema)
    (hnoreg : ∀ c, RegistryEvent.reg c ∈ evs → c.name ≠ cfg.name)
    (hget : (get_schema parse
        (runEvents parse (register_service st cfg) evs)).1 = .ok snap) :
    snap.services.lookup cfg.name = some cfg ∧
    ∀ k ∈ snap.type_to_service_map.map Prod.fst,
      ∃ p ∈ snap.services, ∃ defs, parse p.2.schema = .ok defs ∧
        k ∈ defs.flatMap typeDefEntries := by
  have hinv := runEvents_inv parse evs (register_service st cfg)
    (fun s hs => by simp [register_service] at hs)
  have hbuild : build_federated_schema parse
      (runEvents parse (register_service st cfg) evs).services =
      .ok snap := by
    rcases hc : (runEvents parse (register_service st cfg)
        evs).federated_schema with _ | s
    · rcases hb : build_federated_schema parse
          (runEvents parse (register_service st cfg) evs).services
          with e | schema
      · simp [get_schema, hc, hb] at hget
      · simp [get_schema, hc, hb] at hget
        rw [hget]
    · simp [get_schema, hc] at hget
      exact hget ▸ hinv s hc
  obtain ⟨hserv, hmap⟩ := build_federated_schema_ok parse _ snap hbuild
  constructor
  · rw [hserv]
    refine runEvents_lookup parse evs _ cfg.name cfg ?_ hnoreg
    show (insertAssoc st.services cfg.name cfg).lookup cfg.name = some cfg
    exact lookup_insertAssoc_self _ _ _
  · intro k hk
    rcases buildTypeMap_keys parse _ [] _ hmap k hk with h | ⟨p, hp, rest⟩
    · simp at h
    · exact ⟨p, by rw [hserv]; exact hp, rest⟩

/-- Witness for `register_service_cache_coherence`: register `users`
into the empty registry, then one `get_schema`; a second `get_schema`
serves the coherent snapshot from the cache. -/
theorem register_service_cache_coherence_witness :
    (⟨[("users", userCfg)], [("T", ["users"])]⟩ :
        FederatedSchema).services.lookup "users" = some userCfg ∧
    ∀ k ∈ ((⟨[("users", userCfg)], [("T", ["users"])]⟩ :
        FederatedSchema).type_to_service_map).map Prod.fst,
      ∃ p ∈ (⟨[("users", userCfg)], [("T", ["users"])]⟩ :
          FederatedSchema).services,
        ∃ defs, toyParse p.2.schema = .ok defs ∧
          k ∈ defs.flatMap typeDefEntries :=
  register_service_cache_coherence toyParse ⟨[], none⟩ userCfg
    [.get] ⟨[("users", userCfg)], [("T", ["users"])]⟩
    (by simp) rfl

/-! ### Round-trip infrastructure: character classes and scanning -/

/-- Characters with distinct code points are distinct. -/
theorem char_ne_of_toNat {a b : Char} (h : a.toNat ≠ b.toNat) : a ≠ b :=
  fun he => h (he ▸ rfl)

/-- The numeric reading of `isNameStart`. -/
theorem isNameStart_toNat {c : Char} (h : isNameStart c = true) :
    (65 ≤ c.toNat ∧ c.toNat ≤ 90) ∨ (97 ≤ c.toNat ∧ c.toNat ≤ 122) ∨
      c.toNat = 95 := by
  simpa [isNameStart, Bool.or_eq_true, Bool.and_eq_true, decide_eq_true_eq,
    beq_iff_eq, or_assoc] using h

/-- A name-start character is significant and is none of the structural
characters of the query language. -/
theorem nameStart_not_special {c : Char} (h : isNameStart c = true) :
    isWSCh c = false ∧ isDigitCh c = false ∧ c ≠ '$' ∧ c ≠ '"' ∧
      c ≠ '[' ∧ c ≠ ']' ∧ c ≠ '\x7b' ∧ c ≠ '\x7d' ∧ c ≠ '-' ∧ c ≠ '.' ∧
      c ≠ ':' ∧ c ≠ '(' ∧ c ≠ ')' ∧ c ≠ '=' := by
  have hn := isNameStart_toNat h
  refine ⟨?_, ?_, ?_, ?_, ?_, ?_, ?_, ?_, ?_, ?_, ?_, ?_, ?_, ?_⟩
  · rcases hw : isWSCh c with _ | _
    · rfl
    · exfalso
      simp only [isWSCh, Bool.or_eq_true, beq_iff_eq] at hw
      rcases hw with (((h1 | h1) | h1) | h1) | h1 <;> subst h1 <;>
        exact absurd h (by decide)
  · rcases hd : isDigitCh c with _ | _
    · rfl
    · exfalso
      simp only [isDigitCh, Bool.and_eq_true, decide_eq_true_eq] at hd
      omega
  all_goals intro he; subst he; exact absurd h (by decide)

/-- A digit is significant and is none of the structural characters. -/
theorem digit_not_special {c : Char} (h : isDigitCh c = true) :
    isWSCh c = false ∧ c ≠ '$' ∧ c ≠ '"' ∧ c ≠ '[' ∧ c ≠ ']' ∧
      c ≠ '\x7b' ∧ c ≠ '\x7d' ∧ c ≠ '-' ∧ c ≠ '.' ∧ c ≠ '=' ∧
      c ≠ '(' ∧ c ≠ ')' ∧ c ≠ ':' := by
  simp only [isDigitCh, Bool.and_eq_true, decide_eq_true_eq] at h
  refine ⟨?_, ?_, ?_, ?_, ?_, ?_, ?_, ?_, ?_, ?_, ?_, ?_, ?_⟩
  · rcases hw : isWSCh c with _ | _
    · rfl
    · exfalso
      simp only [isWSCh, Bool.or_eq_true, beq_iff_eq] at hw
      rcases hw with (((h1 | h1) | h1) | h1) | h1 <;> subst h1 <;>
        revert h <;> decide
  all_goals
    apply char_ne_of_toNat
    intro he
    rw [he] at h
    revert h
    decide

/-- A legitimate follower character continues neither a name nor a
number. -/
theorem follower_facts {c : Char} (h : followerCh c = true) :
    isNameChar c = false ∧ isDigitCh c = false ∧ numTail c = false := by
  simp only [followerCh, Bool.or_eq_true, beq_iff_eq] at h
  rcases h with ((((h1 | h1) | h1) | h1) | h1) | h1 <;> subst h1 <;> decide

theorem followerOK_headNotName {r : List Char} (h : followerOK r = true) :
    headNotName r = true := by
  cases r with
  | nil => rfl
  | cons c cs =>
    simp only [headNotName, Bool.not_eq_eq_eq_not, Bool.not_true]
    exact (follower_facts h).1

theorem followerOK_headNumStop {r : List Char} (h : followerOK r = true) :
    headNumStop r = true := by
  cases r with
  | nil => rfl
  | cons c cs =>
    have hf := follower_facts h
    simp only [headNumStop, Bool.and_eq_true, Bool.not_eq_eq_eq_not,
      Bool.not_true]
    exact ⟨hf.2.1, hf.2.2⟩

/-- Indentation consists of insignificant characters. -/
theorem allWS_replicate (n : Nat) : allWS (List.replicate n ' ') = true := by
  simp only [allWS, List.all_eq_true]
  intro c hc
  rw [(List.eq_of_mem_replicate hc : c = ' ')]
  rfl

theorem allWS_nil : allWS [] = true := rfl

/-! skipWS -/

theorem skipWS_cons {c : Char} (h : isWSCh c = false) (r : List Char) :
    skipWS (c :: r) = c :: r := by
  simp [skipWS, h]

theorem skipWS_append {ws : List Char} (h : allWS ws = true)
    (r : List Char) : skipWS (ws ++ r) = skipWS r := by
  induction ws with
  | nil => rfl
  | cons c cs ih =>
    simp only [allWS, List.all_cons, Bool.and_eq_true] at h
    simpa [skipWS, h.1] using ih h.2

theorem skipWS_idem (s : List Char) : skipWS (skipWS s) = skipWS s := by
  induction s with
  | nil => rfl
  | cons c cs ih =>
    rcases hw : isWSCh c with _ | _
    · simp [skipWS, hw]
    · simp [skipWS, hw, ih]

/-! The scanners on a classified prefix -/

theorem takeName_append {cs : List Char}
    (h : ∀ c ∈ cs, isNameChar c = true) {r : List Char}
    (hr : headNotName r = true) : takeName (cs ++ r) = (cs, r) := by
  induction cs with
  | nil =>
    cases r with
    | nil => rfl
    | cons c cs' =>
      simp only [headNotName, Bool.not_eq_eq_eq_not, Bool.not_true] at hr
      simp [takeName, hr]
  | cons c cs' ih =>
    have hc := h c (List.mem_cons_self c cs')
    simp [takeName, hc, ih (fun x hx => h x (List.mem_cons_of_mem c hx))]

theorem takeDigits_append {cs : List Char}
    (h : ∀ c ∈ cs, isDigitCh c = true) {r : List Char}
    (hr : headNumStop r = true) : takeDigits (cs ++ r) = (cs, r) := by
  induction cs with
  | nil =>
    cases r with
    | nil => rfl
    | cons c cs' =>
      simp only [headNumStop, Bool.and_eq_true, Bool.not_eq_eq_eq_not,
        Bool.not_true] at hr
      simp [takeDigits, hr.1]
  | cons c cs' ih =>
    have hc := h c (List.mem_cons_self c cs')
    simp [takeDigits, hc, ih (fun x hx => h x (List.mem_cons_of_mem c hx))]

theorem takeTypeChars_append {cs : List Char}
    (h : ∀ c ∈ cs, isTypeCh c = true) {r : List Char}
    (hr : headNotType r = true) : takeTypeChars (cs ++ r) = (cs, r) := by
  induction cs with
  | nil =>
    cases r with
    | nil => rfl
    | cons c cs' =>
      simp only [headNotType, Bool.not_eq_eq_eq_not, Bool.not_true] at hr
      simp [takeTypeChars, hr]
  | cons c cs' ih =>
    have hc := h c (List.mem_cons_self c cs')
    simp [takeTypeChars, hc,
      ih (fun x hx => h x (List.mem_cons_of_mem c hx))]

/-- The shape of a valid name. -/
theorem isValidName_data {n : String} (h : isValidName n = true) :
    ∃ c cs, n.data = c :: cs ∧ isNameStart c = true ∧
      (∀ x ∈ cs, isNameChar x = true) := by
  unfold isValidName at h
  rcases hd : n.data with _ | ⟨c, cs⟩
  · rw [hd] at h; exact absurd h (by decide)
  · rw [hd] at h
    simp only [Bool.and_eq_true, List.all_eq_true] at h
    exact ⟨c, cs, rfl, h.1, h.2⟩

/-- Parsing a printed valid name consumes exactly the name. -/
theorem parseRawName_append {n : String} (h : isValidName n = true)
    {r : List Char} (hr : headNotName r = true) :
    parseRawName (n.data ++ r) = .ok (n, r) := by
  obtain ⟨c, cs, hd, hstart, hall⟩ := isValidName_data h
  rw [hd]
  simp only [List.cons_append, parseRawName, hstart, if_pos]
  rw [takeName_append hall hr]
  have : (⟨c :: cs⟩ : String) = n := by rw [← hd]
  simp [this]

/-! ### Integers: decimal printing round-trips through the scanner -/

theorem digitChar_facts (d : Nat) (h : d < 10) :
    isDigitCh (Char.ofNat (48 + d)) = true ∧
      (Char.ofNat (48 + d)).toNat = 48 + d := by
  interval_cases d <;> exact ⟨by decide, by decide⟩

theorem natFromDigits_append (l : List Char) (c : Char) :
    natFromDigits (l ++ [c]) = natFromDigits l * 10 + (c.toNat - 48) := by
  simp [natFromDigits, List.foldl_append]

theorem natToChars_spec : ∀ fuel n, n < fuel →
    natToChars fuel n ≠ [] ∧
      (∀ c ∈ natToChars fuel n, isDigitCh c = true) ∧
      natFromDigits (natToChars fuel n) = n := by
  intro fuel
  induction fuel with
  | zero => intro n h; omega
  | succ fuel ih =>
    intro n h
    by_cases h10 : n < 10
    · simp only [natToChars, if_pos h10]
      have hd := digitChar_facts n h10
      refine ⟨by simp, ?_, ?_⟩
      · intro c hc
        simp only [List.mem_singleton] at hc
        rw [hc]; exact hd.1
      · show natFromDigits [Char.ofNat (48 + n)] = n
        simp only [natFromDigits, List.foldl_cons, List.foldl_nil]
        rw [hd.2]; omega
    · simp only [natToChars, if_neg h10]
      have hdiv : n / 10 < fuel := by
        have h1 : n / 10 < n := Nat.div_lt_self (by omega) (by decide)
        omega
      obtain ⟨hne, hall, hval⟩ := ih (n / 10) hdiv
      have hd := digitChar_facts (n % 10) (Nat.mod_lt n (by decide))
      refine ⟨by simp [hne], ?_, ?_⟩
      · intro c hc
        rcases List.mem_append.mp hc with hc | hc
        · exact hall c hc
        · simp only [List.mem_singleton] at hc
          rw [hc]; exact hd.1
      · rw [natFromDigits_append, hval, hd.2]
        omega

theorem parseNumber_int (i : Int) {r : List Char}
    (hr : headNumStop r = true) :
    parseNumber ((intToString i).data ++ r) = .ok (.int i, r) := by
  cases i with
  | ofNat n =>
    obtain ⟨hne, hall, hval⟩ := natToChars_spec (n + 1) n (by omega)
    show parseNumber (natToChars (n + 1) n ++ r) = _
    rcases hd : natToChars (n + 1) n with _ | ⟨c, cs⟩
    · exact absurd hd hne
    rw [hd] at hall hval
    have hc := hall c (List.mem_cons_self c cs)
    obtain ⟨hws, hdol, hq, hlb, hrb, hlc, hrc, hminus, hdot⟩ :=
      digit_not_special hc
    simp only [List.cons_append, parseNumber, if_neg hminus, if_pos hc]
    rw [show c :: (cs ++ r) = (c :: cs) ++ r from rfl,
      takeDigits_append hall hr]
    cases r with
    | nil => simp [hval]
    | cons c' r' =>
      simp only [headNumStop, Bool.and_eq_true, Bool.not_eq_eq_eq_not,
        Bool.not_true] at hr
      simp [hr.2, hval]
  | negSucc m =>
    obtain ⟨hne, hall, hval⟩ := natToChars_spec (m + 2) (m + 1) (by omega)
    show parseNumber (("-" ++ (⟨natToChars (m + 2) (m + 1)⟩ : String)).data
      ++ r) = _
    rw [String.data_append]
    rcases hd : natToChars (m + 2) (m + 1) with _ | ⟨c, cs⟩
    · exact absurd hd hne
    rw [hd] at hall hval
    have hc := hall c (List.mem_cons_self c cs)
    show parseNumber ('-' :: ((c :: cs) ++ r)) = _
    simp only [List.cons_append, parseNumber, if_pos rfl, if_pos hc]
    rw [show c :: (cs ++ r) = (c :: cs) ++ r from rfl,
      takeDigits_append hall hr]
    have hneg : -((natFromDigits (c :: cs) : Nat) : Int) = Int.negSucc m := by
      rw [hval, Int.negSucc_eq]
      push_cast
      ring
    cases r with
    | nil => simp [hneg]
    | cons c' r' =>
      simp only [headNumStop, Bool.and_eq_true, Bool.not_eq_eq_eq_not,
        Bool.not_true] at hr
      simp [hr.2, hneg]

/-! ### Strings: quote-escaping round-trips -/

/-- Unfolding of `parseStringBody` on a cons cell. -/
theorem parseStringBody_cons (c : Char) (rest : List Char) :
    parseStringBody (c :: rest) =
      if c = '"' then .ok ([], rest)
      else if c = '\x5c' then
        match rest with
        | [] => .error ()
        | c2 :: rest2 =>
          if c2 = '"' ∨ c2 = '\x5c' then
            match parseStringBody rest2 with
            | .ok (cs, r) => .ok (c2 :: cs, r)
            | .error e => .error e
          else .error ()
      else
        match parseStringBody rest with
        | .ok (cs, r) => .ok (c :: cs, r)
        | .error e => .error e := by
  rw [parseStringBody.eq_def]

theorem parseStringBody_rt (l : List Char) {r : List Char}
    (h : ∀ c ∈ l, c ≠ '\x5c') :
    parseStringBody
      ((l.flatMap fun c => if c = '"' then ['\x5c', c] else [c]) ++
        '"' :: r) = .ok (l, r) := by
  induction l with
  | nil =>
    rw [List.flatMap_nil, List.nil_append, parseStringBody_cons]
    simp
  | cons c l' ih =>
    have hrec := ih (fun x hx => h x (List.mem_cons_of_mem _ hx))
    by_cases hq : c = '"'
    · subst hq
      have hsh : (('"' :: l').flatMap fun c =>
          if c = '"' then ['\x5c', c] else [c]) ++ '"' :: r =
          '\x5c' :: '"' ::
            ((l'.flatMap fun c => if c = '"' then ['\x5c', c] else [c]) ++
              '"' :: r) := by
        simp
      rw [hsh, parseStringBody_cons]
      rw [if_neg (by decide : ¬('\x5c' = '"')), if_pos rfl]
      simp [hrec]
    · have hbs := h c (List.mem_cons_self c l')
      have hsh : ((c :: l').flatMap fun x =>
          if x = '"' then ['\x5c', x] else [x]) ++ '"' :: r =
          c :: ((l'.flatMap fun x => if x = '"' then ['\x5c', x] else [x]) ++
            '"' :: r) := by
        simp [hq]
      rw [hsh, parseStringBody_cons, if_neg hq, if_neg hbs, hrec]

/-! ### The first character of a printed value -/

theorem append_value_head (v : GqlValue) (h : wfValue v = true) :
    ∃ c cs, (append_value v).data = c :: cs ∧ isWSCh c = false ∧
      c ≠ ']' ∧ c ≠ '\x7d' := by
  cases v with
  | var n =>
    refine ⟨'$', n.data, ?_, by decide, by decide, by decide⟩
    simp [append_value, String.data_append]
  | str s =>
    refine ⟨'"', (escapeQuotes s).data ++ ['"'], ?_, by decide, by decide,
      by decide⟩
    simp [append_value, String.data_append]
  | int i =>
    cases i with
    | ofNat n =>
      obtain ⟨hne, hall, _⟩ := natToChars_spec (n + 1) n (by omega)
      rcases hd : natToChars (n + 1) n with _ | ⟨c, cs⟩
      · exact absurd hd hne
      have hc := hall c (hd ▸ List.mem_cons_self c cs)
      obtain ⟨hws, _, _, _, hrb, _, hrc, _, _⟩ := digit_not_special hc
      exact ⟨c, cs, hd, hws, hrb, hrc⟩
    | negSucc m =>
      refine ⟨'-', (⟨natToChars (m + 2) (m + 1)⟩ : String).data, ?_,
        by decide, by decide, by decide⟩
      show ("-" ++ (⟨natToChars (m + 2) (m + 1)⟩ : String)).data = _
      rw [String.data_append]
      rfl
  | float repr =>
    exact absurd h (by simp [wfValue])
  | boolean b =>
    cases b with
    | false =>
      exact ⟨'f', "alse".data, rfl, by decide, by decide, by decide⟩
    | true =>
      exact ⟨'t', "rue".data, rfl, by decide, by decide, by decide⟩
  | null => exact ⟨'n', "ull".data, rfl, by decide, by decide, by decide⟩
  | enum n =>
    simp only [wfValue, Bool.and_eq_true] at h
    obtain ⟨c, cs, hd, hstart, _⟩ := isValidName_data h.1.1.1
    obtain ⟨hws, h2, h3, h4, h5, hrb, h7, hrc, h9⟩ :=
      nameStart_not_special hstart
    exact ⟨c, cs, hd, hws, hrb, hrc⟩
  | list items =>
    refine ⟨'[', (appendValueListSep items).data ++ [']'], ?_, by decide,
      by decide, by decide⟩
    simp [append_value, String.data_append]
  | obj fields =>
    refine ⟨'\x7b', (appendValueObjSep fields).data ++ ['\x7d'], ?_,
      by decide, by decide, by decide⟩
    simp [append_value, String.data_append]

/-! ### Unfolding lemmas for the fueled parsers -/

theorem parseValue_ws (fuel : Nat) {ws : List Char} (h : allWS ws = true)
    (s : List Char) : parseValue fuel (ws ++ s) = parseValue fuel s := by
  cases fuel with
  | zero => rfl
  | succ n =>
    simp only [parseValue]
    rw [skipWS_append h]

theorem parseValueList_ws (fuel : Nat) {ws : List Char}
    (h : allWS ws = true) (s : List Char) :
    parseValueList fuel (ws ++ s) = parseValueList fuel s := by
  cases fuel with
  | zero => rfl
  | succ n =>
    simp only [parseValueList]
    rw [skipWS_append h]

theorem parseObjFields_ws (fuel : Nat) {ws : List Char}
    (h : allWS ws = true) (s : List Char) :
    parseObjFields fuel (ws ++ s) = parseObjFields fuel s := by
  cases fuel with
  | zero => rfl
  | succ n =>
    simp only [parseObjFields]
    rw [skipWS_append h]

theorem parseValue_cons (fuel : Nat) {c : Char} (h : isWSCh c = false)
    (rest : List Char) :
    parseValue (fuel + 1) (c :: rest) =
      (if c = '$' then
        match parseRawName rest with
        | .ok (n, r) => .ok (.var n, r)
        | .error e => .error e
      else if c = '"' then
        match parseStringBody rest with
        | .ok (cs, r) => .ok (.str ⟨cs⟩, r)
        | .error e => .error e
      else if c = '[' then
        match parseValueList fuel rest with
        | .ok (vs, r) => .ok (.list vs, r)
        | .error e => .error e
      else if c = '\x7b' then
        match parseObjFields fuel rest with
        | .ok (fs, r) => .ok (.obj fs, r)
        | .error e => .error e
      else if c = '-' || isDigitCh c then parseNumber (c :: rest)
      else
        match parseRawName (c :: rest) with
        | .ok (n, r) =>
          if n = "true" then .ok (.boolean true, r)
          else if n = "false" then .ok (.boolean false, r)
          else if n = "null" then .ok (.null, r)
          else .ok (.enum n, r)
        | .error e => .error e) := by
  simp only [parseValue]
  rw [skipWS_cons h]

theorem parseValueList_cons (fuel : Nat) {c : Char} (h : isWSCh c = false)
    (rest : List Char) :
    parseValueList (fuel + 1) (c :: rest) =
      (if c = ']' then .ok ([], rest)
      else
        match parseValue fuel (c :: rest) with
        | .error e => .error e
        | .ok (v, r) =>
          match parseValueList fuel r with
          | .error e => .error e
          | .ok (vs, r') => .ok (v :: vs, r')) := by
  simp only [parseValueList]
  rw [skipWS_cons h]

theorem parseObjFields_cons (fuel : Nat) {c : Char} (h : isWSCh c = false)
    (rest : List Char) :
    parseObjFields (fuel + 1) (c :: rest) =
      (if c = '\x7d' then .ok ([], rest)
      else
        match parseRawName (c :: rest) with
        | .error e => .error e
        | .ok (k, r) =>
          match skipWS r with
          | ':' :: r2 =>
            match parseValue fuel r2 with
            | .error e => .error e
            | .ok (v, r3) =>
              match parseObjFields fuel r3 with
              | .error e => .error e
              | .ok (fs, r4) => .ok ((k, v) :: fs, r4)
          | _ => .error ()) := by
  simp only [parseObjFields]
  rw [skipWS_cons h]

/-! ### The value round trip -/

/-- Printing then parsing a well-formed value (list of values, object of
values) is the identity, for any insignificant prefix, any legitimate
follower and enough fuel. -/
theorem parse_value_rt : ∀ fuel,
    (∀ v ws r, wfValue v = true → allWS ws = true → followerOK r = true →
      (append_value v).data.length < fuel →
      parseValue fuel (ws ++ (append_value v).data ++ r) = .ok (v, r)) ∧
    (∀ l ws r, wfValueList l = true → allWS ws = true →
      (appendValueListSep l).data.length + 2 ≤ fuel →
      parseValueList fuel (ws ++ (appendValueListSep l).data ++ ']' :: r) =
        .ok (l, r)) ∧
    (∀ l ws r, wfValueObj l = true → allWS ws = true →
      (appendValueObjSep l).data.length + 2 ≤ fuel →
      parseObjFields fuel
        (ws ++ (appendValueObjSep l).data ++ '\x7d' :: r) = .ok (l, r)) := by
  intro fuel
  induction fuel with
  | zero =>
    exact ⟨fun v ws r _ _ _ h => absurd h (by omega),
      fun l ws r _ _ h => absurd h (by omega),
      fun l ws r _ _ h => absurd h (by omega)⟩
  | succ fuel ih =>
    obtain ⟨ihv, ihl, iho⟩ := ih
    refine ⟨?_, ?_, ?_⟩
    · intro v ws r hwf hws hfol hlen
      cases v with
      | var n =>
        have hwfn : isValidName n = true := by simpa [wfValue] using hwf
        have hsh : ws ++ (append_value (GqlValue.var n)).data ++ r =
            ws ++ '$' :: (n.data ++ r) := by
          simp [append_value, String.data_append]
        rw [hsh, parseValue_ws _ hws, parseValue_cons fuel (by decide),
          if_pos rfl,
          parseRawName_append hwfn (followerOK_headNotName hfol)]
      | str st =>
        have hcont : st.data.contains '\x5c' = false := by
          simpa [wfValue] using hwf
        have hnb : ∀ x ∈ st.data, x ≠ '\x5c' := by
          intro x hx he
          subst he
          have hcont2 : st.data.contains '\x5c' = true :=
            List.elem_eq_true_of_mem hx
          exact Bool.false_ne_true (hcont.symm.trans hcont2)
        have hsh : ws ++ (append_value (GqlValue.str st)).data ++ r =
            ws ++ '"' ::
              ((st.data.flatMap fun c =>
                if c = '"' then ['\x5c', c] else [c]) ++ '"' :: r) := by
          simp [append_value, escapeQuotes, String.data_append]
        rw [hsh, parseValue_ws _ hws, parseValue_cons fuel (by decide),
          if_neg (by decide), if_pos rfl, parseStringBody_rt st.data hnb]
      | int i =>
        cases i with
        | ofNat n =>
          obtain ⟨hne, hall, hval⟩ := natToChars_spec (n + 1) n (by omega)
          rcases hd : natToChars (n + 1) n with _ | ⟨c, cs⟩
          · exact absurd hd hne
          have hc := hall c (hd ▸ List.mem_cons_self c cs)
          obtain ⟨hws2, hdol, hq, hlb, hrb, hlc, hrc, hminus, hdot⟩ :=
            digit_not_special hc
          have hsh : ws ++ (append_value (GqlValue.int (Int.ofNat n))).data
              ++ r = ws ++ c :: (cs ++ r) := by
            simp [append_value, intToString, hd]
          rw [hsh, parseValue_ws _ hws, parseValue_cons fuel hws2,
            if_neg hdol, if_neg hq, if_neg hlb, if_neg hlc,
            if_pos (by simp [hc]),
            show c :: (cs ++ r) = (intToString (Int.ofNat n)).data ++ r
              from by simp [intToString, hd],
            parseNumber_int _ (followerOK_headNumStop hfol)]
        | negSucc m =>
          have hsh : ws ++
              (append_value (GqlValue.int (Int.negSucc m))).data ++ r =
              ws ++ '-' ::
                ((⟨natToChars (m + 2) (m + 1)⟩ : String).data ++ r) := by
            simp [append_value, intToString, String.data_append]
          rw [hsh, parseValue_ws _ hws, parseValue_cons fuel (by decide),
            if_neg (by decide), if_neg (by decide), if_neg (by decide),
            if_neg (by decide), if_pos (by decide),
            show '-' :: ((⟨natToChars (m + 2) (m + 1)⟩ : String).data ++ r)
              = (intToString (Int.negSucc m)).data ++ r
              from by simp [intToString, String.data_append],
            parseNumber_int _ (followerOK_headNumStop hfol)]
      | float repr => exact absurd hwf (by simp [wfValue])
      | boolean b =>
        cases b with
        | true =>
          have hsh : ws ++ (append_value (GqlValue.boolean true)).data ++ r
              = ws ++ 't' :: ("rue".data ++ r) := by
            rw [List.append_assoc]
            rfl
          rw [hsh, parseValue_ws _ hws, parseValue_cons fuel (by decide),
            if_neg (by decide), if_neg (by decide), if_neg (by decide),
            if_neg (by decide), if_neg (by decide),
            show 't' :: ("rue".data ++ r) = "true".data ++ r from rfl,
            parseRawName_append (by decide) (followerOK_headNotName hfol)]
          simp
        | false =>
          have hsh : ws ++ (append_value (GqlValue.boolean false)).data ++ r
              = ws ++ 'f' :: ("alse".data ++ r) := by
            rw [List.append_assoc]
            rfl
          rw [hsh, parseValue_ws _ hws, parseValue_cons fuel (by decide),
            if_neg (by decide), if_neg (by decide), if_neg (by decide),
            if_neg (by decide), if_neg (by decide),
            show 'f' :: ("alse".data ++ r) = "false".data ++ r from rfl,
            parseRawName_append (by decide) (followerOK_headNotName hfol)]
          simp
      | null =>
        have hsh : ws ++ (append_value GqlValue.null).data ++ r
            = ws ++ 'n' :: ("ull".data ++ r) := by
          rw [List.append_assoc]
          rfl
        rw [hsh, parseValue_ws _ hws, parseValue_cons fuel (by decide),
          if_neg (by decide), if_neg (by decide), if_neg (by decide),
          if_neg (by decide), if_neg (by decide),
          show 'n' :: ("ull".data ++ r) = "null".data ++ r from rfl,
          parseRawName_append (by decide) (followerOK_headNotName hfol)]
        simp
      | enum n =>
        have hw : isValidName n = true ∧ n ≠ "true" ∧ n ≠ "false" ∧
            n ≠ "null" := by
          simpa [wfValue, Bool.and_eq_true, bne_iff_ne, and_assoc] using hwf
        obtain ⟨hn1, hne1, hne2, hne3⟩ := hw
        obtain ⟨c, cs, hd, hstart, hall⟩ := isValidName_data hn1
        obtain ⟨hws2, hdig, hdol, hq, hlb, hrb, hlc, hrc, hminus, hdot,
          hcol, hlp, hrp, heq⟩ := nameStart_not_special hstart
        have hsh : ws ++ (append_value (GqlValue.enum n)).data ++ r =
            ws ++ c :: (cs ++ r) := by
          simp [append_value, hd]
        rw [hsh, parseValue_ws _ hws, parseValue_cons fuel hws2,
          if_neg hdol, if_neg hq, if_neg hlb, if_neg hlc,
          if_neg (by simp [hminus, hdig]),
          show c :: (cs ++ r) = n.data ++ r from by
            rw [hd, List.cons_append],
          parseRawName_append hn1 (followerOK_headNotName hfol)]
        simp [hne1, hne2, hne3]
      | list items =>
        have hwfl : wfValueList items = true := by simpa [wfValue] using hwf
        have hsh : ws ++ (append_value (GqlValue.list items)).data ++ r =
            ws ++ '[' :: ((appendValueListSep items).data ++ ']' :: r) := by
          simp [append_value, String.data_append]
        have hlen2 : (appendValueListSep items).data.length + 2 ≤ fuel := by
          have he : (append_value (GqlValue.list items)).data.length =
              (appendValueListSep items).data.length + 2 := by
            simp [append_value, String.data_append]
          omega
        have hrec := ihl items [] r hwfl allWS_nil hlen2
        rw [List.nil_append] at hrec
        rw [hsh, parseValue_ws _ hws, parseValue_cons fuel (by decide),
          if_neg (by decide), if_neg (by decide), if_pos rfl, hrec]
      | obj fields =>
        have hwfo : wfValueObj fields = true := by simpa [wfValue] using hwf
        have hsh : ws ++ (append_value (GqlValue.obj fields)).data ++ r =
            ws ++ '\x7b' ::
              ((appendValueObjSep fields).data ++ '\x7d' :: r) := by
          simp [append_value, String.data_append]
        have hlen2 : (appendValueObjSep fields).data.length + 2 ≤ fuel := by
          have he : (append_value (GqlValue.obj fields)).data.length =
              (appendValueObjSep fields).data.length + 2 := by
            simp [append_value, String.data_append]
          omega
        have hrec := iho fields [] r hwfo allWS_nil hlen2
        rw [List.nil_append] at hrec
        rw [hsh, parseValue_ws _ hws, parseValue_cons fuel (by decide),
          if_neg (by decide), if_neg (by decide), if_neg (by decide),
          if_pos rfl, hrec]
    · intro l ws r hwfl hws hlen
      cases l with
      | nil =>
        have hsh : ws ++ (appendValueListSep []).data ++ ']' :: r =
            ws ++ ']' :: r := by
          simp [appendValueListSep]
        rw [hsh, parseValueList_ws _ hws, parseValueList_cons fuel
          (by decide), if_pos rfl]
      | cons v vs =>
        simp only [wfValueList, Bool.and_eq_true] at hwfl
        obtain ⟨c, cs, hd, hcws, hcrb, hcrc⟩ := append_value_head v hwfl.1
        have hpv1 : 1 ≤ (append_value v).data.length := by
          rw [hd]; simp
        cases vs with
        | nil =>
          have hlv : (appendValueListSep [v]).data.length =
              (append_value v).data.length := by
            simp [appendValueListSep]
          have hval := ihv v [] (']' :: r) hwfl.1 allWS_nil rfl
            (by omega)
          rw [List.nil_append] at hval
          have h0 : (appendValueListSep []).data.length = 0 := rfl
          have hnil := ihl [] [] r rfl allWS_nil (by omega)
          simp only [appendValueListSep, List.nil_append] at hnil
          have hsh : ws ++ (appendValueListSep [v]).data ++ ']' :: r =
              ws ++ c :: (cs ++ ']' :: r) := by
            simp [appendValueListSep, hd]
          rw [hsh, parseValueList_ws _ hws, parseValueList_cons fuel hcws,
            if_neg hcrb,
            show c :: (cs ++ ']' :: r) = (append_value v).data ++ ']' :: r
              from by rw [hd, List.cons_append],
            hval]
          simp [hnil]
        | cons v2 vs' =>
          have hlsep : (appendValueListSep (v :: v2 :: vs')).data.length =
              (append_value v).data.length + 2 +
                (appendValueListSep (v2 :: vs')).data.length := by
            simp [appendValueListSep, String.data_append]
            omega
          have hval := ihv v []
            (',' :: ' ' :: ((appendValueListSep (v2 :: vs')).data ++
              ']' :: r)) hwfl.1 allWS_nil rfl (by omega)
          rw [List.nil_append] at hval
          have hrest := ihl (v2 :: vs') [',', ' '] r hwfl.2
            (by decide) (by omega)
          have hsh : ws ++ (appendValueListSep (v :: v2 :: vs')).data ++
              ']' :: r = ws ++ c ::
                (cs ++ (',' :: ' ' ::
                  ((appendValueListSep (v2 :: vs')).data ++ ']' :: r))) := by
            simp [appendValueListSep, hd, String.data_append]
          rw [hsh, parseValueList_ws _ hws, parseValueList_cons fuel hcws,
            if_neg hcrb,
            show c :: (cs ++ (',' :: ' ' ::
                ((appendValueListSep (v2 :: vs')).data ++ ']' :: r))) =
              (append_value v).data ++ (',' :: ' ' ::
                ((appendValueListSep (v2 :: vs')).data ++ ']' :: r))
              from by rw [hd, List.cons_append],
            hval]
          have hrest2 : parseValueList fuel
              (',' :: ' ' :: ((appendValueListSep (v2 :: vs')).data ++
                ']' :: r)) = .ok (v2 :: vs', r) := hrest
          simp [hrest2]
    · intro l ws r hwfo hws hlen
      cases l with
      | nil =>
        have hsh : ws ++ (appendValueObjSep []).data ++ '\x7d' :: r =
            ws ++ '\x7d' :: r := by
          simp [appendValueObjSep]
        rw [hsh, parseObjFields_ws _ hws, parseObjFields_cons fuel
          (by decide), if_pos rfl]
      | cons kv rest =>
        obtain ⟨k, v⟩ := kv
        simp only [wfValueObj, Bool.and_eq_true] at hwfo
        obtain ⟨⟨hk, hv⟩, hrest⟩ := hwfo
        obtain ⟨ck, kcs, hkd, hkstart, hkall⟩ := isValidName_data hk
        obtain ⟨hws2, hdig, hdol, hq, hlb, hrb, hlc, hrc, hminus, hdot,
          hcol, hlp, hrp, heq⟩ := nameStart_not_special hkstart
        obtain ⟨cv, vcs, hvd, hvws, hvrb, hvrc⟩ := append_value_head v hv
        have hk1 : 1 ≤ k.data.length := by rw [hkd]; simp
        have hpv1 : 1 ≤ (append_value v).data.length := by rw [hvd]; simp
        cases rest with
        | nil =>
          have hlo : (appendValueObjSep [(k, v)]).data.length =
              k.data.length + 2 + (append_value v).data.length := by
            simp [appendValueObjSep, String.data_append]
            omega
          have hval := ihv v [' '] ('\x7d' :: r) hv (by decide) rfl
            (by omega)
          have h0 : (appendValueObjSep []).data.length = 0 := rfl
          have hnil := iho [] [] r rfl allWS_nil (by omega)
          simp only [appendValueObjSep, List.nil_append] at hnil
          have hsh : ws ++ (appendValueObjSep [(k, v)]).data ++
              '\x7d' :: r = ws ++ ck ::
                (kcs ++ (':' :: ' ' ::
                  ((append_value v).data ++ '\x7d' :: r))) := by
            simp [appendValueObjSep, hkd, String.data_append]
          have hval2 : parseValue fuel
              (' ' :: ((append_value v).data ++ '\x7d' :: r)) =
              .ok (v, '\x7d' :: r) := hval
          rw [hsh, parseObjFields_ws _ hws, parseObjFields_cons fuel hws2,
            if_neg hrc,
            show ck :: (kcs ++ (':' :: ' ' ::
                ((append_value v).data ++ '\x7d' :: r))) =
              k.data ++ (':' :: ' ' ::
                ((append_value v).data ++ '\x7d' :: r)) from by
                rw [hkd, List.cons_append],
            parseRawName_append hk (by rfl)]
          simp only [skipWS_cons (show isWSCh ':' = false from by decide),
            hval2, hnil]
        | cons kv2 rest' =>
          have hlo : (appendValueObjSep ((k, v) :: kv2 :: rest')).data.length
              = k.data.length + 2 + (append_value v).data.length + 2 +
                (appendValueObjSep (kv2 :: rest')).data.length := by
            simp [appendValueObjSep, String.data_append]
            omega
          have hval := ihv v [' ']
            (',' :: ' ' :: ((appendValueObjSep (kv2 :: rest')).data ++
              '\x7d' :: r)) hv (by decide) rfl (by omega)
          have hrest2 := iho (kv2 :: rest') [',', ' '] r hrest
            (by decide) (by omega)
          have hsh : ws ++
              (appendValueObjSep ((k, v) :: kv2 :: rest')).data ++
              '\x7d' :: r = ws ++ ck ::
                (kcs ++ (':' :: ' ' ::
                  ((append_value v).data ++ (',' :: ' ' ::
                    ((appendValueObjSep (kv2 :: rest')).data ++
                      '\x7d' :: r))))) := by
            simp [appendValueObjSep, hkd, String.data_append]
          have hval2 : parseValue fuel
              (' ' :: ((append_value v).data ++ (',' :: ' ' ::
                ((appendValueObjSep (kv2 :: rest')).data ++
                  '\x7d' :: r)))) =
              .ok (v, ',' :: ' ' ::
                ((appendValueObjSep (kv2 :: rest')).data ++ '\x7d' :: r))
              := hval
          have hrest3 : parseObjFields fuel
              (',' :: ' ' :: ((appendValueObjSep (kv2 :: rest')).data ++
                '\x7d' :: r)) = .ok (kv2 :: rest', r) := hrest2
          rw [hsh, parseObjFields_ws _ hws, parseObjFields_cons fuel hws2,
            if_neg hrc,
            show ck :: (kcs ++ (':' :: ' ' ::
                ((append_value v).data ++ (',' :: ' ' ::
                  ((appendValueObjSep (kv2 :: rest')).data ++
                    '\x7d' :: r))))) =
              k.data ++ (':' :: ' ' ::
                ((append_value v).data ++ (',' :: ' ' ::
                  ((appendValueObjSep (kv2 :: rest')).data ++
                    '\x7d' :: r)))) from by
                rw [hkd, List.cons_append],
            parseRawName_append hk (by rfl)]
          simp only [skipWS_cons (show isWSCh ':' = false from by decide),
            hval2, hrest3]

/-! ### The argument-list round trip -/

theorem parseArgList_ws (fuel : Nat) {ws : List Char}
    (h : allWS ws = true) (s : List Char) :
    parseArgList fuel (ws ++ s) = parseArgList fuel s := by
  cases fuel with
  | zero => rfl
  | succ n =>
    simp only [parseArgList]
    rw [skipWS_append h]

theorem parseArgList_cons (fuel : Nat) {c : Char} (h : isWSCh c = false)
    (rest : List Char) :
    parseArgList (fuel + 1) (c :: rest) =
      (if c = ')' then .ok ([], rest)
      else
        match parseRawName (c :: rest) with
        | .error e => .error e
        | .ok (n, r) =>
          match skipWS r with
          | ':' :: r2 =>
            match parseValue fuel r2 with
            | .error e => .error e
            | .ok (v, r3) =>
              match parseArgList fuel r3 with
              | .error e => .error e
              | .ok (args, r4) => .ok ((n, v) :: args, r4)
          | _ => .error ()) := by
  simp only [parseArgList]
  rw [skipWS_cons h]

/-- Printing then parsing a well-formed argument list is the identity. -/
theorem parseArgList_rt : ∀ fuel args ws r, wfValueObj args = true →
    allWS ws = true → (argsJoin args).data.length + 2 ≤ fuel →
    parseArgList fuel (ws ++ (argsJoin args).data ++ ')' :: r) =
      .ok (args, r) := by
  intro fuel
  induction fuel with
  | zero => intro args ws r _ _ h; omega
  | succ fuel ih =>
    intro args ws r hwfo hws hlen
    cases args with
    | nil =>
      have hsh : ws ++ (argsJoin []).data ++ ')' :: r = ws ++ ')' :: r := by
        simp [argsJoin]
      rw [hsh, parseArgList_ws _ hws, parseArgList_cons fuel (by decide),
        if_pos rfl]
    | cons kv rest =>
      obtain ⟨k, v⟩ := kv
      simp only [wfValueObj, Bool.and_eq_true] at hwfo
      obtain ⟨⟨hk, hv⟩, hrest⟩ := hwfo
      obtain ⟨ck, kcs, hkd, hkstart, hkall⟩ := isValidName_data hk
      obtain ⟨hws2, hdig, hdol, hq, hlb, hrb, hlc, hrc, hminus, hdot,
        hcol, hlp, hrp, heq⟩ := nameStart_not_special hkstart
      obtain ⟨cv, vcs, hvd, hvws, hvrb, hvrc⟩ := append_value_head v hv
      have hk1 : 1 ≤ k.data.length := by rw [hkd]; simp
      have hpv1 : 1 ≤ (append_value v).data.length := by rw [hvd]; simp
      cases rest with
      | nil =>
        have hlo : (argsJoin [(k, v)]).data.length =
            k.data.length + 2 + (append_value v).data.length := by
          simp [argsJoin, String.data_append]
          omega
        have hval := (parse_value_rt fuel).1 v [' '] (')' :: r) hv
          (by decide) rfl (by omega)
        have hval2 : parseValue fuel
            (' ' :: ((append_value v).data ++ ')' :: r)) =
            .ok (v, ')' :: r) := hval
        have h0 : (argsJoin []).data.length = 0 := rfl
        have hnil := ih [] [] r rfl allWS_nil (by omega)
        simp only [argsJoin, List.nil_append] at hnil
        have hsh : ws ++ (argsJoin [(k, v)]).data ++ ')' :: r =
            ws ++ ck :: (kcs ++ (':' :: ' ' ::
              ((append_value v).data ++ ')' :: r))) := by
          simp [argsJoin, hkd, String.data_append]
        rw [hsh, parseArgList_ws _ hws, parseArgList_cons fuel hws2,
          if_neg hrp,
          show ck :: (kcs ++ (':' :: ' ' ::
              ((append_value v).data ++ ')' :: r))) =
            k.data ++ (':' :: ' ' ::
              ((append_value v).data ++ ')' :: r)) from by
              rw [hkd, List.cons_append],
          parseRawName_append hk (by rfl)]
        simp only [skipWS_cons (show isWSCh ':' = false from by decide),
          hval2, hnil]
      | cons kv2 rest' =>
        have hlo : (argsJoin ((k, v) :: kv2 :: rest')).data.length
            = k.data.length + 2 + (append_value v).data.length + 2 +
              (argsJoin (kv2 :: rest')).data.length := by
          simp [argsJoin, String.data_append]
          omega
        have hval := (parse_value_rt fuel).1 v [' ']
          (',' :: ' ' :: ((argsJoin (kv2 :: rest')).data ++ ')' :: r))
          hv (by decide) rfl (by omega)
        have hval2 : parseValue fuel
            (' ' :: ((append_value v).data ++ (',' :: ' ' ::
              ((argsJoin (kv2 :: rest')).data ++ ')' :: r)))) =
            .ok (v, ',' :: ' ' ::
              ((argsJoin (kv2 :: rest')).data ++ ')' :: r)) := hval
        have hrest2 := ih (kv2 :: rest') [',', ' '] r hrest
          (by decide) (by omega)
        have hrest3 : parseArgList fuel
            (',' :: ' ' :: ((argsJoin (kv2 :: rest')).data ++
              ')' :: r)) = .ok (kv2 :: rest', r) := hrest2
        have hsh : ws ++ (argsJoin ((k, v) :: kv2 :: rest')).data ++
            ')' :: r = ws ++ ck ::
              (kcs ++ (':' :: ' ' ::
                ((append_value v).data ++ (',' :: ' ' ::
                  ((argsJoin (kv2 :: rest')).data ++ ')' :: r))))) := by
          simp [argsJoin, hkd, String.data_append]
        rw [hsh, parseArgList_ws _ hws, parseArgList_cons fuel hws2,
          if_neg hrp,
          show ck :: (kcs ++ (':' :: ' ' ::
              ((append_value v).data ++ (',' :: ' ' ::
                ((argsJoin (kv2 :: rest')).data ++ ')' :: r))))) =
            k.data ++ (':' :: ' ' ::
              ((append_value v).data ++ (',' :: ' ' ::
                ((argsJoin (kv2 :: rest')).data ++ ')' :: r)))) from by
              rw [hkd, List.cons_append],
          parseRawName_append hk (by rfl)]
        simp only [skipWS_cons (show isWSCh ':' = false from by decide),
          hval2, hrest3]

/-! ### Selection sets: unfolding and the next significant character -/

theorem parseSelectionSet_ws (fuel : Nat) {ws : List Char}
    (h : allWS ws = true) (s : List Char) :
    parseSelectionSet fuel (ws ++ s) = parseSelectionSet fuel s := by
  cases fuel with
  | zero => rfl
  | succ n =>
    simp only [parseSelectionSet]
    rw [skipWS_append h]

theorem parseSelectionSet_skipWS (fuel : Nat) (s : List Char) :
    parseSelectionSet fuel (skipWS s) = parseSelectionSet fuel s := by
  cases fuel with
  | zero => rfl
  | succ n =>
    simp only [parseSelectionSet]
    rw [skipWS_idem]

theorem parseSelectionSet_cons (fuel : Nat) {c : Char}
    (h : isWSCh c = false) (rest : List Char) :
    parseSelectionSet (fuel + 1) (c :: rest) =
      (if c = '\x7d' then .ok ([], rest)
      else if c = '.' then
        match rest with
        | c2 :: c3 :: r1 =>
          if c2 = '.' ∧ c3 = '.' then
            match skipWS r1 with
            | [] => .error ()
            | c4 :: r2 =>
              if c4 = '\x7b' then
                match parseSelectionSet fuel r2 with
                | .error e => .error e
                | .ok (sels, r3) =>
                  match parseSelectionSet fuel r3 with
                  | .error e => .error e
                  | .ok (more, r4) => .ok (.inlineFragment none sels :: more, r4)
              else
              match parseRawName (c4 :: r2) with
              | .error e => .error e
              | .ok (n, r2) =>
                if n = "on" then
                  match parseRawName (skipWS r2) with
                  | .error e => .error e
                  | .ok (t, r3) =>
                    match skipWS r3 with
                    | '\x7b' :: r4 =>
                      match parseSelectionSet fuel r4 with
                      | .error e => .error e
                      | .ok (sels, r5) =>
                        match parseSelectionSet fuel r5 with
                        | .error e => .error e
                        | .ok (more, r6) =>
                          .ok (.inlineFragment (some t) sels :: more, r6)
                    | _ => .error ()
                else
                  match parseSelectionSet fuel r2 with
                  | .error e => .error e
                  | .ok (more, r3) => .ok (.fragmentSpread n :: more, r3)
          else .error ()
        | _ => .error ()
      else
        match parseRawName (c :: rest) with
        | .error e => .error e
        | .ok (n, r) =>
          match parseOptArgs fuel r with
          | .error e => .error e
          | .ok (args, r2) =>
            match
              (match skipWS r2 with
               | [] => (Except.ok ([], []) :
                   Except Unit (List Selection × List Char))
               | c5 :: r3 =>
                 if c5 = '\x7b' then parseSelectionSet fuel r3
                 else .ok ([], c5 :: r3)) with
            | .error e => .error e
            | .ok (sels, r3) =>
              match parseSelectionSet fuel r3 with
              | .error e => .error e
              | .ok (more, r4) => .ok (.field n args sels :: more, r4)) := by
  simp only [parseSelectionSet]
  rw [skipWS_cons h]

/-- After the printed text of the remaining selections (then closing
whitespace and `\x7d`), the next significant character is never `(` or
`\x7b`. -/
theorem selSet_next (sels : List Selection) (ind : Nat)
    {wsEnd r : List Char} (hwf : wfSels sels = true)
    (hwsEnd : allWS wsEnd = true) :
    ∃ c cs,
      skipWS ((append_selection_set sels ind).data ++
        (wsEnd ++ '\x7d' :: r)) = c :: cs ∧
      isWSCh c = false ∧ c ≠ '(' ∧ c ≠ '\x7b' := by
  cases sels with
  | nil =>
    refine ⟨'\x7d', r, ?_, by decide, by decide, by decide⟩
    rw [show (append_selection_set [] ind).data = [] from rfl,
      List.nil_append, skipWS_append hwsEnd, skipWS_cons (by decide)]
  | cons s rest =>
    simp only [wfSels, Bool.and_eq_true] at hwf
    cases s with
    | field n args sels' =>
      have hn : isValidName n = true := by
        have := hwf.1
        simp only [wfSel, Bool.and_eq_true] at this
        exact this.1.1
      obtain ⟨cn, ncs, hnd, hnstart, _⟩ := isValidName_data hn
      obtain ⟨hws2, hdig, hdol, hq, hlb, hrb, hlc, hrc, hminus, hdot,
        hcol, hlp, hrp, heq⟩ := nameStart_not_special hnstart
      refine ⟨cn, ncs ++
        ((if args.isEmpty then "" else
            "(" ++ argsJoin args ++ ")").data ++
          ((if sels'.isEmpty then "\n" else
              " \x7b\n" ++ append_selection_set sels' (ind + 2) ++
                (⟨List.replicate ind ' '⟩ : String) ++ "\x7d\n").data ++
            ((append_selection_set rest ind).data ++
              (wsEnd ++ '\x7d' :: r)))), ?_, hws2, hlp, hlc⟩
      rw [show (append_selection_set (Selection.field n args sels' :: rest)
            ind).data ++ (wsEnd ++ '\x7d' :: r) =
          List.replicate ind ' ' ++ (cn :: (ncs ++
            ((if args.isEmpty then "" else
                "(" ++ argsJoin args ++ ")").data ++
              ((if sels'.isEmpty then "\n" else
                  " \x7b\n" ++ append_selection_set sels' (ind + 2) ++
                    (⟨List.replicate ind ' '⟩ : String) ++ "\x7d\n").data ++
                ((append_selection_set rest ind).data ++
                  (wsEnd ++ '\x7d' :: r)))))) from by
          simp [append_selection_set, appendSelection, hnd,
            String.data_append],
        skipWS_append (allWS_replicate ind), skipWS_cons hws2]
    | fragmentSpread n =>
      refine ⟨'.', '.' :: '.' :: (n.data ++ ('\n' ::
        ((append_selection_set rest ind).data ++ (wsEnd ++ '\x7d' :: r)))),
        ?_, by decide, by decide, by decide⟩
      rw [show (append_selection_set (Selection.fragmentSpread n :: rest)
            ind).data ++ (wsEnd ++ '\x7d' :: r) =
          List.replicate ind ' ' ++ ('.' :: '.' :: '.' :: (n.data ++ ('\n' ::
            ((append_selection_set rest ind).data ++
              (wsEnd ++ '\x7d' :: r))))) from by
          simp [append_selection_set, appendSelection, String.data_append],
        skipWS_append (allWS_replicate ind), skipWS_cons (by decide)]
    | inlineFragment cond sels' =>
      cases cond with
      | none =>
        refine ⟨'.', '.' :: '.' :: (' ' :: ('\x7b' :: '\n' ::
          ((append_selection_set sels' (ind + 2)).data ++
            (List.replicate ind ' ' ++ ('\x7d' :: '\n' ::
              ((append_selection_set rest ind).data ++
                (wsEnd ++ '\x7d' :: r))))))), ?_, by decide, by decide,
          by decide⟩
        rw [show (append_selection_set
              (Selection.inlineFragment none sels' :: rest) ind).data ++
              (wsEnd ++ '\x7d' :: r) =
            List.replicate ind ' ' ++ ('.' :: '.' :: '.' :: (' ' ::
              ('\x7b' :: '\n' ::
                ((append_selection_set sels' (ind + 2)).data ++
                  (List.replicate ind ' ' ++ ('\x7d' :: '\n' ::
                    ((append_selection_set rest ind).data ++
                      (wsEnd ++ '\x7d' :: r)))))))) from by
            simp [append_selection_set, appendSelection, String.data_append],
          skipWS_append (allWS_replicate ind), skipWS_cons (by decide)]
      | some t =>
        refine ⟨'.', '.' :: '.' :: (' ' :: ('o' :: 'n' :: ' ' :: (t.data ++
          (' ' :: '\x7b' :: '\n' ::
            ((append_selection_set sels' (ind + 2)).data ++
              (List.replicate ind ' ' ++ ('\x7d' :: '\n' ::
                ((append_selection_set rest ind).data ++
                  (wsEnd ++ '\x7d' :: r))))))))), ?_, by decide, by decide,
          by decide⟩
        rw [show (append_selection_set
              (Selection.inlineFragment (some t) sels' :: rest) ind).data ++
              (wsEnd ++ '\x7d' :: r) =
            List.replicate ind ' ' ++ ('.' :: '.' :: '.' :: (' ' ::
              ('o' :: 'n' :: ' ' :: (t.data ++ (' ' :: '\x7b' :: '\n' ::
                ((append_selection_set sels' (ind + 2)).data ++
                  (List.replicate ind ' ' ++ ('\x7d' :: '\n' ::
                    ((append_selection_set rest ind).data ++
                      (wsEnd ++ '\x7d' :: r)))))))))) from by
            simp [append_selection_set, appendSelection, String.data_append],
          skipWS_append (allWS_replicate ind), skipWS_cons (by decide)]

/-! ### The selection-set round trip -/

/-- `String.length` is the length of the character list. -/
theorem strDataLen (s : String) : s.data.length = s.length := rfl

/-- Printing then parsing a well-formed selection set is the identity:
for any indentation, insignificant prefix and closing whitespace, the
parser consumes exactly the printed selections up to the closing
`\x7d`. -/
theorem parseSelectionSet_rt : ∀ fuel sels ind ws wsEnd r,
    wfSels sels = true → allWS ws = true → allWS wsEnd = true →
    (append_selection_set sels ind).data.length + 2 ≤ fuel →
    parseSelectionSet fuel
      (ws ++ ((append_selection_set sels ind).data ++
        (wsEnd ++ '\x7d' :: r))) = .ok (sels, r) := by
  intro fuel
  induction fuel with
  | zero => intro sels ind ws wsEnd r _ _ _ h; omega
  | succ fuel ih =>
    intro sels ind ws wsEnd r hwf hws hwsEnd hlen
    cases sels with
    | nil =>
      rw [show (append_selection_set [] ind).data = [] from rfl,
        List.nil_append, parseSelectionSet_ws _ hws,
        parseSelectionSet_ws _ hwsEnd,
        parseSelectionSet_cons fuel (by decide), if_pos rfl]
    | cons s rest =>
      simp only [wfSels, Bool.and_eq_true] at hwf
      cases s with
      | field n args sels' =>
        have hws1 := hwf.1
        simp only [wfSel, Bool.and_eq_true] at hws1
        obtain ⟨⟨hn, hargs⟩, hsels'⟩ := hws1
        obtain ⟨cn, ncs, hnd, hnstart, hnall⟩ := isValidName_data hn
        obtain ⟨hws2, hdig, hdol, hq, hlb, hrb, hlc, hrc, hminus, hdot,
          hcol, hlp, hrp, heq⟩ := nameStart_not_special hnstart
        have hn1 : 1 ≤ n.data.length := by rw [hnd]; simp
        cases args with
        | cons a as =>
          cases sels' with
          | cons s1 ss =>
            have hbArgs : (argsJoin (a :: as)).data.length + 1 ≤
                (append_selection_set
                  (Selection.field n (a :: as) (s1 :: ss) :: rest)
                    ind).data.length := by
              simp [strDataLen, append_selection_set, appendSelection,
                String.data_append]
              omega
            have hbInner : (append_selection_set (s1 :: ss)
                  (ind + 2)).data.length + 1 ≤
                (append_selection_set
                  (Selection.field n (a :: as) (s1 :: ss) :: rest)
                    ind).data.length := by
              simp [strDataLen, append_selection_set, appendSelection,
                String.data_append]
              omega
            have hbMore : (append_selection_set rest ind).data.length + 1 ≤
                (append_selection_set
                  (Selection.field n (a :: as) (s1 :: ss) :: rest)
                    ind).data.length := by
              simp [strDataLen, append_selection_set, appendSelection,
                String.data_append]
              omega
            have hargsRT := parseArgList_rt fuel (a :: as) []
              (' ' :: '\x7b' :: '\n' ::
                ((append_selection_set (s1 :: ss) (ind + 2)).data ++
                  (List.replicate ind ' ' ++ ('\x7d' :: '\n' ::
                    ((append_selection_set rest ind).data ++
                      (wsEnd ++ '\x7d' :: r))))))
              hargs allWS_nil (by omega)
            rw [List.nil_append] at hargsRT
            have hinner := ih (s1 :: ss) (ind + 2) ['\n']
              (List.replicate ind ' ')
              ('\n' :: ((append_selection_set rest ind).data ++
                (wsEnd ++ '\x7d' :: r)))
              hsels' (by decide) (allWS_replicate ind) (by omega)
            simp only [List.cons_append, List.nil_append] at hinner
            have hmore := ih rest ind ['\n'] wsEnd r hwf.2 (by decide)
              hwsEnd (by omega)
            simp only [List.cons_append, List.nil_append] at hmore
            rw [show ws ++ ((append_selection_set
                  (Selection.field n (a :: as) (s1 :: ss) :: rest)
                    ind).data ++ (wsEnd ++ '\x7d' :: r)) =
                ws ++ (List.replicate ind ' ' ++ (cn :: (ncs ++
                  ('(' :: ((argsJoin (a :: as)).data ++ (')' :: ' ' ::
                    '\x7b' :: '\n' ::
                    ((append_selection_set (s1 :: ss) (ind + 2)).data ++
                      (List.replicate ind ' ' ++ ('\x7d' :: '\n' ::
                        ((append_selection_set rest ind).data ++
                          (wsEnd ++ '\x7d' :: r))))))))))) from by
                simp [append_selection_set, appendSelection, hnd,
                  String.data_append],
              parseSelectionSet_ws _ hws,
              parseSelectionSet_ws _ (allWS_replicate ind),
              parseSelectionSet_cons fuel hws2, if_neg hrc, if_neg hdot,
              show cn :: (ncs ++ ('(' :: ((argsJoin (a :: as)).data ++
                  (')' :: ' ' :: '\x7b' :: '\n' ::
                    ((append_selection_set (s1 :: ss) (ind + 2)).data ++
                      (List.replicate ind ' ' ++ ('\x7d' :: '\n' ::
                        ((append_selection_set rest ind).data ++
                          (wsEnd ++ '\x7d' :: r))))))))) =
                n.data ++ ('(' :: ((argsJoin (a :: as)).data ++
                  (')' :: ' ' :: '\x7b' :: '\n' ::
                    ((append_selection_set (s1 :: ss) (ind + 2)).data ++
                      (List.replicate ind ' ' ++ ('\x7d' :: '\n' ::
                        ((append_selection_set rest ind).data ++
                          (wsEnd ++ '\x7d' :: r)))))))) from by
                rw [hnd, List.cons_append],
              parseRawName_append hn (by rfl)]
            simp only [parseOptArgs,
              skipWS_cons (show isWSCh '(' = false from by decide),
              reduceIte, hargsRT,
              show ∀ X : List Char, skipWS (' ' :: '\x7b' :: X) =
                '\x7b' :: X from fun X => by
                rw [show ' ' :: '\x7b' :: X = [' '] ++ '\x7b' :: X from
                  rfl, skipWS_append (by decide),
                  skipWS_cons (by decide)],
              hinner, hmore]
          | nil =>
            have hbArgs : (argsJoin (a :: as)).data.length + 1 ≤
                (append_selection_set
                  (Selection.field n (a :: as) [] :: rest)
                    ind).data.length := by
              simp [strDataLen, append_selection_set, appendSelection,
                String.data_append]
              omega
            have hbMore : (append_selection_set rest ind).data.length + 1 ≤
                (append_selection_set
                  (Selection.field n (a :: as) [] :: rest)
                    ind).data.length := by
              simp [strDataLen, append_selection_set, appendSelection,
                String.data_append]
              omega
            obtain ⟨c2, cs2, hsk, hskws, hsklp, hsklc⟩ :=
              selSet_next rest ind hwf.2 hwsEnd
            have hargsRT := parseArgList_rt fuel (a :: as) []
              ('\n' :: ((append_selection_set rest ind).data ++
                (wsEnd ++ '\x7d' :: r)))
              hargs allWS_nil (by omega)
            rw [List.nil_append] at hargsRT
            have hskAll : skipWS ('\n' ::
                ((append_selection_set rest ind).data ++
                  (wsEnd ++ '\x7d' :: r))) = c2 :: cs2 := by
              rw [show '\n' :: ((append_selection_set rest ind).data ++
                  (wsEnd ++ '\x7d' :: r)) =
                ['\n'] ++ ((append_selection_set rest ind).data ++
                  (wsEnd ++ '\x7d' :: r)) from rfl,
                skipWS_append (by decide), hsk]
            have hmore : parseSelectionSet fuel (c2 :: cs2) =
                .ok (rest, r) := by
              rw [← hsk, parseSelectionSet_skipWS]
              have := ih rest ind [] wsEnd r hwf.2 allWS_nil hwsEnd
                (by omega)
              rw [List.nil_append] at this
              exact this
            rw [show ws ++ ((append_selection_set
                  (Selection.field n (a :: as) [] :: rest) ind).data ++
                  (wsEnd ++ '\x7d' :: r)) =
                ws ++ (List.replicate ind ' ' ++ (cn :: (ncs ++
                  ('(' :: ((argsJoin (a :: as)).data ++ (')' :: '\n' ::
                    ((append_selection_set rest ind).data ++
                      (wsEnd ++ '\x7d' :: r)))))))) from by
                simp [append_selection_set, appendSelection, hnd,
                  String.data_append],
              parseSelectionSet_ws _ hws,
              parseSelectionSet_ws _ (allWS_replicate ind),
              parseSelectionSet_cons fuel hws2, if_neg hrc, if_neg hdot,
              show cn :: (ncs ++ ('(' :: ((argsJoin (a :: as)).data ++
                  (')' :: '\n' ::
                    ((append_selection_set rest ind).data ++
                      (wsEnd ++ '\x7d' :: r)))))) =
                n.data ++ ('(' :: ((argsJoin (a :: as)).data ++
                  (')' :: '\n' ::
                    ((append_selection_set rest ind).data ++
                      (wsEnd ++ '\x7d' :: r))))) from by
                rw [hnd, List.cons_append],
              parseRawName_append hn (by rfl)]
            simp only [parseOptArgs,
              skipWS_cons (show isWSCh '(' = false from by decide),
              reduceIte, hargsRT, hskAll, if_neg hsklc, hmore]
        | nil =>
          cases sels' with
          | cons s1 ss =>
            have hbInner : (append_selection_set (s1 :: ss)
                  (ind + 2)).data.length + 1 ≤
                (append_selection_set
                  (Selection.field n [] (s1 :: ss) :: rest)
                    ind).data.length := by
              simp [strDataLen, append_selection_set, appendSelection,
                String.data_append]
              omega
            have hbMore : (append_selection_set rest ind).data.length + 1 ≤
                (append_selection_set
                  (Selection.field n [] (s1 :: ss) :: rest)
                    ind).data.length := by
              simp [strDataLen, append_selection_set, appendSelection,
                String.data_append]
              omega
            have hinner := ih (s1 :: ss) (ind + 2) ['\n']
              (List.replicate ind ' ')
              ('\n' :: ((append_selection_set rest ind).data ++
                (wsEnd ++ '\x7d' :: r)))
              hsels' (by decide) (allWS_replicate ind) (by omega)
            simp only [List.cons_append, List.nil_append] at hinner
            have hmore := ih rest ind ['\n'] wsEnd r hwf.2 (by decide)
              hwsEnd (by omega)
            simp only [List.cons_append, List.nil_append] at hmore
            rw [show ws ++ ((append_selection_set
                  (Selection.field n [] (s1 :: ss) :: rest) ind).data ++
                  (wsEnd ++ '\x7d' :: r)) =
                ws ++ (List.replicate ind ' ' ++ (cn :: (ncs ++
                  (' ' :: '\x7b' :: '\n' ::
                    ((append_selection_set (s1 :: ss) (ind + 2)).data ++
                      (List.replicate ind ' ' ++ ('\x7d' :: '\n' ::
                        ((append_selection_set rest ind).data ++
                          (wsEnd ++ '\x7d' :: r))))))))) from by
                simp [append_selection_set, appendSelection, hnd,
                  String.data_append],
              parseSelectionSet_ws _ hws,
              parseSelectionSet_ws _ (allWS_replicate ind),
              parseSelectionSet_cons fuel hws2, if_neg hrc, if_neg hdot,
              show cn :: (ncs ++ (' ' :: '\x7b' :: '\n' ::
                  ((append_selection_set (s1 :: ss) (ind + 2)).data ++
                    (List.replicate ind ' ' ++ ('\x7d' :: '\n' ::
                      ((append_selection_set rest ind).data ++
                        (wsEnd ++ '\x7d' :: r))))))) =
                n.data ++ (' ' :: '\x7b' :: '\n' ::
                  ((append_selection_set (s1 :: ss) (ind + 2)).data ++
                    (List.replicate ind ' ' ++ ('\x7d' :: '\n' ::
                      ((append_selection_set rest ind).data ++
                        (wsEnd ++ '\x7d' :: r)))))) from by
                rw [hnd, List.cons_append],
              parseRawName_append hn (by rfl)]
            simp [parseOptArgs,
              show ∀ X : List Char, skipWS (' ' :: '\x7b' :: X) =
                '\x7b' :: X from fun X => by
                rw [show ' ' :: '\x7b' :: X = [' '] ++ '\x7b' :: X from
                  rfl, skipWS_append (by decide),
                  skipWS_cons (by decide)],
              skipWS_cons (show isWSCh '\x7b' = false from by decide),
              hinner, hmore]
          | nil =>
            have hbMore : (append_selection_set rest ind).data.length + 1 ≤
                (append_selection_set
                  (Selection.field n [] [] :: rest) ind).data.length := by
              simp [strDataLen, append_selection_set, appendSelection,
                String.data_append]
              omega
            obtain ⟨c2, cs2, hsk, hskws, hsklp, hsklc⟩ :=
              selSet_next rest ind hwf.2 hwsEnd
            have hskAll : skipWS ('\n' ::
                ((append_selection_set rest ind).data ++
                  (wsEnd ++ '\x7d' :: r))) = c2 :: cs2 := by
              rw [show '\n' :: ((append_selection_set rest ind).data ++
                  (wsEnd ++ '\x7d' :: r)) =
                ['\n'] ++ ((append_selection_set rest ind).data ++
                  (wsEnd ++ '\x7d' :: r)) from rfl,
                skipWS_append (by decide), hsk]
            have hmore : parseSelectionSet fuel (c2 :: cs2) =
                .ok (rest, r) := by
              rw [← hsk, parseSelectionSet_skipWS]
              have := ih rest ind [] wsEnd r hwf.2 allWS_nil hwsEnd
                (by omega)
              rw [List.nil_append] at this
              exact this
            rw [show ws ++ ((append_selection_set
                  (Selection.field n [] [] :: rest) ind).data ++
                  (wsEnd ++ '\x7d' :: r)) =
                ws ++ (List.replicate ind ' ' ++ (cn :: (ncs ++
                  ('\n' :: ((append_selection_set rest ind).data ++
                    (wsEnd ++ '\x7d' :: r)))))) from by
                simp [append_selection_set, appendSelection, hnd,
                  String.data_append],
              parseSelectionSet_ws _ hws,
              parseSelectionSet_ws _ (allWS_replicate ind),
              parseSelectionSet_cons fuel hws2, if_neg hrc, if_neg hdot,
              show cn :: (ncs ++ ('\n' ::
                  ((append_selection_set rest ind).data ++
                    (wsEnd ++ '\x7d' :: r)))) =
                n.data ++ ('\n' ::
                  ((append_selection_set rest ind).data ++
                    (wsEnd ++ '\x7d' :: r))) from by
                rw [hnd, List.cons_append],
              parseRawName_append hn (by rfl)]
            simp only [parseOptArgs, hskAll, if_neg hsklp, if_neg hsklc,
              skipWS_cons hskws, hmore]
      | fragmentSpread n =>
        have hws1 := hwf.1
        simp only [wfSel, Bool.and_eq_true, bne_iff_ne] at hws1
        obtain ⟨hn, hnon⟩ := hws1
        obtain ⟨cn, ncs, hnd, hnstart, hnall⟩ := isValidName_data hn
        obtain ⟨hws2, hdig, hdol, hq, hlb, hrb, hlc, hrc, hminus, hdot,
          hcol, hlp, hrp, heq⟩ := nameStart_not_special hnstart
        have hbMore : (append_selection_set rest ind).data.length + 1 ≤
            (append_selection_set
              (Selection.fragmentSpread n :: rest) ind).data.length := by
          simp [strDataLen, append_selection_set, appendSelection,
            String.data_append]
          omega
        have hmore := ih rest ind ['\n'] wsEnd r hwf.2 (by decide)
          hwsEnd (by omega)
        simp only [List.cons_append, List.nil_append] at hmore
        have hskn : skipWS (n.data ++ ('\n' ::
            ((append_selection_set rest ind).data ++
              (wsEnd ++ '\x7d' :: r)))) =
            cn :: (ncs ++ ('\n' ::
              ((append_selection_set rest ind).data ++
                (wsEnd ++ '\x7d' :: r)))) := by
          rw [hnd, List.cons_append, skipWS_cons hws2]
        have hpn : parseRawName (cn :: (ncs ++ ('\n' ::
            ((append_selection_set rest ind).data ++
              (wsEnd ++ '\x7d' :: r))))) =
            .ok (n, '\n' :: ((append_selection_set rest ind).data ++
              (wsEnd ++ '\x7d' :: r))) := by
          rw [show cn :: (ncs ++ ('\n' ::
              ((append_selection_set rest ind).data ++
                (wsEnd ++ '\x7d' :: r)))) =
            n.data ++ ('\n' :: ((append_selection_set rest ind).data ++
              (wsEnd ++ '\x7d' :: r))) from by
              rw [hnd, List.cons_append],
            parseRawName_append hn (by rfl)]
        rw [show ws ++ ((append_selection_set
              (Selection.fragmentSpread n :: rest) ind).data ++
              (wsEnd ++ '\x7d' :: r)) =
            ws ++ (List.replicate ind ' ' ++ ('.' :: '.' :: '.' ::
              (n.data ++ ('\n' :: ((append_selection_set rest ind).data ++
                (wsEnd ++ '\x7d' :: r)))))) from by
            simp [append_selection_set, appendSelection,
              String.data_append],
          parseSelectionSet_ws _ hws,
          parseSelectionSet_ws _ (allWS_replicate ind),
          parseSelectionSet_cons fuel (by decide)]
        simp [hskn, if_neg hlc, hpn, if_neg hnon, hmore]
      | inlineFragment cond sels' =>
        have hws1 := hwf.1
        simp only [wfSel, Bool.and_eq_true] at hws1
        cases cond with
        | none =>
          have hsels' : wfSels sels' = true := hws1.2
          have hbInner : (append_selection_set sels'
                (ind + 2)).data.length + 1 ≤
              (append_selection_set
                (Selection.inlineFragment none sels' :: rest)
                  ind).data.length := by
            simp [strDataLen, append_selection_set, appendSelection,
              String.data_append]
            omega
          have hbMore : (append_selection_set rest ind).data.length + 1 ≤
              (append_selection_set
                (Selection.inlineFragment none sels' :: rest)
                  ind).data.length := by
            simp [strDataLen, append_selection_set, appendSelection,
              String.data_append]
            omega
          have hinner := ih sels' (ind + 2) ['\n'] (List.replicate ind ' ')
            ('\n' :: ((append_selection_set rest ind).data ++
              (wsEnd ++ '\x7d' :: r)))
            hsels' (by decide) (allWS_replicate ind) (by omega)
          simp only [List.cons_append, List.nil_append] at hinner
          have hmore := ih rest ind ['\n'] wsEnd r hwf.2 (by decide)
            hwsEnd (by omega)
          simp only [List.cons_append, List.nil_append] at hmore
          have hskB : skipWS (' ' :: '\x7b' :: '\n' ::
              ((append_selection_set sels' (ind + 2)).data ++
                (List.replicate ind ' ' ++ ('\x7d' :: '\n' ::
                  ((append_selection_set rest ind).data ++
                    (wsEnd ++ '\x7d' :: r)))))) =
              '\x7b' :: ('\n' ::
                ((append_selection_set sels' (ind + 2)).data ++
                  (List.replicate ind ' ' ++ ('\x7d' :: '\n' ::
                    ((append_selection_set rest ind).data ++
                      (wsEnd ++ '\x7d' :: r)))))) := by
            rw [show (' ' :: '\x7b' :: '\n' ::
                ((append_selection_set sels' (ind + 2)).data ++
                  (List.replicate ind ' ' ++ ('\x7d' :: '\n' ::
                    ((append_selection_set rest ind).data ++
                      (wsEnd ++ '\x7d' :: r)))))) =
              [' '] ++ ('\x7b' :: '\n' ::
                ((append_selection_set sels' (ind + 2)).data ++
                  (List.replicate ind ' ' ++ ('\x7d' :: '\n' ::
                    ((append_selection_set rest ind).data ++
                      (wsEnd ++ '\x7d' :: r)))))) from rfl,
              skipWS_append (by decide), skipWS_cons (by decide)]
          rw [show ws ++ ((append_selection_set
                (Selection.inlineFragment none sels' :: rest) ind).data ++
                (wsEnd ++ '\x7d' :: r)) =
              ws ++ (List.replicate ind ' ' ++ ('.' :: '.' :: '.' ::
                (' ' :: '\x7b' :: '\n' ::
                  ((append_selection_set sels' (ind + 2)).data ++
                    (List.replicate ind ' ' ++ ('\x7d' :: '\n' ::
                      ((append_selection_set rest ind).data ++
                        (wsEnd ++ '\x7d' :: r)))))))) from by
              simp [append_selection_set, appendSelection,
                String.data_append],
            parseSelectionSet_ws _ hws,
            parseSelectionSet_ws _ (allWS_replicate ind),
            parseSelectionSet_cons fuel (by decide)]
          simp [hskB, hinner, hmore]
        | some t =>
          have ht : isValidName t = true := hws1.1
          have hsels' : wfSels sels' = true := hws1.2
          obtain ⟨ct, tcs, htd, htstart, htall⟩ := isValidName_data ht
          obtain ⟨htws, htdig, htdol, htq, htlb, htrb, htlc, htrc,
            htminus, htdot, htcol, htlp, htrp, hteq⟩ :=
            nameStart_not_special htstart
          have hbInner : (append_selection_set sels'
                (ind + 2)).data.length + 1 ≤
              (append_selection_set
                (Selection.inlineFragment (some t) sels' :: rest)
                  ind).data.length := by
            simp [strDataLen, append_selection_set, appendSelection,
              String.data_append]
            omega
          have hbMore : (append_selection_set rest ind).data.length + 1 ≤
              (append_selection_set
                (Selection.inlineFragment (some t) sels' :: rest)
                  ind).data.length := by
            simp [strDataLen, append_selection_set, appendSelection,
              String.data_append]
            omega
          have hinner := ih sels' (ind + 2) ['\n'] (List.replicate ind ' ')
            ('\n' :: ((append_selection_set rest ind).data ++
              (wsEnd ++ '\x7d' :: r)))
            hsels' (by decide) (allWS_replicate ind) (by omega)
          simp only [List.cons_append, List.nil_append] at hinner
          have hmore := ih rest ind ['\n'] wsEnd r hwf.2 (by decide)
            hwsEnd (by omega)
          simp only [List.cons_append, List.nil_append] at hmore
          have hskO : skipWS (' ' :: 'o' :: 'n' :: ' ' :: (t.data ++
              (' ' :: '\x7b' :: '\n' ::
                ((append_selection_set sels' (ind + 2)).data ++
                  (List.replicate ind ' ' ++ ('\x7d' :: '\n' ::
                    ((append_selection_set rest ind).data ++
                      (wsEnd ++ '\x7d' :: r)))))))) =
              'o' :: ('n' :: ' ' :: (t.data ++
                (' ' :: '\x7b' :: '\n' ::
                  ((append_selection_set sels' (ind + 2)).data ++
                    (List.replicate ind ' ' ++ ('\x7d' :: '\n' ::
                      ((append_selection_set rest ind).data ++
                        (wsEnd ++ '\x7d' :: r)))))))) := by
            rw [show (' ' :: 'o' :: 'n' :: ' ' :: (t.data ++
                (' ' :: '\x7b' :: '\n' ::
                  ((append_selection_set sels' (ind + 2)).data ++
                    (List.replicate ind ' ' ++ ('\x7d' :: '\n' ::
                      ((append_selection_set rest ind).data ++
                        (wsEnd ++ '\x7d' :: r)))))))) =
              [' '] ++ ('o' :: 'n' :: ' ' :: (t.data ++
                (' ' :: '\x7b' :: '\n' ::
                  ((append_selection_set sels' (ind + 2)).data ++
                    (List.replicate ind ' ' ++ ('\x7d' :: '\n' ::
                      ((append_selection_set rest ind).data ++
                        (wsEnd ++ '\x7d' :: r)))))))) from rfl,
              skipWS_append (by decide), skipWS_cons (by decide)]
          have hpnOn : parseRawName ('o' :: ('n' :: ' ' :: (t.data ++
              (' ' :: '\x7b' :: '\n' ::
                ((append_selection_set sels' (ind + 2)).data ++
                  (List.replicate ind ' ' ++ ('\x7d' :: '\n' ::
                    ((append_selection_set rest ind).data ++
                      (wsEnd ++ '\x7d' :: r))))))))) =
              .ok ("on", ' ' :: (t.data ++
                (' ' :: '\x7b' :: '\n' ::
                  ((append_selection_set sels' (ind + 2)).data ++
                    (List.replicate ind ' ' ++ ('\x7d' :: '\n' ::
                      ((append_selection_set rest ind).data ++
                        (wsEnd ++ '\x7d' :: r)))))))) := by
            rw [show ('o' :: ('n' :: ' ' :: (t.data ++
                (' ' :: '\x7b' :: '\n' ::
                  ((append_selection_set sels' (ind + 2)).data ++
                    (List.replicate ind ' ' ++ ('\x7d' :: '\n' ::
                      ((append_selection_set rest ind).data ++
                        (wsEnd ++ '\x7d' :: r))))))))) =
              "on".data ++ (' ' :: (t.data ++
                (' ' :: '\x7b' :: '\n' ::
                  ((append_selection_set sels' (ind + 2)).data ++
                    (List.replicate ind ' ' ++ ('\x7d' :: '\n' ::
                      ((append_selection_set rest ind).data ++
                        (wsEnd ++ '\x7d' :: r)))))))) from rfl,
              parseRawName_append (show isValidName "on" = true from by
                decide) (by rfl)]
          have hskT : skipWS (' ' :: (t.data ++
              (' ' :: '\x7b' :: '\n' ::
                ((append_selection_set sels' (ind + 2)).data ++
                  (List.replicate ind ' ' ++ ('\x7d' :: '\n' ::
                    ((append_selection_set rest ind).data ++
                      (wsEnd ++ '\x7d' :: r)))))))) =
              ct :: (tcs ++
                (' ' :: '\x7b' :: '\n' ::
                  ((append_selection_set sels' (ind + 2)).data ++
                    (List.replicate ind ' ' ++ ('\x7d' :: '\n' ::
                      ((append_selection_set rest ind).data ++
                        (wsEnd ++ '\x7d' :: r))))))) := by
            rw [htd, List.cons_append,
              show (' ' :: (ct :: (tcs ++
                  (' ' :: '\x7b' :: '\n' ::
                    ((append_selection_set sels' (ind + 2)).data ++
                      (List.replicate ind ' ' ++ ('\x7d' :: '\n' ::
                        ((append_selection_set rest ind).data ++
                          (wsEnd ++ '\x7d' :: r))))))))) =
                [' '] ++ (ct :: (tcs ++
                  (' ' :: '\x7b' :: '\n' ::
                    ((append_selection_set sels' (ind + 2)).data ++
                      (List.replicate ind ' ' ++ ('\x7d' :: '\n' ::
                        ((append_selection_set rest ind).data ++
                          (wsEnd ++ '\x7d' :: r)))))))) from rfl,
              skipWS_append (by decide), skipWS_cons htws]
          have hpnT : parseRawName (ct :: (tcs ++
              (' ' :: '\x7b' :: '\n' ::
                ((append_selection_set sels' (ind + 2)).data ++
                  (List.replicate ind ' ' ++ ('\x7d' :: '\n' ::
                    ((append_selection_set rest ind).data ++
                      (wsEnd ++ '\x7d' :: r)))))))) =
              .ok (t, ' ' :: '\x7b' :: '\n' ::
                ((append_selection_set sels' (ind + 2)).data ++
                  (List.replicate ind ' ' ++ ('\x7d' :: '\n' ::
                    ((append_selection_set rest ind).data ++
                      (wsEnd ++ '\x7d' :: r)))))) := by
            rw [show (ct :: (tcs ++
                (' ' :: '\x7b' :: '\n' ::
                  ((append_selection_set sels' (ind + 2)).data ++
                    (List.replicate ind ' ' ++ ('\x7d' :: '\n' ::
                      ((append_selection_set rest ind).data ++
                        (wsEnd ++ '\x7d' :: r)))))))) =
              t.data ++ (' ' :: '\x7b' :: '\n' ::
                ((append_selection_set sels' (ind + 2)).data ++
                  (List.replicate ind ' ' ++ ('\x7d' :: '\n' ::
                    ((append_selection_set rest ind).data ++
                      (wsEnd ++ '\x7d' :: r)))))) from by
                rw [htd, List.cons_append],
              parseRawName_append ht (by rfl)]
          have hskB : skipWS (' ' :: '\x7b' :: '\n' ::
              ((append_selection_set sels' (ind + 2)).data ++
                (List.replicate ind ' ' ++ ('\x7d' :: '\n' ::
                  ((append_selection_set rest ind).data ++
                    (wsEnd ++ '\x7d' :: r)))))) =
              '\x7b' :: ('\n' ::
                ((append_selection_set sels' (ind + 2)).data ++
                  (List.replicate ind ' ' ++ ('\x7d' :: '\n' ::
                    ((append_selection_set rest ind).data ++
                      (wsEnd ++ '\x7d' :: r)))))) := by
            rw [show (' ' :: '\x7b' :: '\n' ::
                ((append_selection_set sels' (ind + 2)).data ++
                  (List.replicate ind ' ' ++ ('\x7d' :: '\n' ::
                    ((append_selection_set rest ind).data ++
                      (wsEnd ++ '\x7d' :: r)))))) =
              [' '] ++ ('\x7b' :: '\n' ::
                ((append_selection_set sels' (ind + 2)).data ++
                  (List.replicate ind ' ' ++ ('\x7d' :: '\n' ::
                    ((append_selection_set rest ind).data ++
                      (wsEnd ++ '\x7d' :: r)))))) from rfl,
              skipWS_append (by decide), skipWS_cons (by decide)]
          rw [show ws ++ ((append_selection_set
                (Selection.inlineFragment (some t) sels' :: rest)
                  ind).data ++ (wsEnd ++ '\x7d' :: r)) =
              ws ++ (List.replicate ind ' ' ++ ('.' :: '.' :: '.' ::
                (' ' :: 'o' :: 'n' :: ' ' :: (t.data ++
                  (' ' :: '\x7b' :: '\n' ::
                    ((append_selection_set sels' (ind + 2)).data ++
                      (List.replicate ind ' ' ++ ('\x7d' :: '\n' ::
                        ((append_selection_set rest ind).data ++
                          (wsEnd ++ '\x7d' :: r)))))))))) from by
              simp [append_selection_set, appendSelection,
                String.data_append],
            parseSelectionSet_ws _ hws,
            parseSelectionSet_ws _ (allWS_replicate ind),
            parseSelectionSet_cons fuel (by decide)]
          simp [hskO, if_neg htlc, hpnOn, hskT, hpnT,
            hskB, hinner, hmore]

/-! ### Variable declarations: printing facts -/

theorem typeCh_facts {c : Char} (h : isTypeCh c = true) :
    isWSCh c = false ∧ c ≠ '=' := by
  simp only [isTypeCh, Bool.or_eq_true, beq_iff_eq] at h
  rcases h with ((h1 | h1) | h1) | h1
  · simp only [isNameChar, Bool.or_eq_true] at h1
    rcases h1 with h2 | h2
    · obtain ⟨hws, _, _, _, _, _, _, _, _, _, _, _, _, heq⟩ :=
        nameStart_not_special h2
      exact ⟨hws, heq⟩
    · obtain ⟨hws, _, _, _, _, _, _, _, _, heq, _, _, _⟩ :=
        digit_not_special h2
      exact ⟨hws, heq⟩
  · subst h1; exact ⟨by decide, by decide⟩
  · subst h1; exact ⟨by decide, by decide⟩
  · subst h1; exact ⟨by decide, by decide⟩

/-- When no declaration is kept, nothing is printed. -/
theorem varDeclsAux_filter_nil :
    ∀ (vds : List VariableDefinition) (used : List String) (b : Bool),
    keepDecls vds used = [] → varDeclsAux vds used b = "" := by
  intro vds
  induction vds with
  | nil => intro used b _; rfl
  | cons d rest ih =>
    intro used b hf
    rcases hc : used.contains d.name with _ | _
    · have hnm : d.name ∉ used := by simpa using hc
      have hf' : keepDecls rest used = [] := by
        rw [show keepDecls (d :: rest) used = keepDecls rest used from by
          simp [keepDecls, hnm]] at hf
        exact hf
      rw [show varDeclsAux (d :: rest) used b = varDeclsAux rest used b
        from by simp [varDeclsAux, hnm]]
      exact ih used b hf'
    · have hm : d.name ∈ used := by simpa using hc
      rw [show keepDecls (d :: rest) used = d :: keepDecls rest used
        from by simp [keepDecls, hm]] at hf
      exact absurd hf (by simp)

/-- With the first flag cleared, a nonempty kept list is printed with a
leading separator. -/
theorem varDeclsAux_false_eq :
    ∀ (vds : List VariableDefinition) (used : List String),
    keepDecls vds used ≠ [] →
    varDeclsAux vds used false = ", " ++ varDeclsAux vds used true := by
  intro vds
  induction vds with
  | nil => intro used h; exact absurd rfl h
  | cons d rest ih =>
    intro used h
    rcases hc : used.contains d.name with _ | _
    · have hnm : d.name ∉ used := by simpa using hc
      have h' : keepDecls rest used ≠ [] := by
        rw [show keepDecls (d :: rest) used = keepDecls rest used from by
          simp [keepDecls, hnm]] at h
        exact h
      rw [show varDeclsAux (d :: rest) used false =
          varDeclsAux rest used false from by simp [varDeclsAux, hnm],
        show varDeclsAux (d :: rest) used true =
          varDeclsAux rest used true from by simp [varDeclsAux, hnm]]
      exact ih used h'
    · have hm : d.name ∈ used := by simpa using hc
      apply String.ext
      rw [show varDeclsAux (d :: rest) used false =
          ", " ++ "$" ++ d.name ++ ": " ++ d.varType ++
            (match d.defaultValue with
             | some dv => " = " ++ append_value dv
             | none => "") ++ varDeclsAux rest used false from by
          simp [varDeclsAux, hm],
        show varDeclsAux (d :: rest) used true =
          "" ++ "$" ++ d.name ++ ": " ++ d.varType ++
            (match d.defaultValue with
             | some dv => " = " ++ append_value dv
             | none => "") ++ varDeclsAux rest used false from by
          simp [varDeclsAux, hm]]
      simp [String.data_append]

/-- The printed kept declarations start with a `$`. -/
theorem varDeclsAux_dollar :
    ∀ (vds : List VariableDefinition) (used : List String),
    keepDecls vds used ≠ [] →
    ∃ tl, (varDeclsAux vds used true).data = '$' :: tl := by
  intro vds
  induction vds with
  | nil => intro used h; exact absurd rfl h
  | cons d rest ih =>
    intro used h
    rcases hc : used.contains d.name with _ | _
    · have hnm : d.name ∉ used := by simpa using hc
      have h' : keepDecls rest used ≠ [] := by
        rw [show keepDecls (d :: rest) used = keepDecls rest used from by
          simp [keepDecls, hnm]] at h
        exact h
      obtain ⟨tl, htl⟩ := ih used h'
      refine ⟨tl, ?_⟩
      rw [show varDeclsAux (d :: rest) used true =
        varDeclsAux rest used true from by simp [varDeclsAux, hnm], htl]
    · have hm : d.name ∈ used := by simpa using hc
      refine ⟨d.name.data ++ (':' :: ' ' :: (d.varType.data ++
        (((match d.defaultValue with
           | some dv => " = " ++ append_value dv
           | none => "") : String).data ++
          (varDeclsAux rest used false).data))), ?_⟩
      rw [show varDeclsAux (d :: rest) used true =
          "" ++ "$" ++ d.name ++ ": " ++ d.varType ++
            (match d.defaultValue with
             | some dv => " = " ++ append_value dv
             | none => "") ++ varDeclsAux rest used false from by
          simp [varDeclsAux, hm]]
      simp [String.data_append]

theorem parseVarDef_skipWS (fuel : Nat) (s : List Char) :
    parseVarDef fuel (skipWS s) = parseVarDef fuel s := by
  simp only [parseVarDef]
  rw [skipWS_idem]

theorem parseVarDefs_skipWS (fuel : Nat) (s : List Char) :
    parseVarDefs fuel (skipWS s) = parseVarDefs fuel s := by
  cases fuel with
  | zero => rfl
  | succ n =>
    simp only [parseVarDefs]
    rw [parseVarDef_skipWS]

/-- Printing then parsing one kept declaration is the identity. -/
theorem parseVarDef_rt (fuel : Nat) (d : VariableDefinition)
    (ws r : List Char) (hwf : wfVarDef d = true) (hws : allWS ws = true)
    (hrT : headNotType r = true)
    (hrNE : ∀ cs, skipWS r ≠ '=' :: cs)
    (hfol : followerOK r = true)
    (hfuel : ∀ dv, d.defaultValue = some dv →
      (append_value dv).data.length < fuel) :
    parseVarDef fuel (ws ++ ((declText d).data ++ r)) = .ok (d, r) := by
  obtain ⟨dn, dt, dd⟩ := d
  simp only [wfVarDef, Bool.and_eq_true] at hwf
  obtain ⟨⟨hn, ht⟩, hdv⟩ := hwf
  obtain ⟨cn, ncs, hnd, hnstart, hnall⟩ := isValidName_data hn
  simp only [validTypeText, Bool.and_eq_true, Bool.not_eq_eq_eq_not,
    Bool.not_true, List.all_eq_true] at ht
  obtain ⟨hte, htall⟩ := ht
  rcases htd : dt.data with _ | ⟨ct, tcs⟩
  · rw [htd] at hte; exact absurd hte (by simp)
  have hmk : (⟨ct :: tcs⟩ : String) = dt := by rw [← htd]
  have hct : isTypeCh ct = true := by
    apply htall; rw [htd]; exact List.mem_cons_self ct tcs
  have htcs : ∀ x ∈ tcs, isTypeCh x = true := by
    intro x hx; apply htall; rw [htd]; exact List.mem_cons_of_mem ct hx
  obtain ⟨hctws, hcteq⟩ := typeCh_facts hct
  cases dd with
  | none =>
    have hsh : ws ++ ((declText ⟨dn, dt, none⟩).data ++ r) =
        ws ++ '$' :: (dn.data ++ (':' :: ' ' :: (dt.data ++ r))) := by
      simp [declText, String.data_append]
    have hpn : parseRawName (dn.data ++ (':' :: ' ' :: (dt.data ++ r))) =
        .ok (dn, ':' :: ' ' :: (dt.data ++ r)) :=
      parseRawName_append hn (by rfl)
    have hskT : skipWS (' ' :: (dt.data ++ r)) = ct :: (tcs ++ r) := by
      rw [show (' ' :: (dt.data ++ r)) = [' '] ++ (dt.data ++ r) from rfl,
        skipWS_append (by decide), htd, List.cons_append,
        skipWS_cons hctws]
    have htt : takeTypeChars (tcs ++ r) = (tcs, r) :=
      takeTypeChars_append htcs hrT
    rw [hsh]
    simp only [parseVarDef]
    rw [skipWS_append hws, skipWS_cons (by decide)]
    rcases hskr : skipWS r with _ | ⟨c5, cs5⟩
    · simp only [hpn, skipWS_cons (show isWSCh ':' = false from by decide),
        hskT, hct, htt, hskr]
      simp [hmk]
    · have hc5 : ¬(c5 = '=') := by
        intro he
        exact hrNE cs5 (by rw [hskr, he])
      simp only [hpn, skipWS_cons (show isWSCh ':' = false from by decide),
        hskT, hct, htt, hskr]
      simp [hc5, hmk]
  | some dv =>
    have hpv := hfuel dv rfl
    have hsh : ws ++ ((declText ⟨dn, dt, some dv⟩).data ++ r) =
        ws ++ '$' :: (dn.data ++ (':' :: ' ' :: (dt.data ++
          (' ' :: '=' :: ' ' :: ((append_value dv).data ++ r))))) := by
      simp [declText, String.data_append]
    have hval := (parse_value_rt fuel).1 dv [' '] r
      (by simpa using hdv) (by decide) hfol hpv
    have hval2 : parseValue fuel (' ' :: ((append_value dv).data ++ r)) =
        .ok (dv, r) := hval
    have hpn : parseRawName (dn.data ++ (':' :: ' ' :: (dt.data ++
        (' ' :: '=' :: ' ' :: ((append_value dv).data ++ r))))) =
        .ok (dn, ':' :: ' ' :: (dt.data ++
          (' ' :: '=' :: ' ' :: ((append_value dv).data ++ r)))) :=
      parseRawName_append hn (by rfl)
    have hskT : skipWS (' ' :: (dt.data ++
        (' ' :: '=' :: ' ' :: ((append_value dv).data ++ r)))) =
        ct :: (tcs ++ (' ' :: '=' :: ' ' ::
          ((append_value dv).data ++ r))) := by
      rw [show (' ' :: (dt.data ++ (' ' :: '=' :: ' ' ::
          ((append_value dv).data ++ r)))) =
        [' '] ++ (dt.data ++ (' ' :: '=' :: ' ' ::
          ((append_value dv).data ++ r))) from rfl,
        skipWS_append (by decide), htd, List.cons_append,
        skipWS_cons hctws]
    have htt : takeTypeChars (tcs ++ (' ' :: '=' :: ' ' ::
        ((append_value dv).data ++ r))) =
        (tcs, ' ' :: '=' :: ' ' :: ((append_value dv).data ++ r)) :=
      takeTypeChars_append htcs (by rfl)
    have hskE : skipWS (' ' :: '=' :: ' ' ::
        ((append_value dv).data ++ r)) =
        '=' :: (' ' :: ((append_value dv).data ++ r)) := by
      rw [show (' ' :: '=' :: ' ' :: ((append_value dv).data ++ r)) =
        [' '] ++ ('=' :: ' ' :: ((append_value dv).data ++ r)) from rfl,
        skipWS_append (by decide), skipWS_cons (by decide)]
    rw [hsh]
    simp only [parseVarDef]
    rw [skipWS_append hws, skipWS_cons (by decide)]
    simp only [hpn, skipWS_cons (show isWSCh ':' = false from by decide),
      hskT, hct, htt, hskE]
    simp [hval2, hmk]

/-- Printing then parsing the kept declarations is the identity. -/
theorem parseVarDefs_rt : ∀ fuel vds used ws r,
    (∀ d ∈ vds, wfVarDef d = true) → allWS ws = true →
    keepDecls vds used ≠ [] →
    (varDeclsAux vds used true).data.length + 2 ≤ fuel →
    parseVarDefs fuel (ws ++ ((varDeclsAux vds used true).data ++
      ')' :: r)) = .ok (keepDecls vds used, r) := by
  intro fuel
  induction fuel with
  | zero => intro vds used ws r _ _ _ h; omega
  | succ fuel ihf =>
    intro vds used ws r hwf hws hne hlen
    induction vds with
    | nil => exact absurd rfl hne
    | cons d rest ihd =>
      have hwd := hwf d (List.mem_cons_self d rest)
      have hwrest : ∀ x ∈ rest, wfVarDef x = true := fun x hx =>
        hwf x (List.mem_cons_of_mem d hx)
      rcases hc : used.contains d.name with _ | _
      · have hnm : d.name ∉ used := by simpa using hc
        have hkeq : keepDecls (d :: rest) used = keepDecls rest used := by
          simp [keepDecls, hnm]
        have hteq : varDeclsAux (d :: rest) used true =
            varDeclsAux rest used true := by
          simp [varDeclsAux, hnm]
        rw [hkeq, hteq]
        rw [hkeq] at hne
        rw [hteq] at hlen
        exact ihd hwrest hne hlen
      · have hm : d.name ∈ used := by simpa using hc
        have hkeq : keepDecls (d :: rest) used =
            d :: keepDecls rest used := by
          simp [keepDecls, hm]
        have hwd' := hwd
        simp only [wfVarDef, Bool.and_eq_true] at hwd'
        obtain ⟨cdn, dncs, hdnd, _, _⟩ := isValidName_data hwd'.1.1
        have hn1 : 1 ≤ d.name.length := by
          show 1 ≤ d.name.data.length
          rw [hdnd]; simp
        have hbDT : ∀ dv, d.defaultValue = some dv →
            (append_value dv).data.length + 1 ≤
              (declText d).data.length := by
          intro dv hdv
          simp [declText, hdv, strDataLen, String.data_append]
          omega
        have hdt2 : 2 ≤ (declText d).data.length := by
          simp [declText, strDataLen, String.data_append]
          omega
        have hLtext : (varDeclsAux (d :: rest) used true).data =
            (declText d).data ++ (varDeclsAux rest used false).data := by
          rw [show varDeclsAux (d :: rest) used true =
            "" ++ "$" ++ d.name ++ ": " ++ d.varType ++
              (match d.defaultValue with
               | some dv => " = " ++ append_value dv
               | none => "") ++ varDeclsAux rest used false from by
            simp [varDeclsAux, hm]]
          simp [declText, String.data_append]
        have hLl := congrArg List.length hLtext
        simp only [List.length_append] at hLl
        by_cases hfre : keepDecls rest used = []
        · have hrfalse : varDeclsAux rest used false = "" :=
            varDeclsAux_filter_nil rest used false hfre
          have hrt : (varDeclsAux (d :: rest) used true).data =
              (declText d).data := by
            rw [hLtext, hrfalse]
            simp
          have hdecl := parseVarDef_rt fuel d ws (')' :: r)
            hwd hws (by rfl)
            (by
              intro cs h
              rw [skipWS_cons (by decide)] at h
              injection h with h1 _
              exact absurd h1 (by decide))
            rfl
            (by
              intro dv hdv
              have := hbDT dv hdv
              have hrtl := congrArg List.length hrt
              omega)
          rw [show ws ++ ((varDeclsAux (d :: rest) used true).data ++
              ')' :: r) = ws ++ ((declText d).data ++ ')' :: r) from by
            rw [hrt]]
          simp only [parseVarDefs, hdecl,
            skipWS_cons (show isWSCh ')' = false from by decide)]
          simp [hkeq, hfre]
        · have hrfalse := varDeclsAux_false_eq rest used hfre
          obtain ⟨tl, htl⟩ := varDeclsAux_dollar rest used hfre
          have hrdata : (varDeclsAux rest used false).data =
              ',' :: ' ' :: (varDeclsAux rest used true).data := by
            rw [hrfalse]
            simp [String.data_append]
          have hrdl := congrArg List.length hrdata
          simp only [List.length_cons] at hrdl
          have hskr' : skipWS ((varDeclsAux rest used false).data ++
              ')' :: r) = '$' :: (tl ++ ')' :: r) := by
            rw [hrdata,
              show (',' :: ' ' :: (varDeclsAux rest used true).data) ++
                ')' :: r = [',', ' '] ++
                  ((varDeclsAux rest used true).data ++ ')' :: r) from by
                simp,
              skipWS_append (by decide), htl, List.cons_append,
              skipWS_cons (by decide)]
          have hdecl := parseVarDef_rt fuel d ws
            ((varDeclsAux rest used false).data ++ ')' :: r)
            hwd hws
            (by rw [hrdata]; rfl)
            (by
              intro cs h
              rw [hskr'] at h
              injection h with h1 _
              exact absurd h1 (by decide))
            (by rw [hrdata]; rfl)
            (by
              intro dv hdv
              have := hbDT dv hdv
              omega)
          have hrec := ihf rest used [',', ' '] r hwrest (by decide)
            hfre (by omega)
          have hrec2 : parseVarDefs fuel
              (',' :: ' ' :: ((varDeclsAux rest used true).data ++
                ')' :: r)) = .ok (keepDecls rest used, r) := hrec
          have hrec3 : parseVarDefs fuel
              ((varDeclsAux rest used false).data ++ ')' :: r) =
              .ok (keepDecls rest used, r) := by
            rw [show (varDeclsAux rest used false).data ++ ')' :: r =
              ',' :: ' ' :: ((varDeclsAux rest used true).data ++
                ')' :: r) from by rw [hrdata]; simp]
            exact hrec2
          have hrec4 : parseVarDefs fuel ('$' :: (tl ++ ')' :: r)) =
              .ok (keepDecls rest used, r) := by
            rw [← hskr', parseVarDefs_skipWS]
            exact hrec3
          rw [show ws ++ ((varDeclsAux (d :: rest) used true).data ++
              ')' :: r) = ws ++ ((declText d).data ++
                ((varDeclsAux rest used false).data ++ ')' :: r)) from by
            rw [hLtext]; simp]
          simp only [parseVarDefs, hdecl, hskr', hrec4]
          simp [hkeq, hrec4]

/-- Parsing the root field exactly as `create_field_query` prints it
(two-space indent, then the operation's closing `\x7d` and newline). -/
theorem parse_root_field (fuel : Nat) (f : QField)
    (hwf : wfField f = true)
    (hA : (argsJoin f.arguments).data.length + 2 ≤ fuel)
    (hI : (append_selection_set f.selectionSet 4).data.length + 2 ≤ fuel) :
    parseSelectionSet (fuel + 1) ('\n' :: ' ' :: ' ' :: (f.name.data ++
      (((if f.arguments.isEmpty then "" else
          "(" ++ argsJoin f.arguments ++ ")") : String).data ++
        (((if f.selectionSet.isEmpty then "" else
            " \x7b\n" ++ append_selection_set f.selectionSet 4 ++
              "  \x7d\n") : String).data ++
          ('\x7d' :: '\n' :: []))))) =
      .ok ([Selection.field f.name f.arguments f.selectionSet], ['\n']) := by
  obtain ⟨fn, fargs, fsels⟩ := f
  dsimp only at hA hI
  simp only [wfField, Bool.and_eq_true] at hwf
  obtain ⟨⟨hn, hargs⟩, hsels⟩ := hwf
  obtain ⟨cn, ncs, hnd, hnstart, hnall⟩ := isValidName_data hn
  obtain ⟨hws2, hdig, hdol, hq, hlb, hrb, hlc, hrc, hminus, hdot,
    hcol, hlp, hrp, heq⟩ := nameStart_not_special hnstart
  have hmoreClose : parseSelectionSet fuel ('\x7d' :: ['\n']) =
      .ok ([], ['\n']) := by
    rcases fuel with _ | g
    · omega
    · rw [parseSelectionSet_cons g (by decide), if_pos rfl]
  have hmoreNL : parseSelectionSet fuel ('\n' :: '\x7d' :: ['\n']) =
      .ok ([], ['\n']) := by
    rcases fuel with _ | g
    · omega
    · rw [show ('\n' :: '\x7d' :: ['\n'] : List Char) =
        ['\n'] ++ '\x7d' :: ['\n'] from rfl,
        parseSelectionSet_ws _ (by decide),
        parseSelectionSet_cons g (by decide), if_pos rfl]
  cases fargs with
  | cons a as =>
    have hargsRT1 := parseArgList_rt fuel (a :: as) []
    cases fsels with
    | cons s1 ss =>
      have hargsRT := hargsRT1
        (' ' :: '\x7b' :: '\n' ::
          ((append_selection_set (s1 :: ss) 4).data ++
            (' ' :: ' ' :: '\x7d' :: '\n' :: '\x7d' :: '\n' :: [])))
        hargs allWS_nil (by omega)
      rw [List.nil_append] at hargsRT
      have hinner := parseSelectionSet_rt fuel (s1 :: ss) 4 ['\n']
        [' ', ' '] ('\n' :: '\x7d' :: ['\n']) hsels (by decide)
        (by decide) (by omega)
      simp only [List.cons_append, List.nil_append] at hinner
      rw [show ('\n' :: ' ' :: ' ' :: (fn.data ++
          (((if (a :: as : List (String × GqlValue)).isEmpty then ""
              else "(" ++ argsJoin (a :: as) ++ ")") : String).data ++
            (((if (s1 :: ss : List Selection).isEmpty then "" else
                " \x7b\n" ++ append_selection_set (s1 :: ss) 4 ++
                  "  \x7d\n") : String).data ++
              ('\x7d' :: '\n' :: []))))) =
          ['\n', ' ', ' '] ++ (cn :: (ncs ++
            ('(' :: ((argsJoin (a :: as)).data ++
              (')' :: ' ' :: '\x7b' :: '\n' ::
                ((append_selection_set (s1 :: ss) 4).data ++
                  (' ' :: ' ' :: '\x7d' :: '\n' :: '\x7d' :: '\n' ::
                    []))))))) from by
          simp [hnd, String.data_append],
        parseSelectionSet_ws _ (by decide),
        parseSelectionSet_cons fuel hws2, if_neg hrc, if_neg hdot,
        show cn :: (ncs ++ ('(' :: ((argsJoin (a :: as)).data ++
            (')' :: ' ' :: '\x7b' :: '\n' ::
              ((append_selection_set (s1 :: ss) 4).data ++
                (' ' :: ' ' :: '\x7d' :: '\n' :: '\x7d' :: '\n' ::
                  [])))))) =
          fn.data ++ ('(' :: ((argsJoin (a :: as)).data ++
            (')' :: ' ' :: '\x7b' :: '\n' ::
              ((append_selection_set (s1 :: ss) 4).data ++
                (' ' :: ' ' :: '\x7d' :: '\n' :: '\x7d' :: '\n' ::
                  []))))) from by
          rw [hnd, List.cons_append],
        parseRawName_append hn (by rfl)]
      simp only [parseOptArgs,
        skipWS_cons (show isWSCh '(' = false from by decide),
        reduceIte, hargsRT,
        show ∀ X : List Char, skipWS (' ' :: '\x7b' :: X) =
          '\x7b' :: X from fun X => by
          rw [show ' ' :: '\x7b' :: X = [' '] ++ '\x7b' :: X from rfl,
            skipWS_append (by decide), skipWS_cons (by decide)],
        hinner, hmoreNL]
    | nil =>
      have hargsRT := hargsRT1 ('\x7d' :: '\n' :: []) hargs allWS_nil
        (by omega)
      rw [List.nil_append] at hargsRT
      rw [show ('\n' :: ' ' :: ' ' :: (fn.data ++
          (((if (a :: as : List (String × GqlValue)).isEmpty then ""
              else "(" ++ argsJoin (a :: as) ++ ")") : String).data ++
            (((if ([] : List Selection).isEmpty then "" else
                " \x7b\n" ++ append_selection_set [] 4 ++
                  "  \x7d\n") : String).data ++
              ('\x7d' :: '\n' :: []))))) =
          ['\n', ' ', ' '] ++ (cn :: (ncs ++
            ('(' :: ((argsJoin (a :: as)).data ++
              (')' :: '\x7d' :: '\n' :: []))))) from by
          simp [hnd, String.data_append],
        parseSelectionSet_ws _ (by decide),
        parseSelectionSet_cons fuel hws2, if_neg hrc, if_neg hdot,
        show cn :: (ncs ++ ('(' :: ((argsJoin (a :: as)).data ++
            (')' :: '\x7d' :: '\n' :: [])))) =
          fn.data ++ ('(' :: ((argsJoin (a :: as)).data ++
            (')' :: '\x7d' :: '\n' :: []))) from by
          rw [hnd, List.cons_append],
        parseRawName_append hn (by rfl)]
      simp only [parseOptArgs,
        skipWS_cons (show isWSCh '(' = false from by decide),
        reduceIte, hargsRT,
        skipWS_cons (show isWSCh '\x7d' = false from by decide)]
      simp [hmoreClose]
  | nil =>
    cases fsels with
    | cons s1 ss =>
      have hinner := parseSelectionSet_rt fuel (s1 :: ss) 4 ['\n']
        [' ', ' '] ('\n' :: '\x7d' :: ['\n']) hsels (by decide)
        (by decide) (by omega)
      simp only [List.cons_append, List.nil_append] at hinner
      rw [show ('\n' :: ' ' :: ' ' :: (fn.data ++
          (((if ([] : List (String × GqlValue)).isEmpty then ""
              else "(" ++ argsJoin [] ++ ")") : String).data ++
            (((if (s1 :: ss : List Selection).isEmpty then "" else
                " \x7b\n" ++ append_selection_set (s1 :: ss) 4 ++
                  "  \x7d\n") : String).data ++
              ('\x7d' :: '\n' :: []))))) =
          ['\n', ' ', ' '] ++ (cn :: (ncs ++
            (' ' :: '\x7b' :: '\n' ::
              ((append_selection_set (s1 :: ss) 4).data ++
                (' ' :: ' ' :: '\x7d' :: '\n' :: '\x7d' :: '\n' ::
                  []))))) from by
          simp [hnd, String.data_append],
        parseSelectionSet_ws _ (by decide),
        parseSelectionSet_cons fuel hws2, if_neg hrc, if_neg hdot,
        show cn :: (ncs ++ (' ' :: '\x7b' :: '\n' ::
            ((append_selection_set (s1 :: ss) 4).data ++
              (' ' :: ' ' :: '\x7d' :: '\n' :: '\x7d' :: '\n' ::
                [])))) =
          fn.data ++ (' ' :: '\x7b' :: '\n' ::
            ((append_selection_set (s1 :: ss) 4).data ++
              (' ' :: ' ' :: '\x7d' :: '\n' :: '\x7d' :: '\n' ::
                []))) from by
          rw [hnd, List.cons_append],
        parseRawName_append hn (by rfl)]
      simp only [parseOptArgs,
        show ∀ X : List Char, skipWS (' ' :: '\x7b' :: X) =
          '\x7b' :: X from fun X => by
          rw [show ' ' :: '\x7b' :: X = [' '] ++ '\x7b' :: X from rfl,
            skipWS_append (by decide), skipWS_cons (by decide)],
        reduceIte, hinner, hmoreNL]
      simp [skipWS_cons (show isWSCh '\x7b' = false from by decide),
        hinner, hmoreNL]
    | nil =>
      rw [show ('\n' :: ' ' :: ' ' :: (fn.data ++
          (((if ([] : List (String × GqlValue)).isEmpty then ""
              else "(" ++ argsJoin [] ++ ")") : String).data ++
            (((if ([] : List Selection).isEmpty then "" else
                " \x7b\n" ++ append_selection_set [] 4 ++
                  "  \x7d\n") : String).data ++
              ('\x7d' :: '\n' :: []))))) =
          ['\n', ' ', ' '] ++ (cn :: (ncs ++
            ('\x7d' :: '\n' :: []))) from by
          simp [hnd, String.data_append],
        parseSelectionSet_ws _ (by decide),
        parseSelectionSet_cons fuel hws2, if_neg hrc, if_neg hdot,
        show cn :: (ncs ++ ('\x7d' :: '\n' :: [])) =
          fn.data ++ ('\x7d' :: '\n' :: []) from by
          rw [hnd, List.cons_append],
        parseRawName_append hn (by rfl)]
      simp only [parseOptArgs,
        skipWS_cons (show isWSCh '\x7d' = false from by decide)]
      simp [hmoreClose,
        skipWS_cons (show isWSCh '\x7d' = false from by decide)]

/-- No declaration is kept when no variable is used. -/
theorem keepDecls_nil (vds : List VariableDefinition) :
    keepDecls vds [] = [] := by
  induction vds with
  | nil => rfl
  | cons d rest ih => simp [keepDecls, ih]

/-- Parsing the printed per-service operation text: keyword, projected
declarations, root field. -/
theorem parseOperation_text (fuel : Nat) (kw : String) (f : QField)
    (vds : List VariableDefinition) (used : List String)
    (hkw : kw = "query" ∨ kw = "mutation" ∨ kw = "subscription")
    (hwf : wfField f = true) (hvds : ∀ d ∈ vds, wfVarDef d = true)
    (hused : used = [] ∨ keepDecls vds used ≠ [])
    (hA : (argsJoin f.arguments).data.length + 2 ≤ fuel)
    (hI : (append_selection_set f.selectionSet 4).data.length + 2 ≤ fuel)
    (hV : (varDeclsAux vds used true).data.length + 2 ≤ fuel + 1) :
    parseOperation (fuel + 1)
      ((kw ++ (if used.isEmpty then "" else
          "(" ++ varDeclsAux vds used true ++ ")") ++ " \x7b\n  " ++
        f.name ++ (if f.arguments.isEmpty then "" else
          "(" ++ argsJoin f.arguments ++ ")") ++
        (if f.selectionSet.isEmpty then "" else
          " \x7b\n" ++ append_selection_set f.selectionSet 4 ++
            "  \x7d\n") ++ "\x7d\n").data) =
      .ok (mkOperation kw (keepDecls vds used)
        [Selection.field f.name f.arguments f.selectionSet], ['\n']) := by
  have hkwn : isValidName kw = true := by
    rcases hkw with h | h | h <;> subst h <;> decide
  have hkwb : (kw == "query" || kw == "mutation" ||
      kw == "subscription") = true := by
    rcases hkw with h | h | h <;> subst h <;> decide
  have hroot := parse_root_field fuel f hwf hA hI
  have hskRoot : ∀ X : List Char, skipWS (' ' :: '\x7b' :: X) =
      '\x7b' :: X := fun X => by
    rw [show ' ' :: '\x7b' :: X = [' '] ++ '\x7b' :: X from rfl,
      skipWS_append (by decide), skipWS_cons (by decide)]
  cases used with
  | nil =>
    have hsh : (kw ++ (if ([] : List String).isEmpty then "" else
          "(" ++ varDeclsAux vds [] true ++ ")") ++ " \x7b\n  " ++
        f.name ++ (if f.arguments.isEmpty then "" else
          "(" ++ argsJoin f.arguments ++ ")") ++
        (if f.selectionSet.isEmpty then "" else
          " \x7b\n" ++ append_selection_set f.selectionSet 4 ++
            "  \x7d\n") ++ "\x7d\n").data =
        kw.data ++ (' ' :: '\x7b' :: '\n' :: ' ' :: ' ' :: (f.name.data ++
          (((if f.arguments.isEmpty then "" else
              "(" ++ argsJoin f.arguments ++ ")") : String).data ++
            (((if f.selectionSet.isEmpty then "" else
                " \x7b\n" ++ append_selection_set f.selectionSet 4 ++
                  "  \x7d\n") : String).data ++
              ('\x7d' :: '\n' :: []))))) := by
      simp [String.data_append]
    rw [hsh]
    simp only [parseOperation]
    rw [show skipWS (kw.data ++ (' ' :: '\x7b' :: '\n' :: ' ' :: ' ' ::
        (f.name.data ++
          (((if f.arguments.isEmpty then "" else
              "(" ++ argsJoin f.arguments ++ ")") : String).data ++
            (((if f.selectionSet.isEmpty then "" else
                " \x7b\n" ++ append_selection_set f.selectionSet 4 ++
                  "  \x7d\n") : String).data ++
              ('\x7d' :: '\n' :: [])))))) =
        kw.data ++ (' ' :: '\x7b' :: '\n' :: ' ' :: ' ' :: (f.name.data ++
          (((if f.arguments.isEmpty then "" else
              "(" ++ argsJoin f.arguments ++ ")") : String).data ++
            (((if f.selectionSet.isEmpty then "" else
                " \x7b\n" ++ append_selection_set f.selectionSet 4 ++
                  "  \x7d\n") : String).data ++
              ('\x7d' :: '\n' :: []))))) from by
      obtain ⟨ck, kcs, hkd, hkstart, _⟩ := isValidName_data hkwn
      rw [hkd, List.cons_append,
        skipWS_cons (nameStart_not_special hkstart).1],
      parseRawName_append hkwn (by rfl)]
    simp [hkwb, hskRoot, hroot, keepDecls_nil,
      skipWS_cons (show isWSCh '\x7b' = false from by decide)]
  | cons u us =>
    have hne : keepDecls vds (u :: us) ≠ [] := by
      rcases hused with h | h
      · exact absurd h (by simp)
      · exact h
    have hdefs := parseVarDefs_rt (fuel + 1) vds (u :: us) []
      (' ' :: '\x7b' :: '\n' :: ' ' :: ' ' :: (f.name.data ++
        (((if f.arguments.isEmpty then "" else
            "(" ++ argsJoin f.arguments ++ ")") : String).data ++
          (((if f.selectionSet.isEmpty then "" else
              " \x7b\n" ++ append_selection_set f.selectionSet 4 ++
                "  \x7d\n") : String).data ++
            ('\x7d' :: '\n' :: [])))))
      hvds allWS_nil hne hV
    rw [List.nil_append] at hdefs
    have hsh : (kw ++ (if (u :: us : List String).isEmpty then "" else
          "(" ++ varDeclsAux vds (u :: us) true ++ ")") ++ " \x7b\n  " ++
        f.name ++ (if f.arguments.isEmpty then "" else
          "(" ++ argsJoin f.arguments ++ ")") ++
        (if f.selectionSet.isEmpty then "" else
          " \x7b\n" ++ append_selection_set f.selectionSet 4 ++
            "  \x7d\n") ++ "\x7d\n").data =
        kw.data ++ ('(' :: ((varDeclsAux vds (u :: us) true).data ++
          (')' :: (' ' :: '\x7b' :: '\n' :: ' ' :: ' ' :: (f.name.data ++
            (((if f.arguments.isEmpty then "" else
                "(" ++ argsJoin f.arguments ++ ")") : String).data ++
              (((if f.selectionSet.isEmpty then "" else
                  " \x7b\n" ++ append_selection_set f.selectionSet 4 ++
                    "  \x7d\n") : String).data ++
                ('\x7d' :: '\n' :: [])))))))) := by
      simp [String.data_append]
    rw [hsh]
    simp only [parseOperation]
    rw [show skipWS (kw.data ++ ('(' ::
        ((varDeclsAux vds (u :: us) true).data ++
          (')' :: (' ' :: '\x7b' :: '\n' :: ' ' :: ' ' :: (f.name.data ++
            (((if f.arguments.isEmpty then "" else
                "(" ++ argsJoin f.arguments ++ ")") : String).data ++
              (((if f.selectionSet.isEmpty then "" else
                  " \x7b\n" ++ append_selection_set f.selectionSet 4 ++
                    "  \x7d\n") : String).data ++
                ('\x7d' :: '\n' :: []))))))))) =
        kw.data ++ ('(' :: ((varDeclsAux vds (u :: us) true).data ++
          (')' :: (' ' :: '\x7b' :: '\n' :: ' ' :: ' ' :: (f.name.data ++
            (((if f.arguments.isEmpty then "" else
                "(" ++ argsJoin f.arguments ++ ")") : String).data ++
              (((if f.selectionSet.isEmpty then "" else
                  " \x7b\n" ++ append_selection_set f.selectionSet 4 ++
                    "  \x7d\n") : String).data ++
                ('\x7d' :: '\n' :: [])))))))) from by
      obtain ⟨ck, kcs, hkd, hkstart, _⟩ := isValidName_data hkwn
      rw [hkd, List.cons_append,
        skipWS_cons (nameStart_not_special hkstart).1],
      parseRawName_append hkwn (by rfl)]
    have hdefs2 : parseVarDefs (fuel + 1)
        ((varDeclsAux vds (u :: us) true).data ++
          (')' :: (' ' :: '\x7b' :: '\n' :: ' ' :: ' ' :: (f.name.data ++
            (((if f.arguments.isEmpty then "" else
                "(" ++ argsJoin f.arguments ++ ")") : String).data ++
              (((if f.selectionSet.isEmpty then "" else
                  " \x7b\n" ++ append_selection_set f.selectionSet 4 ++
                    "  \x7d\n") : String).data ++
                ('\x7d' :: '\n' :: []))))))) =
        .ok (keepDecls vds (u :: us),
          ' ' :: '\x7b' :: '\n' :: ' ' :: ' ' :: (f.name.data ++
            (((if f.arguments.isEmpty then "" else
                "(" ++ argsJoin f.arguments ++ ")") : String).data ++
              (((if f.selectionSet.isEmpty then "" else
                  " \x7b\n" ++ append_selection_set f.selectionSet 4 ++
                    "  \x7d\n") : String).data ++
                ('\x7d' :: '\n' :: []))))) := hdefs
    simp [hkwb, hdefs2, hskRoot, hroot,
      skipWS_cons (show isWSCh '(' = false from by decide),
      skipWS_cons (show isWSCh '\x7b' = false from by decide)]

/-- Parsing a planner-generated per-service operation text succeeds and
returns exactly the printed operation: the keyword for the operation
type, the kept declarations, and the routed field as single root. -/
theorem create_field_query_roundtrip (f : QField) (ot : String)
    (vds : List VariableDefinition) (used : List String)
    (hot : ot = "Query" ∨ ot = "Mutation" ∨ ot = "Subscription")
    (hwf : wfField f = true) (hvds : ∀ d ∈ vds, wfVarDef d = true)
    (hused : used = [] ∨ keepDecls vds used ≠ []) :
    parseDocument (create_field_query f ot vds used) =
      .ok ⟨[.operation (mkOperation (opKeyword ot) (keepDecls vds used)
        [Selection.field f.name f.arguments f.selectionSet])]⟩ := by
  have hcfq : create_field_query f ot vds used =
      opKeyword ot ++ (if used.isEmpty then "" else
        "(" ++ varDeclsAux vds used true ++ ")") ++ " \x7b\n  " ++
      f.name ++ (if f.arguments.isEmpty then "" else
        "(" ++ argsJoin f.arguments ++ ")") ++
      (if f.selectionSet.isEmpty then "" else
        " \x7b\n" ++ append_selection_set f.selectionSet 4 ++
          "  \x7d\n") ++ "\x7d\n" := by
    rcases hot with h | h | h <;> subst h <;> rfl
  have hkw : opKeyword ot = "query" ∨ opKeyword ot = "mutation" ∨
      opKeyword ot = "subscription" := by
    rcases hot with h | h | h <;> subst h
    · exact Or.inl rfl
    · exact Or.inr (Or.inl rfl)
    · exact Or.inr (Or.inr rfl)
  have hA : (argsJoin f.arguments).data.length + 2 ≤
      (create_field_query f ot vds used).data.length := by
    rw [hcfq]
    rcases harg : f.arguments with _ | ⟨a, as⟩ <;>
      rcases hkw with h | h | h <;> rw [h] <;>
      simp [argsJoin, String.data_append, strDataLen] <;> omega
  have hI : (append_selection_set f.selectionSet 4).data.length + 2 ≤
      (create_field_query f ot vds used).data.length := by
    rw [hcfq]
    rcases hsel : f.selectionSet with _ | ⟨s1, ss⟩ <;>
      rcases hkw with h | h | h <;> rw [h] <;>
      simp [append_selection_set, String.data_append, strDataLen] <;>
      omega
  have hV : (varDeclsAux vds used true).data.length + 2 ≤
      (create_field_query f ot vds used).data.length + 1 := by
    rw [hcfq]
    rcases hu : used with _ | ⟨u, us⟩
    · rw [show varDeclsAux vds [] true = "" from
        varDeclsAux_filter_nil vds [] true (keepDecls_nil vds)]
      rcases hkw with h | h | h <;> rw [h] <;>
        simp [String.data_append, strDataLen] <;> omega
    · rcases hkw with h | h | h <;> rw [h] <;>
        simp [String.data_append, strDataLen] <;> omega
  have hop := parseOperation_text
    ((create_field_query f ot vds used).data.length) (opKeyword ot)
    f vds used hkw hwf hvds hused hA hI hV
  rw [show parseDocument (create_field_query f ot vds used) =
      (match parseOperation
        ((create_field_query f ot vds used).data.length + 1)
        (create_field_query f ot vds used).data with
      | .error e => .error e
      | .ok (op, rest) =>
        match skipWS rest with
        | [] => .ok ⟨[.operation op]⟩
        | _ => .error ()) from rfl]
  rw [show (create_field_query f ot vds used).data =
    (opKeyword ot ++ (if used.isEmpty then "" else
        "(" ++ varDeclsAux vds used true ++ ")") ++ " \x7b\n  " ++
      f.name ++ (if f.arguments.isEmpty then "" else
        "(" ++ argsJoin f.arguments ++ ")") ++
      (if f.selectionSet.isEmpty then "" else
        " \x7b\n" ++ append_selection_set f.selectionSet 4 ++
          "  \x7d\n") ++ "\x7d\n").data from by rw [← hcfq]]
  rw [show ((opKeyword ot ++ (if used.isEmpty then "" else
        "(" ++ varDeclsAux vds used true ++ ")") ++ " \x7b\n  " ++
      f.name ++ (if f.arguments.isEmpty then "" else
        "(" ++ argsJoin f.arguments ++ ")") ++
      (if f.selectionSet.isEmpty then "" else
        " \x7b\n" ++ append_selection_set f.selectionSet 4 ++
          "  \x7d\n") ++ "\x7d\n").data).length =
    (create_field_query f ot vds used).data.length from by rw [← hcfq]]
  rw [hop]
  rfl

/-- C9 (counterexample): the claimed round trip fails on a string
argument containing a backslash.  `append_value` escapes only `"`
(src/query_planner.rs lines 176-185), so the backslash reaches the
printed text unescaped, where it forms an invalid escape sequence and
the query-language parser rejects the whole generated operation instead
of returning an equivalent AST. -/
theorem rewrite_roundtrip_counterexample :
    create_field_query ⟨"f", [("x", GqlValue.str "\x5c")], []⟩ "Query" []
      (find_variables_in_field ⟨"f", [("x", GqlValue.str "\x5c")], []⟩) =
      "query \x7b\n  f(x: \"\x5c\")\x7d\n" ∧
    parseDocument
      (create_field_query ⟨"f", [("x", GqlValue.str "\x5c")], []⟩
        "Query" []
        (find_variables_in_field
          ⟨"f", [("x", GqlValue.str "\x5c")], []⟩)) = .error () :=
  ⟨rfl, rfl⟩

/-- C9 (amended): the rewrite round trip holds on the printable
fragment.  For a routed field `f` that is well formed (valid GraphQL
names, no float arguments, no backslash inside string arguments, enum
names distinct from keyword literals, spread names distinct from `on`),
well-formed client declarations, a real operation type, and a variable
situation that avoids the unparseable `query()` header (no used
variable, or at least one used variable having a declaration), parsing
the planner-generated per-service operation succeeds and returns
exactly: the keyword for the operation type, the declarations kept by
the projection in order, and the routed field as the single root with
its original arguments and nested selections. -/
theorem rewrite_roundtrip (f : QField) (ot : String)
    (vds : List VariableDefinition)
    (hot : ot = "Query" ∨ ot = "Mutation" ∨ ot = "Subscription")
    (hwf : wfField f = true)
    (hvds : ∀ d ∈ vds, wfVarDef d = true)
    (hused : find_variables_in_field f = [] ∨
      keepDecls vds (find_variables_in_field f) ≠ []) :
    parseDocument (create_field_query f ot vds
        (find_variables_in_field f)) =
      .ok ⟨[.operation (mkOperation (opKeyword ot)
        (keepDecls vds (find_variables_in_field f))
        [Selection.field f.name f.arguments f.selectionSet])]⟩ :=
  create_field_query_roundtrip f ot vds (find_variables_in_field f)
    hot hwf hvds hused

/-- Witness for `rewrite_roundtrip`: a field with every argument kind
and selection form, routed with declarations of which `unused` is
projected away. -/
theorem rewrite_roundtrip_witness :
    wfField c9Field = true ∧ (∀ d ∈ c9Defs, wfVarDef d = true) ∧
    keepDecls c9Defs (find_variables_in_field c9Field) ≠ [] ∧
    parseDocument (create_field_query c9Field "Query" c9Defs
        (find_variables_in_field c9Field)) =
      .ok ⟨[.operation (mkOperation (opKeyword "Query")
        (keepDecls c9Defs (find_variables_in_field c9Field))
        [Selection.field c9Field.name c9Field.arguments
          c9Field.selectionSet])]⟩ :=
  ⟨by decide, by decide,
    by
      rw [show keepDecls c9Defs (find_variables_in_field c9Field) =
        [⟨"u", "ID!", some (GqlValue.str "d")⟩] from rfl]
      simp,
    rewrite_roundtrip c9Field "Query" c9Defs (Or.inl rfl) (by decide)
      (by decide)
      (Or.inr (by
        rw [show keepDecls c9Defs (find_variables_in_field c9Field) =
          [⟨"u", "ID!", some (GqlValue.str "d")⟩] from rfl]
        simp))⟩

end Portkey
